import Mathlib

/-!
# konzek-go-assignment: rate limiter, worker pool and HTTP gateway

A shallow embedding of `src/modules/limiter/limiter.go`,
`src/modules/worker_manager/worker_manager.go`, the middlewares of
`src/api/middlewares` (`ratelimit.go`, `CORS.go`, `CSRF.go`, `injection.go`),
`src/api/controllers/task_controller.go` and `enqueueJob` of
`src/api/routers/task_router.go`.

Conventions of the embedding:

* Go's `int` is the 64-bit signed integer: values are `Int`s and every arithmetic
  result is reduced by `wrapInt64`.
* A Go string is the `String` of its bytes; `strings.Split`, `strings.Contains` and
  `strconv.Atoi` work on these bytes.
* `os.Getenv` is a function `Env := String → String`; an unset variable reads as `""`.
* A Go `map[string]int` is an association list read with `UsageMap.get?`; indexing a
  missing key gives the zero value, as `m[k]` does in Go.
* `log.Panic`, `log.Fatal` and `panic(err)` are values of `Fault`; a function that can
  fault returns `Except Fault _`.
* Logging through `logger.GetLogger()` only writes to the log sinks and is left out.
* A handler is modelled by what it does with a request: the status and the message it
  answers, the response headers it sets, the statements it sends to the database, and
  whether it calls `next`. What a handler reads from outside (the parsed form, the
  body, the random source, the database) is an argument.
* The goroutines of the worker pool form a transition system (`Pool`, `Action`,
  `Pool.step`): one action is one statement of one goroutine, so every interleaving is
  a list of actions. A job `func()` is a number; a job that panics ends the process,
  since nothing recovers. `Gateway` adds the calls of `enqueueJob` to the pool; there
  a handler ends by returning or by panicking, and the deferred `wg.Done()` of a
  panicking closure runs before the process ends.
-/

namespace Konzek

/-! ## Machine integers -/

/-- Smallest value of Go's 64-bit `int`. -/
def minInt64 : Int := -9223372036854775808

/-- Largest value of Go's 64-bit `int`. -/
def maxInt64 : Int := 9223372036854775807

/-- Two's complement reduction of an integer to the range of a 64-bit `int`. -/
def wrapInt64 (x : Int) : Int :=
  (x + 9223372036854775808) % 18446744073709551616 - 9223372036854775808

/-! ## `strconv.Atoi` and `strconv.Itoa` (Go standard library) -/

/-- The two values of `strconv.NumError.Err`. -/
inductive NumError where
  | ErrSyntax
  | ErrRange
  deriving DecidableEq, Repr

/-- Largest `uint64`, the value `ParseUint` returns on overflow. -/
def maxUint64 : Nat := 18446744073709551615

/-- The overflow cutoff of `ParseUint` in base 10: `maxUint64 / 10 + 1`. -/
def cutoff10 : Nat := 1844674407370955162

/-- Digit loop of `strconv.ParseUint(s, 10, 64)`: `n` is the value accumulated so far.
A byte outside `'0'..'9'` is a syntax error with value 0; an overflow returns
`maxUint64` with a range error as soon as it is met. -/
def parseUintLoop : List Char → Nat → Nat × Option NumError
  | [], n => (n, none)
  | c :: cs, n =>
    if 48 ≤ c.toNat ∧ c.toNat ≤ 57 then
      if cutoff10 ≤ n then (maxUint64, some NumError.ErrRange)
      else
        let n1 := n * 10 + (c.toNat - 48)
        if maxUint64 < n1 then (maxUint64, some NumError.ErrRange)
        else parseUintLoop cs n1
    else (0, some NumError.ErrSyntax)

/-- Model of `strconv.ParseUint(s, 10, 64)`: the empty string is a syntax error. -/
def ParseUint (s : List Char) : Nat × Option NumError :=
  match s with
  | [] => (0, some NumError.ErrSyntax)
  | _ => parseUintLoop s 0

/-- The sign handling and range check of `strconv.ParseInt(s, 10, 0)` after the
leading sign has been removed. -/
def parseIntSigned (neg : Bool) (s : List Char) : Int × Option NumError :=
  match ParseUint s with
  | (_, some NumError.ErrSyntax) => (0, some NumError.ErrSyntax)
  | (un, _) =>
    if !neg && decide (9223372036854775808 ≤ un) then (maxInt64, some NumError.ErrRange)
    else if neg && decide (9223372036854775808 < un) then (minInt64, some NumError.ErrRange)
    else if neg then (-(un : Int), none)
    else ((un : Int), none)

/-- Model of `strconv.Atoi(s)`, which computes what `strconv.ParseInt(s, 10, 0)`
computes: an optional sign followed by at least one decimal digit. The result is the
pair `(value, err)` of the Go function, `err = none` standing for `nil`. -/
def Atoi (s : String) : Int × Option NumError :=
  match s.data with
  | [] => (0, some NumError.ErrSyntax)
  | c :: cs =>
    if c = '+' then parseIntSigned false cs
    else if c = '-' then parseIntSigned true cs
    else parseIntSigned false (c :: cs)

/-- Model of `strconv.Itoa(i)`: the decimal digits of `i`, after a `-` when `i < 0`. -/
def Itoa (i : Int) : String :=
  if i < 0 then "-" ++ Nat.repr (-i).toNat else Nat.repr i.toNat

/-! ## Environment and faults -/

/-- The process environment as read by `os.Getenv`. -/
abbrev Env := String → String

/-- Ways in which a call does not return normally. -/
inductive Fault where
  /-- `log.Panic(msg)` or `panic(err)`. -/
  | panic (msg : String)
  /-- `log.Fatal(msg)`: the process exits with status 1. -/
  | fatal (msg : String)
  /-- `log.Fatal(err)` for the error returned by `strconv.Atoi`. -/
  | fatalErr (err : NumError)
  deriving DecidableEq, Repr

/-- Whether the fault is a `log.Fatal`, which ends the process. -/
def Fault.isFatal : Fault → Bool
  | Fault.panic _ => false
  | Fault.fatal _ => true
  | Fault.fatalErr _ => true

/-! ## `limiter.Limiter` -/

/-- A Go `map[string]int` as an association list. -/
abbrev UsageMap := List (String × Int)

/-- Presence and value of a key: `v, ok := m[k]`. -/
def UsageMap.get? (m : UsageMap) (k : String) : Option Int :=
  match m with
  | [] => none
  | (k1, v) :: rest => if k1 = k then some v else UsageMap.get? rest k

/-- The Go expression `m[k]`: the zero value for a missing key. -/
def UsageMap.get (m : UsageMap) (k : String) : Int :=
  (UsageMap.get? m k).getD 0

/-- The Go statement `m[k] = v`. -/
def UsageMap.set (m : UsageMap) (k : String) (v : Int) : UsageMap :=
  match m with
  | [] => [(k, v)]
  | (k1, v1) :: rest => if k1 = k then (k, v) :: rest else (k1, v1) :: UsageMap.set rest k v

/-- The struct `Limiter`. -/
structure Limiter where
  UsageMap : UsageMap
  deriving DecidableEq, Repr

/-- `NewLimiter`: a limiter with an empty usage map. -/
def NewLimiter : Limiter :=
  { UsageMap := [] }

/-- `Limiter.ExceedsLimit`: the result of the call together with the limiter after
it. An empty `HTTP_RATE_LIMIT` panics; the error of `strconv.Atoi` is discarded. -/
def Limiter.ExceedsLimit (env : Env) (l : Limiter) (identifier : String) :
    Except Fault Bool × Limiter :=
  let limitStr := env "HTTP_RATE_LIMIT"
  if limitStr = "" then
    (Except.error (Fault.panic "HTTP_RATE_LIMIT is not set"), l)
  else
    let limit := (Atoi limitStr).1
    (Except.ok (decide (limit < l.UsageMap.get identifier)), l)

/-- `Limiter.Increment`: `l.UsageMap[identifier]++` in 64-bit arithmetic. -/
def Limiter.Increment (l : Limiter) (identifier : String) : Limiter :=
  { UsageMap := l.UsageMap.set identifier (wrapInt64 (l.UsageMap.get identifier + 1)) }

/-- The goroutine started by `Limiter.Initialize`: it sleeps `Window` seconds
(`SleepNs` nanoseconds, the 64-bit product `time.Duration(window) * time.Second`)
and then runs `ResetLoop.step`, forever. -/
structure ResetLoop where
  Window : Int
  SleepNs : Int
  deriving DecidableEq, Repr

/-- `Limiter.Initialize`: `log.Fatal` when `HTTP_RATE_LIMIT_WINDOW` is empty or
`strconv.Atoi` returns an error, otherwise the reset goroutine is started.
`HTTP_RATE_LIMIT` is not read. -/
def Limiter.Initialize (env : Env) (_l : Limiter) : Except Fault ResetLoop :=
  let windowStr := env "HTTP_RATE_LIMIT_WINDOW"
  if windowStr = "" then
    Except.error (Fault.fatal "HTTP_RATE_LIMIT_WINDOW is not set")
  else
    match Atoi windowStr with
    | (_, some err) => Except.error (Fault.fatalErr err)
    | (window, none) =>
      Except.ok { Window := window, SleepNs := wrapInt64 (window * 1000000000) }

/-- One iteration of the reset goroutine once its sleep is over:
`l.UsageMap = make(map[string]int)`. -/
def ResetLoop.step (_l : Limiter) : Limiter :=
  { UsageMap := [] }

/-- `GetLimiter`: the package variable `l` is `none` while it is `nil`. The result is
the limiter returned and the package variable after the call. -/
def GetLimiter (g : Option Limiter) : Limiter × Option Limiter :=
  match g with
  | none => (NewLimiter, some NewLimiter)
  | some l => (l, some l)

/-- A sequence of `Increment` calls, one for each key of `ks`, in order. -/
def incrementAll (l : Limiter) (ks : List String) : Limiter :=
  ks.foldl Limiter.Increment l

/-! ## `middlewares.RateLimitMiddleware` -/

/-- An incoming request: `Header` is `r.Header.Get`, which gives `""` for a header
that is not present. -/
structure Request where
  Header : String → String

/-- The response writer handed to a handler, as far as `responses.Error` depends on
it: `EncodeErr` is the error returned when the JSON body is written, `none` for `nil`. -/
structure ResponseWriter where
  EncodeErr : Option String
  deriving DecidableEq, Repr

/-- `GetRemoteAddr`. -/
def GetRemoteAddr (env : Env) (r : Request) : String :=
  let remoteAddr := r.Header "REMOTE_ADDR"
  let remoteAddr := if remoteAddr = "" then r.Header "X-Forwarded-For" else remoteAddr
  if env "ENV_LOCAL" = "true" then env "MOCK_REMOTE_ADDR" else remoteAddr

/-- What the handler built by `RateLimitMiddleware` did with one request:
`Error` is the call `responses.Error(w, code, message)` when one was made,
`NextCalled` says whether `next.ServeHTTP(w, r)` was reached, `Fault` is the panic that
left the handler, if any. -/
structure Served where
  Error : Option (Nat × String)
  NextCalled : Bool
  Fault : Option Fault
  deriving DecidableEq, Repr

/-- The outcome of a request that was handed to the next handler. -/
def Served.forwarded : Served :=
  { Error := none, NextCalled := true, Fault := none }

/-- `http.StatusBadRequest`. -/
def StatusBadRequest : Nat := 400

/-- `http.StatusTooManyRequests`. -/
def StatusTooManyRequests : Nat := 429

/-- The tail of both rejecting branches: `responses.Error(w, code, message)` followed
by `panic(err)` when it returned an error, and `return`. -/
def respondError (w : ResponseWriter) (code : Nat) (message : String) : Served :=
  match w.EncodeErr with
  | some err => { Error := some (code, message), NextCalled := false, Fault := some (Fault.panic err) }
  | none => { Error := some (code, message), NextCalled := false, Fault := none }

/-- The handler returned by `RateLimitMiddleware()(next)`, applied to `(w, r)`: the
outcome and the package variable of the limiter after the call. -/
def RateLimitMiddleware (env : Env) (g : Option Limiter) (w : ResponseWriter) (r : Request) :
    Served × Option Limiter :=
  let remoteAddr := GetRemoteAddr env r
  if remoteAddr = "" then
    (respondError w StatusBadRequest "Bad request, missing remote address", g)
  else
    let l := (GetLimiter g).1
    let l := l.Increment remoteAddr
    match l.ExceedsLimit env remoteAddr with
    | (Except.error f, l) => ({ Error := none, NextCalled := false, Fault := some f }, some l)
    | (Except.ok true, l) => (respondError w StatusTooManyRequests "Too many requests", some l)
    | (Except.ok false, l) => ({ Error := none, NextCalled := true, Fault := none }, some l)

/-- The handler applied to a sequence of requests, one after the other, on the same
limiter: the outcomes in order. A panic ends only the request it occurs in. -/
def serveAll (env : Env) : Option Limiter → List (ResponseWriter × Request) → List Served
  | _, [] => []
  | g, (w, r) :: rest =>
    let res := RateLimitMiddleware env g w r
    res.1 :: serveAll env res.2 rest

/-! ## `worker_manager` -/

/-- A job `func()`, identified by a number. -/
abbrev Job := Nat

/-- The struct `Worker`. `JobQueue` holds the jobs whose senders wait on the unbuffered
channel; `Starts` counts the goroutines started by `Worker.Start` for this worker. -/
structure Worker where
  ID : String
  JobQueue : List Job
  IsFree : Bool
  Starts : Nat
  deriving DecidableEq, Repr

/-- `NewWorker`. -/
def NewWorker (id : String) : Worker :=
  { ID := id, JobQueue := [], IsFree := true, Starts := 0 }

/-- `Worker.Start`: one more goroutine runs the worker's loop. -/
def Worker.Start (w : Worker) : Worker :=
  { w with Starts := w.Starts + 1 }

/-- `Worker.IsAvailable`. -/
def Worker.IsAvailable (w : Worker) : Bool :=
  w.IsFree

/-- The struct `WorkerManager`. -/
structure WorkerManager where
  Workers : List Worker
  deriving DecidableEq, Repr

/-- `WorkerManager.AddWorker`: append the worker, then start it. -/
def WorkerManager.AddWorker (wm : WorkerManager) (worker : Worker) : WorkerManager :=
  { Workers := wm.Workers ++ [worker.Start] }

/-- The loop `for i := 0; i < initialWorkers; i++` of `NewWorkerManager`, entered with
counter `i` and `todo` iterations left. -/
def NewWorkerManager.loop : Nat → Nat → WorkerManager → WorkerManager
  | 0, _, wm => wm
  | todo + 1, i, wm => NewWorkerManager.loop todo (i + 1) (wm.AddWorker (NewWorker (Itoa i)))

/-- `NewWorkerManager`: the loop body runs `initialWorkers` times, not at all when
`initialWorkers` is negative. -/
def NewWorkerManager (initialWorkers : Int) : WorkerManager :=
  NewWorkerManager.loop initialWorkers.toNat 0 { Workers := [] }

/-- `WorkerManager.Start`: `worker.Start()` for every worker of the list. -/
def WorkerManager.Start (wm : WorkerManager) : WorkerManager :=
  { Workers := wm.Workers.map Worker.Start }

/-- The loop of `WorkerManager.GetAvailableWorker` over the workers from position `i`
on: the first one whose `IsAvailable()` is true, with its position. -/
def GetAvailableWorker.scan : List Worker → Nat → Option (Nat × Worker)
  | [], _ => none
  | worker :: rest, i =>
    if worker.IsAvailable then some (i, worker) else GetAvailableWorker.scan rest (i + 1)

/-- `WorkerManager.GetAvailableWorker`: the pointer returned is given as the position in
`Workers` it was read from together with the worker it points to; `none` is `nil`. -/
def WorkerManager.GetAvailableWorker (wm : WorkerManager) : Option (Nat × Worker) :=
  GetAvailableWorker.scan wm.Workers 0

/-- A Go `map[string]bool` as an association list. -/
abbrev StatusMap := List (String × Bool)

/-- Presence and value of a key: `v, ok := status[k]`. -/
def StatusMap.get? (m : StatusMap) (k : String) : Option Bool :=
  match m with
  | [] => none
  | (k1, v) :: rest => if k1 = k then some v else StatusMap.get? rest k

/-- The Go statement `status[k] = v`. -/
def StatusMap.set (m : StatusMap) (k : String) (v : Bool) : StatusMap :=
  match m with
  | [] => [(k, v)]
  | (k1, v1) :: rest => if k1 = k then (k, v) :: rest else (k1, v1) :: StatusMap.set rest k v

/-- The loop of `WorkerManager.GetWorkerStatus`, entered with the map built so far. -/
def GetWorkerStatus.loop : List Worker → StatusMap → StatusMap
  | [], status => status
  | worker :: rest, status =>
    GetWorkerStatus.loop rest (status.set worker.ID worker.IsAvailable)

/-- `WorkerManager.GetWorkerStatus`. -/
def WorkerManager.GetWorkerStatus (wm : WorkerManager) : StatusMap :=
  GetWorkerStatus.loop wm.Workers []

/-- `GetWorkerManager`: `vm` is the package variable, `none` while it is `nil`. The
result is what the call returns and the package variable after it. `logger.Fatal` ends
the process when `strconv.Atoi` returns an error. -/
def GetWorkerManager (env : Env) (vm : Option WorkerManager) :
    Except Fault WorkerManager × Option WorkerManager :=
  match vm with
  | some wm => (Except.ok wm, some wm)
  | none =>
    let pool_size_str := env "HTTP_WORKER_POOL_SIZE"
    match Atoi pool_size_str with
    | (_, some err) => (Except.error (Fault.fatalErr err), none)
    | (pool_size, none) => (Except.ok (NewWorkerManager pool_size), some (NewWorkerManager pool_size))

/-! ## The goroutines of the worker pool

`Worker.Start` and `WorkerManager.AddJob` start goroutines. The pool is a transition
system: a state holds the program point of every goroutine, an action lets one
goroutine run one statement, and an execution is a list of actions. An action that is
not enabled (a blocked receive, an index that names no goroutine) leaves the state as
it is. -/

/-- Program points of the goroutine started by `Worker.Start`. -/
inductive LoopPc where
  /-- Blocked in `select` on `<-w.JobQueue`. -/
  | waiting
  /-- The job has been received; `w.IsFree = false` comes next. -/
  | received (job : Job)
  /-- `w.IsFree = false` has run; the call `job()` comes next. -/
  | marked (job : Job)
  /-- Inside `job()`. -/
  | running (job : Job)
  /-- `job()` has returned; `w.IsFree = true` comes next. -/
  | returned (job : Job)
  /-- `job()` panicked: nothing recovers, the goroutine is gone. -/
  | panicked (job : Job)
  deriving DecidableEq, Repr

/-- The value of `w.IsFree` that the loop last wrote on its way to a program point. -/
def LoopPc.flag : LoopPc → Bool
  | LoopPc.waiting => true
  | LoopPc.received _ => true
  | _ => false

/-- The job a goroutine is executing, if it is inside `job()`. -/
def LoopPc.executing : LoopPc → List Job
  | LoopPc.running job => [job]
  | _ => []

/-- The job a goroutine has received and not called yet. -/
def LoopPc.holding : LoopPc → List Job
  | LoopPc.received job => [job]
  | LoopPc.marked job => [job]
  | _ => []

/-- A worker together with the goroutines running its loop, one for each `Start`. -/
structure WorkerProc where
  worker : Worker
  Loops : List LoopPc
  deriving DecidableEq, Repr

/-- `Worker.AddJob`, the statement `w.JobQueue <- job`: the sender waits on the channel. -/
def WorkerProc.AddJob (p : WorkerProc) (job : Job) : WorkerProc :=
  { p with worker := { p.worker with JobQueue := p.worker.JobQueue ++ [job] } }

/-- One statement of the goroutine at position `n` of the worker, the job returning
when the goroutine is inside `job()`. The second component is the job whose call
`job()` was made by this step. -/
def WorkerProc.loopStep (p : WorkerProc) (n : Nat) : WorkerProc × List Job :=
  match p.Loops[n]? with
  | none => (p, [])
  | some LoopPc.waiting =>
    match p.worker.JobQueue with
    | [] => (p, [])
    | job :: rest =>
      ({ worker := { p.worker with JobQueue := rest },
         Loops := p.Loops.set n (LoopPc.received job) }, [])
  | some (LoopPc.received job) =>
    ({ worker := { p.worker with IsFree := false },
       Loops := p.Loops.set n (LoopPc.marked job) }, [])
  | some (LoopPc.marked job) =>
    ({ p with Loops := p.Loops.set n (LoopPc.running job) }, [job])
  | some (LoopPc.running job) =>
    ({ p with Loops := p.Loops.set n (LoopPc.returned job) }, [])
  | some (LoopPc.returned _) =>
    ({ worker := { p.worker with IsFree := true },
       Loops := p.Loops.set n LoopPc.waiting }, [])
  | some (LoopPc.panicked _) => (p, [])

/-- Program points of the goroutine started by `WorkerManager.AddJob`. -/
inductive DispatchPc where
  /-- In the loop over `wm.Workers`, about to call `IsAvailable()` on the worker at
  position `i`; `i` past the end means the loop is over and the outer `for` repeats. -/
  | scan (i : Nat)
  /-- `IsAvailable()` of worker `k` was true; `worker.AddJob(job)` comes next. -/
  | enter (k : Nat)
  /-- In `w.JobQueue <- job` on worker `k`, or past it. -/
  | send (k : Nat)
  deriving DecidableEq, Repr

/-- A goroutine started by `WorkerManager.AddJob`, with the job it was given. -/
structure Dispatcher where
  job : Job
  pc : DispatchPc
  deriving DecidableEq, Repr

/-- The job, while the goroutine has not sent it to a worker. -/
def Dispatcher.holding (d : Dispatcher) : List Job :=
  match d.pc with
  | DispatchPc.send _ => []
  | _ => [d.job]

/-- A state of the pool. `Submitted` lists the jobs passed to `AddJob` so far and
`Began` the jobs whose call `job()` has been made, both in order; `Crashed` says that a
job panicked, which ends the process. -/
structure Pool where
  Procs : List WorkerProc
  Dispatchers : List Dispatcher
  Submitted : List Job
  Began : List Job
  Crashed : Bool
  deriving DecidableEq, Repr

/-- The pool of a manager on which no job has been submitted: each worker has the
goroutines its `Start` calls made, all of them waiting. -/
def Pool.init (wm : WorkerManager) : Pool :=
  { Procs := wm.Workers.map
      (fun w => { worker := w, Loops := List.replicate w.Starts LoopPc.waiting }),
    Dispatchers := [], Submitted := [], Began := [], Crashed := false }

/-- The manager of a pool. -/
def Pool.manager (s : Pool) : WorkerManager :=
  { Workers := s.Procs.map (fun p => p.worker) }

/-- The jobs being executed, one entry for each goroutine inside `job()`. -/
def Pool.executing (s : Pool) : List Job :=
  s.Procs.flatMap (fun p => p.Loops.flatMap LoopPc.executing)

/-- The jobs handed to a worker, waiting on its channel or received, and not called. -/
def WorkerProc.holding (p : WorkerProc) : List Job :=
  p.worker.JobQueue ++ p.Loops.flatMap LoopPc.holding

/-- The jobs submitted and not called yet: those still with their dispatching
goroutine and those handed to a worker. -/
def Pool.pending (s : Pool) : List Job :=
  s.Dispatchers.flatMap Dispatcher.holding ++ s.Procs.flatMap WorkerProc.holding

/-- `WorkerManager.AddJob`: the call starts a goroutine and returns. -/
def Pool.AddJob (s : Pool) (job : Job) : Pool :=
  { s with Dispatchers := s.Dispatchers ++ [{ job := job, pc := DispatchPc.scan 0 }],
           Submitted := s.Submitted ++ [job] }

/-- One statement of the goroutine at position `d` among those started by
`WorkerManager.AddJob`. -/
def Pool.dispatchStep (s : Pool) (d : Nat) : Pool :=
  match s.Dispatchers[d]? with
  | none => s
  | some disp =>
    match disp.pc with
    | DispatchPc.scan i =>
      match s.Procs[i]? with
      | none => { s with Dispatchers := s.Dispatchers.set d { disp with pc := DispatchPc.scan 0 } }
      | some p =>
        if p.worker.IsAvailable then
          { s with Dispatchers := s.Dispatchers.set d { disp with pc := DispatchPc.enter i } }
        else
          { s with Dispatchers := s.Dispatchers.set d { disp with pc := DispatchPc.scan (i + 1) } }
    | DispatchPc.enter k =>
      match s.Procs[k]? with
      | none => s
      | some p =>
        { s with Procs := s.Procs.set k (p.AddJob disp.job),
                 Dispatchers := s.Dispatchers.set d { disp with pc := DispatchPc.send k } }
    | DispatchPc.send _ => s

/-- What can happen next in a pool. -/
inductive Action where
  /-- A call `wm.AddJob(job)`. -/
  | addJob (job : Job)
  /-- A call `worker.AddJob(job)` made directly on the worker at position `k`. -/
  | workerAddJob (k : Nat) (job : Job)
  /-- Dispatching goroutine `d` runs one statement. -/
  | dispatch (d : Nat)
  /-- Goroutine `n` of worker `k` runs one statement; a job it is executing returns. -/
  | loop (k n : Nat)
  /-- The job that goroutine `n` of worker `k` is executing panics. -/
  | panic (k n : Nat)
  deriving DecidableEq, Repr

/-- One action. Nothing runs in a process that has crashed. -/
def Pool.step (s : Pool) (a : Action) : Pool :=
  if s.Crashed then s
  else
    match a with
    | Action.addJob job => s.AddJob job
    | Action.workerAddJob k job =>
      match s.Procs[k]? with
      | none => s
      | some p => { s with Procs := s.Procs.set k (p.AddJob job),
                           Submitted := s.Submitted ++ [job] }
    | Action.dispatch d => s.dispatchStep d
    | Action.loop k n =>
      match s.Procs[k]? with
      | none => s
      | some p =>
        { s with Procs := s.Procs.set k (p.loopStep n).1,
                 Began := s.Began ++ (p.loopStep n).2 }
    | Action.panic k n =>
      match s.Procs[k]? with
      | none => s
      | some p =>
        match p.Loops[n]? with
        | some (LoopPc.running job) =>
          { s with Procs := s.Procs.set k { p with Loops := p.Loops.set n (LoopPc.panicked job) },
                   Crashed := true }
        | _ => s

/-- An execution: the actions of the list, one after the other. -/
def Pool.exec (s : Pool) (tr : List Action) : Pool :=
  tr.foldl Pool.step s

/-- The number written by a string of decimal digits, read after the digits of `n`. -/
def decimalValue : List Char → Nat → Nat
  | [], n => n
  | c :: cs, n => decimalValue cs (n * 10 + (c.toNat - 48))

/-- A pool of three workers, the first of them busy with job 3, on which `AddJob(7)`
has just been called. -/
def busyFirstPool : Pool :=
  { Procs := [{ worker := { ID := "0", JobQueue := [], IsFree := false, Starts := 1 },
                Loops := [LoopPc.running 3] },
              { worker := { ID := "1", JobQueue := [], IsFree := true, Starts := 1 },
                Loops := [LoopPc.waiting] },
              { worker := { ID := "2", JobQueue := [], IsFree := true, Starts := 1 },
                Loops := [LoopPc.waiting] }],
    Dispatchers := [{ job := 7, pc := DispatchPc.scan 0 }],
    Submitted := [3, 7], Began := [3], Crashed := false }

/-- The worker runs one goroutine, and its flag is the one that goroutine wrote last. -/
def WorkerProc.Single (p : WorkerProc) : Prop :=
  ∃ pc : LoopPc, p.Loops = [pc] ∧ p.worker.IsFree = pc.flag

/-- A worker made by `NewWorker` and started once, as the only worker of a pool. -/
def Pool.ofWorker (id : String) : Pool :=
  Pool.init { Workers := [(NewWorker id).Start] }

/-- The statements a loop goroutine runs from a program point until it waits again. -/
def LoopPc.rank : LoopPc → Nat
  | LoopPc.waiting => 0
  | LoopPc.received _ => 4
  | LoopPc.marked _ => 3
  | LoopPc.running _ => 2
  | LoopPc.returned _ => 1
  | LoopPc.panicked _ => 0

/-- The statements the goroutines of a worker run until the worker is idle: five for
each job waiting on the channel, after the job in hand. -/
def WorkerProc.work (p : WorkerProc) : Nat :=
  (p.Loops.map LoopPc.rank).sum + 5 * p.worker.JobQueue.length

/-- An idle worker: its goroutine waits, no sender waits on its channel, its flag is
true. -/
def WorkerProc.Quiet (p : WorkerProc) : Prop :=
  p.Loops = [LoopPc.waiting] ∧ p.worker.JobQueue = [] ∧ p.worker.IsFree = true

/-- No goroutine of the worker has been lost to a panic. -/
def WorkerProc.NoPanic (p : WorkerProc) : Prop :=
  ∀ job : Job, LoopPc.panicked job ∉ p.Loops

/-- An execution of a pool of two workers in which three jobs are submitted: job 1 has
returned, job 2 is being executed and job 3 is still with its dispatching goroutine. -/
def threeJobsRun : List Action :=
  [Action.addJob 1, Action.addJob 2, Action.addJob 3,
   Action.dispatch 0, Action.dispatch 0, Action.loop 0 0, Action.loop 0 0, Action.loop 0 0,
   Action.loop 0 0,
   Action.dispatch 1, Action.dispatch 1, Action.dispatch 1, Action.loop 1 0, Action.loop 1 0,
   Action.loop 1 0,
   Action.dispatch 2]

/-! ## `strings.Split` and `strings.Contains` (Go standard library)

A Go string is the `String` of its bytes, so a prefix or an occurrence is one of
bytes, as in Go. -/

/-- The cutting loop of `strings.Split(s, sep)` for a non-empty `sep`: `s` is cut at
the leftmost occurrence of `sep` and the search goes on behind it. `acc` holds the
piece being read, last byte first, and `skip` counts the bytes of the occurrence of
`sep` that are still to be passed over. -/
def Split.loop (sep : List Char) : List Char → List Char → Nat → List (List Char)
  | [], acc, _ => [acc.reverse]
  | _ :: rest, acc, skip + 1 => Split.loop sep rest acc skip
  | c :: rest, acc, 0 =>
    if sep.isPrefixOf (c :: rest) then acc.reverse :: Split.loop sep rest [] (sep.length - 1)
    else Split.loop sep (rest) (c :: acc) 0

/-- Model of `strings.Split(s, sep)`: the pieces of `s` between the occurrences of
`sep`. With the empty separator the string is cut behind every byte (behind every
UTF-8 sequence in Go, which is the same for ASCII text). -/
def Split (s sep : String) : List String :=
  if sep = "" then s.data.map (fun c => String.mk [c])
  else (Split.loop sep.data s.data [] 0).map String.mk

/-- The search of `strings.Contains(s, substr)` from each position of `s` in turn. -/
def Contains.scan (substr : List Char) : List Char → Bool
  | [] => substr.isEmpty
  | c :: rest => substr.isPrefixOf (c :: rest) || Contains.scan substr rest

/-- Model of `strings.Contains(s, substr)`: `substr` occurs in `s`. -/
def Contains (s substr : String) : Bool :=
  Contains.scan substr.data s.data

/-! ## Requests seen by the other middlewares -/

/-- The result of reading a request body to its end: the bytes it delivers and the
error that ends them, `none` for `io.EOF`. -/
structure BodyReader where
  Data : String
  Err : Option String
  deriving DecidableEq, Repr

/-- The error of `r.ParseForm()`, as far as the middleware tells errors apart. -/
inductive FormError where
  | ErrNotMultipart
  | other (msg : String)
  deriving DecidableEq, Repr

/-- A `url.Values`: keys with their lists of values. -/
abbrev Values := List (String × List String)

/-- The parts of a `*http.Request` that the CORS, CSRF and SQL injection middlewares
read, on top of the headers: the method, `r.Cookie(name)` (`none` for
`http.ErrNoCookie`), `r.FormValue(key)`, `r.URL.Query()`, the body (`none` for a nil
`r.Body`), and the error and the `r.PostForm` that `r.ParseForm()` leaves. -/
structure HttpRequest extends Request where
  Method : String := "GET"
  Cookie : String → Option String := fun _ => none
  FormValue : String → String := fun _ => ""
  Query : Values := []
  Body : Option BodyReader := none
  ParseFormErr : Option FormError := none
  PostForm : Values := []

/-! ## `middlewares.CORSMiddleware` -/

/-- The loop of `_contains(s, e)` over the pieces of `s`. -/
def _contains.loop (e : String) : List String → Bool
  | [] => false
  | a :: rest => if a = e then true else _contains.loop e rest

/-- Model of `_contains(s, e)`: `s` is split at the commas and `e` is looked for among
the pieces. -/
def _contains (s e : String) : Bool :=
  _contains.loop e (Split s ",")

/-- The loop over `allowedOrigins`: the value set for `Access-Control-Allow-Origin`,
`none` when the loop ends without setting the header. -/
def CORSMiddleware.loop (origin : String) : List String → Option String
  | [] => none
  | allowedOrigin :: rest =>
    if allowedOrigin = origin then some origin else CORSMiddleware.loop origin rest

/-- What the CORS handler did with a request: the three response headers it may set,
the status it wrote (`none` when it wrote none) and whether it called `next`. -/
structure CORSResponse where
  AllowOrigin : Option String
  AllowMethods : Option String
  AllowHeaders : Option String
  Status : Option Nat
  NextCalled : Bool
  deriving DecidableEq, Repr

/-- `http.StatusMethodNotAllowed`. -/
def StatusMethodNotAllowed : Nat := 405

/-- `http.StatusOK`. -/
def StatusOK : Nat := 200

/-- The handler returned by `CORSMiddleware()(next)`, applied to a request. -/
def CORSMiddleware (env : Env) (r : HttpRequest) : CORSResponse :=
  let origin := r.Header "Origin"
  let allowedOrigins := Split "," (env "HTTP_ALLOWED_ORIGINS")
  let allowOrigin := if origin ≠ "" then CORSMiddleware.loop origin allowedOrigins else none
  if env "HTTP_ALLOWED_METHODS" ≠ "*" ∧ _contains r.Method (env "HTTP_ALLOWED_METHODS") = false then
    { AllowOrigin := allowOrigin, AllowMethods := none, AllowHeaders := none,
      Status := some StatusMethodNotAllowed, NextCalled := false }
  else if r.Method = "OPTIONS" then
    { AllowOrigin := allowOrigin, AllowMethods := some (env "HTTP_ALLOWED_METHODS"),
      AllowHeaders := some (env "HTTP_ALLOWED_HEADERS"), Status := some StatusOK,
      NextCalled := false }
  else
    { AllowOrigin := allowOrigin, AllowMethods := none, AllowHeaders := none,
      Status := none, NextCalled := true }

/-- A configuration with a list of two origins and a list of two methods. -/
def corsEnv : Env := fun name =>
  if name = "HTTP_ALLOWED_ORIGINS" then "http://a.com,http://b.com"
  else if name = "HTTP_ALLOWED_METHODS" then "GET,POST"
  else ""

/-- A configuration with a list of two origins that allows every method. -/
def corsOriginEnv : Env := fun name =>
  if name = "HTTP_ALLOWED_ORIGINS" then "http://a.com,http://b.com"
  else if name = "HTTP_ALLOWED_METHODS" then "*"
  else ""

/-- A `GET` request sent from the origin `http://a.com`. -/
def getFromOriginA : HttpRequest :=
  { Header := fun name => if name = "Origin" then "http://a.com" else "", Method := "GET" }

/-! ## `middlewares.SQLInjectionMiddleware` -/

/-- The slice `patterns` of `isSQLInjection`. -/
def patterns : List String :=
  ["SELECT", "DELETE", "DROP TABLE", "INSERT INTO", "UPDATE", "1=1", "OR 1=1", "AND 1=1",
   "OR '1'='1", "AND '1'='1", "OR 1=1--", "AND 1=1--", "OR '1'='1--", "AND '1'='1--"]

/-- The loop of `isSQLInjection` over the patterns that are still to be tried. -/
def isSQLInjection.loop (value : String) : List String → Bool
  | [] => false
  | pattern :: rest =>
    if Contains value pattern then true else isSQLInjection.loop value rest

/-- Model of `isSQLInjection(value)`. -/
def isSQLInjection (value : String) : Bool :=
  isSQLInjection.loop value patterns

/-- The eight patterns of the shorter test. -/
def eightPatterns : List String :=
  ["SELECT", "DELETE", "DROP TABLE", "INSERT INTO", "UPDATE", "1=1", "OR '1'='1", "AND '1'='1"]

/-- The shorter test, as the specification words it: a case-sensitive substring test
of `v` against the eight patterns. -/
def containsOneOfEight (v : String) : Bool :=
  eightPatterns.any (fun p => Contains v p)

/-- The two nested loops over a `url.Values`: some value of some key is found by
`isSQLInjection`. -/
def anyValueInjected : Values → Bool
  | [] => false
  | (_, values) :: rest => values.any isSQLInjection || anyValueInjected rest

/-- `http.StatusInternalServerError`. -/
def StatusInternalServerError : Nat := 500

/-- The size `maxBodySize` of the part of the body that is read: `1 << 20`. -/
def maxBodySize : Nat := 1048576

/-- The result `(body, err)` of `ioutil.ReadAll(io.LimitReader(r.Body, maxBodySize))`:
the first `maxBodySize` bytes of the body, and the error of the body when it ends
before that. -/
def readLimited (b : BodyReader) : String × Option String :=
  (String.mk (b.Data.data.take maxBodySize),
   if b.Data.length < maxBodySize then b.Err else none)

/-- The outcome of `responses.Error(w, code, message)` followed by `return`, in a
handler that drops the error `responses.Error` returns. -/
def rejected (code : Nat) (message : String) : Served :=
  { Error := some (code, message), NextCalled := false, Fault := none }

/-- The part of the SQL injection handler from `r.ParseForm()` on. -/
def SQLInjectionMiddleware.form (r : HttpRequest) : Served :=
  match r.ParseFormErr with
  | some (FormError.other _) => rejected StatusInternalServerError "Internal Server Error"
  | _ =>
    if 0 < r.PostForm.length ∧ anyValueInjected r.PostForm = true then
      rejected StatusBadRequest "Potential SQL Injection Detected"
    else Served.forwarded

/-- The handler returned by `SQLInjectionMiddleware()(next)`, applied to a request. -/
def SQLInjectionMiddleware (r : HttpRequest) : Served :=
  if anyValueInjected r.Query = true then
    rejected StatusBadRequest "Potential SQL Injection Detected"
  else
    match r.Body with
    | some b =>
      match readLimited b with
      | (_, some _) => rejected StatusInternalServerError "Internal Server Error"
      | (body, none) =>
        if isSQLInjection body = true then
          rejected StatusBadRequest "Potential SQL Injection Detected"
        else SQLInjectionMiddleware.form r
    | none => SQLInjectionMiddleware.form r

/-- A `POST` request with the body `a=DROP+TABLE&b=%zz` of a URL-encoded form:
`r.ParseForm()` decodes the value `DROP TABLE` of `a` into `r.PostForm` and returns
the error of the escape `%zz`. -/
def brokenFormPost : HttpRequest :=
  { Header := fun name =>
      if name = "Content-Type" then "application/x-www-form-urlencoded" else "",
    Method := "POST",
    Body := some { Data := "a=DROP+TABLE&b=%zz", Err := none },
    ParseFormErr := some (FormError.other "invalid URL escape \"%zz\""),
    PostForm := [("a", ["DROP TABLE"])] }

/-- A `GET` request for `/api/tasks?page=1&size=1%20OR%201=1`. -/
def injectedQueryGet : HttpRequest :=
  { Header := fun _ => "", Method := "GET", Query := [("page", ["1"]), ("size", ["1 OR 1=1"])],
    Body := some { Data := "", Err := none } }

/-! ## `controllers.TaskController` -/

/-- The struct `models.Task`; the two times are seconds since the epoch. -/
structure Task where
  Id : Nat
  Title : String
  Description : String
  Status : String
  CreatedAt : Int
  UpdatedAt : Int
  deriving DecidableEq, Repr

/-- The database as the handlers use it. `Query` answers a statement with an error or
with rows, each of which `rows.Scan` turns into a task or an error; `QueryRow` with
its arguments gives what `Scan` gives; `Exec` gives the error of the statement, `none`
for `nil`. -/
structure DB where
  Query : String → Except String (List (Except String Task))
  QueryRow : String → List String → Except String Task
  Exec : String → Option String

/-- The payload handed to `responses.JSON`. -/
inductive Payload where
  | null
  | task (t : Task)
  | tasks (ts : List Task)
  deriving DecidableEq, Repr

/-- What a controller did with a request: the call of `responses.Error` or of
`responses.JSON`, and the statements it sent to the database with their arguments, in
the order of sending. -/
structure Handled where
  Error : Option (Nat × String)
  JSON : Option (Nat × Payload)
  Statements : List (String × List String)
  deriving DecidableEq, Repr

/-- `http.StatusNoContent`. -/
def StatusNoContent : Nat := 204

/-- The handler `GetTask(db)`, applied to a request with the route variables `vars`
(`none` when `mux.Vars(r)` is nil). -/
def GetTask (db : DB) (vars : Option (String → String)) : Handled :=
  match vars with
  | none => { Error := some (StatusBadRequest, "ID is required"), JSON := none, Statements := [] }
  | some vars =>
    if vars "id" = "" then
      { Error := some (StatusBadRequest, "ID is required"), JSON := none, Statements := [] }
    else
      let id := vars "id"
      if (Atoi id).2 ≠ none then
        { Error := some (StatusBadRequest, "ID must be numeric"), JSON := none,
          Statements := [] }
      else
        match db.QueryRow "SELECT * FROM tasks WHERE id = $1" [id] with
        | Except.error _ =>
          { Error := some (StatusInternalServerError, "Could not get task from database"),
            JSON := none, Statements := [("SELECT * FROM tasks WHERE id = $1", [id])] }
        | Except.ok task =>
          { Error := none, JSON := some (StatusOK, Payload.task task),
            Statements := [("SELECT * FROM tasks WHERE id = $1", [id])] }

/-- The handler `DeleteTask(db)`, applied to a request with the route variables
`vars`. -/
def DeleteTask (db : DB) (vars : Option (String → String)) : Handled :=
  match vars with
  | none => { Error := some (StatusBadRequest, "ID is required"), JSON := none, Statements := [] }
  | some vars =>
    if vars "id" = "" then
      { Error := some (StatusBadRequest, "ID is required"), JSON := none, Statements := [] }
    else
      let id := vars "id"
      if (Atoi id).2 ≠ none then
        { Error := some (StatusBadRequest, "ID must be numeric"), JSON := none,
          Statements := [] }
      else
        match db.Exec ("DELETE FROM tasks WHERE id = " ++ id) with
        | some _ =>
          { Error := some (StatusInternalServerError, "Error deleting task from database"),
            JSON := none, Statements := [("DELETE FROM tasks WHERE id = " ++ id, [])] }
        | none =>
          { Error := none, JSON := some (StatusOK, Payload.null),
            Statements := [("DELETE FROM tasks WHERE id = " ++ id, [])] }

/-- The variable `page` of `GetTasks` after its default has been set. -/
def GetTasks.page (pageStr : String) : Int :=
  match Atoi pageStr with
  | (page, err) => if err ≠ none ∨ page < 1 then 1 else page

/-- The variable `size` of `GetTasks` after its default has been set. -/
def GetTasks.size (sizeStr : String) : Int :=
  match Atoi sizeStr with
  | (size, err) => if err ≠ none ∨ size < 1 then 10 else size

/-- The variable `offset` of `GetTasks`: `(page - 1) * size` in 64-bit arithmetic. -/
def GetTasks.offset (page size : Int) : Int :=
  wrapInt64 (wrapInt64 (page - 1) * size)

/-- The statement of `GetTasks`; `%d` prints what `strconv.Itoa` prints. -/
def GetTasks.statement (size offset : Int) : String :=
  "SELECT * FROM tasks ORDER BY id LIMIT " ++ Itoa size ++ " OFFSET " ++ Itoa offset

/-- The loop `for rows.Next()` of `GetTasks`: the tasks scanned so far are `tasks`;
the result is the error of the first row that does not scan, or all the tasks. -/
def GetTasks.scan : List (Except String Task) → List Task → Except String (List Task)
  | [], tasks => Except.ok tasks
  | Except.error err :: _, _ => Except.error err
  | Except.ok task :: rest, tasks => GetTasks.scan rest (tasks ++ [task])

/-- The handler `GetTasks(db)`, applied to a request whose query parameters `page` and
`size` are `pageStr` and `sizeStr` (`""` for a missing parameter). -/
def GetTasks (db : DB) (pageStr sizeStr : String) : Handled :=
  let page := GetTasks.page pageStr
  let size := GetTasks.size sizeStr
  let offset := GetTasks.offset page size
  let statement := GetTasks.statement size offset
  match db.Query statement with
  | Except.error _ =>
    { Error := some (StatusInternalServerError, "Error getting tasks from database"),
      JSON := none, Statements := [(statement, [])] }
  | Except.ok rows =>
    match GetTasks.scan rows [] with
    | Except.error _ =>
      { Error := some (StatusInternalServerError, "Error scanning tasks from database"),
        JSON := none, Statements := [(statement, [])] }
    | Except.ok [] =>
      { Error := none, JSON := some (StatusNoContent, Payload.tasks []),
        Statements := [(statement, [])] }
    | Except.ok tasks =>
      { Error := none, JSON := some (StatusOK, Payload.tasks tasks),
        Statements := [(statement, [])] }

/-- A database without tasks that accepts every statement. -/
def emptyDB : DB :=
  { Query := fun _ => Except.ok [],
    QueryRow := fun _ _ => Except.error "sql: no rows in result set",
    Exec := fun _ => none }

/-! ## `middlewares.CSRFMiddleware` -/

/-- The constant `csrfTokenLength`. -/
def csrfTokenLength : Nat := 32

/-- The constant `csrfHeaderName`. -/
def csrfHeaderName : String := "X-CSRF-Token"

/-- The constant `csrfCookieName`. -/
def csrfCookieName : String := "csrf_token"

/-- The alphabet of `base64.URLEncoding`. -/
def encodeURL : List Char :=
  "ABCDEFGHIJKLMNOPQRSTUVWXYZabcdefghijklmnopqrstuvwxyz0123456789-_".data

/-- The character of `base64.URLEncoding` for the six low bits of `n`. -/
def encodeURL.digit (n : Nat) : Char :=
  encodeURL.getD (n % 64) 'A'

/-- Model of `base64.URLEncoding.EncodeToString(src)` on a list of bytes: four
characters for every three bytes, the last group filled up with `=`. -/
def EncodeToString : List Nat → List Char
  | a :: b :: c :: rest =>
    let val := a * 65536 + b * 256 + c
    encodeURL.digit (val / 262144) :: encodeURL.digit (val / 4096) :: encodeURL.digit (val / 64)
      :: encodeURL.digit val :: EncodeToString rest
  | [a, b] =>
    let val := a * 65536 + b * 256
    [encodeURL.digit (val / 262144), encodeURL.digit (val / 4096), encodeURL.digit (val / 64), '=']
  | [a] =>
    let val := a * 65536
    [encodeURL.digit (val / 262144), encodeURL.digit (val / 4096), '=', '=']
  | [] => []

/-- The second half of `generateCSRFToken`: `rand.Read` fills the buffer of
`csrfTokenLength` bytes, byte `i` with `bytes i`, or returns an error; the token is
the encoding of the buffer. -/
def generateCSRFToken.fresh (rand : Except String (Nat → Nat)) : Except String String :=
  match rand with
  | Except.error err => Except.error err
  | Except.ok bytes =>
    Except.ok (String.mk (EncodeToString ((List.range csrfTokenLength).map (fun i => bytes i % 256))))

/-- Model of `generateCSRFToken(r)`, with the outcome `rand` of `rand.Read`. -/
def generateCSRFToken (rand : Except String (Nat → Nat)) (r : HttpRequest) : Except String String :=
  match r.Cookie csrfCookieName with
  | some value => if value ≠ "" then Except.ok value else generateCSRFToken.fresh rand
  | none => generateCSRFToken.fresh rand

/-- What the CSRF handler did with a request: the token it set in the response header
and in the cookie, the status it wrote and whether it called `next`. -/
structure CSRFResponse where
  TokenHeader : Option String
  TokenCookie : Option String
  Status : Option Nat
  NextCalled : Bool
  deriving DecidableEq, Repr

/-- `http.StatusForbidden`. -/
def StatusForbidden : Nat := 403

/-- The handler returned by `CSRFMiddleware()(next)`, applied to a request. -/
def CSRFMiddleware (rand : Except String (Nat → Nat)) (r : HttpRequest) : CSRFResponse :=
  match generateCSRFToken rand r with
  | Except.error _ =>
    { TokenHeader := none, TokenCookie := none, Status := some StatusInternalServerError,
      NextCalled := false }
  | Except.ok csrfToken =>
    if r.Method = "POST" ∨ r.Method = "PUT" ∨ r.Method = "DELETE" then
      let clientToken := r.Header csrfHeaderName
      let clientToken := if clientToken = "" then r.FormValue csrfCookieName else clientToken
      if clientToken ≠ csrfToken then
        { TokenHeader := some csrfToken, TokenCookie := some csrfToken,
          Status := some StatusForbidden, NextCalled := false }
      else
        { TokenHeader := some csrfToken, TokenCookie := some csrfToken, Status := none,
          NextCalled := true }
    else
      { TokenHeader := some csrfToken, TokenCookie := some csrfToken, Status := none,
        NextCalled := true }

/-- A `POST` request that carries the token `abc` in its cookie and in its header. -/
def postWithToken : HttpRequest :=
  { Header := fun name => if name = "X-CSRF-Token" then "abc" else "",
    Method := "POST",
    Cookie := fun name => if name = "csrf_token" then some "abc" else none }

/-! ## `routers.enqueueJob`

`enqueueJob(handlerFunc)` is the only caller of `WorkerManager.AddJob`: the goroutine
serving a request makes a `sync.WaitGroup` with the counter 1, submits the closure
`func() { defer wg.Done(); handlerFunc(w, r) }` and blocks in `wg.Wait()`. The gateway
extends the transition system of the pool by these calls; job `i` is the closure of
call `i`. A handler that panics does not end the process at once: the deferred
`wg.Done()` runs while the panic unwinds, and the other goroutines go on until the
panic has left the goroutine of the worker. -/

/-- The response recorded in a `http.ResponseWriter`: status code, headers and body. -/
structure ResponseRecorder where
  Code : Nat
  HeaderMap : List (String × String)
  Body : String
  deriving DecidableEq, Repr

/-- How a call `handlerFunc(w, r)` ends: it returns, or it panics; `w` is what it has
recorded by then. -/
inductive Outcome where
  | returns (w : ResponseRecorder)
  | panics (w : ResponseRecorder)
  deriving DecidableEq, Repr

/-- An `http.HandlerFunc`, given by how a call `handlerFunc(w, r)` ends. -/
abbrev HandlerFunc := ResponseRecorder → HttpRequest → Outcome

/-- A call `enqueueJob(handlerFunc)(w, r)`: its arguments (`w0` is `w` as it was
passed), the response recorded in `w` so far, the counter of its wait group, whether
its closure is unwinding a panic, and whether the call has returned. -/
structure Call where
  handlerFunc : HandlerFunc
  r : HttpRequest
  w0 : ResponseRecorder
  w : ResponseRecorder
  wg : Nat
  Panicked : Bool
  Returned : Bool

/-- How the handler of a call ends when it is called directly on the arguments of the
call. -/
def Call.outcome (c : Call) : Outcome :=
  c.handlerFunc c.w0 c.r

/-- The pool together with the calls of `enqueueJob` made so far. -/
structure Gateway where
  pool : Pool
  Calls : List Call

/-- The gateway of a fresh manager with `initialWorkers` workers. -/
def Gateway.init (initialWorkers : Int) : Gateway :=
  { pool := Pool.init (NewWorkerManager initialWorkers), Calls := [] }

/-- What can happen next in a gateway. -/
inductive Event where
  /-- A call `enqueueJob(handlerFunc)(w, r)` runs up to `wg.Wait()`. -/
  | enqueue (handlerFunc : HandlerFunc) (w : ResponseRecorder) (r : HttpRequest)
  /-- Dispatching goroutine `d` runs one statement. -/
  | dispatch (d : Nat)
  /-- Goroutine `n` of worker `k` runs one statement; the handler it is executing
  ends. -/
  | loop (k n : Nat)
  /-- `wg.Wait()` of call `i` finds the counter at zero and the call returns. -/
  | wake (i : Nat)

/-- Goroutine `n` of worker `k` runs one statement. When it is inside a closure, the
handler ends, leaving what it has recorded in `w`, and the deferred `wg.Done()` runs.
If the handler returned, the closure returns; if the handler panicked, or `wg.Done()`
panics on a counter that is already zero, the closure is unwinding a panic, and the
next step of the goroutine ends the process. -/
def Gateway.loopStep (g : Gateway) (k n : Nat) : Gateway :=
  match g.pool.Procs[k]? with
  | none => g
  | some p =>
    match p.Loops[n]? with
    | some (LoopPc.running job) =>
      match g.Calls[job]? with
      | none => { g with pool := g.pool.step (Action.loop k n) }
      | some c =>
        if c.Panicked then { g with pool := g.pool.step (Action.panic k n) }
        else
          match c.handlerFunc c.w c.r with
          | Outcome.returns w =>
            if c.wg = 0 then
              { g with Calls := g.Calls.set job { c with w := w, Panicked := true } }
            else
              { pool := g.pool.step (Action.loop k n),
                Calls := g.Calls.set job { c with w := w, wg := c.wg - 1 } }
          | Outcome.panics w =>
            { g with Calls := g.Calls.set job { c with w := w, wg := c.wg - 1, Panicked := true } }
    | _ => { g with pool := g.pool.step (Action.loop k n) }

/-- One event. Nothing runs in a process that has ended. -/
def Gateway.step (g : Gateway) (e : Event) : Gateway :=
  if g.pool.Crashed then g
  else
    match e with
    | Event.enqueue handlerFunc w r =>
      { pool := g.pool.AddJob g.Calls.length,
        Calls := g.Calls ++
          [{ handlerFunc := handlerFunc, r := r, w0 := w, w := w, wg := 1, Panicked := false,
             Returned := false }] }
    | Event.dispatch d => { g with pool := g.pool.step (Action.dispatch d) }
    | Event.loop k n => g.loopStep k n
    | Event.wake i =>
      match g.Calls[i]? with
      | none => g
      | some c => if c.wg = 0 then { g with Calls := g.Calls.set i { c with Returned := true } } else g

/-- An execution of the gateway: the events of the list, one after the other. -/
def Gateway.exec (g : Gateway) (tr : List Event) : Gateway :=
  tr.foldl Gateway.step g

/-- What holds of call `i` in every state: a call returns only on a counter at zero;
the counter is at zero only when the closure has been called once, and then either
the handler has returned, the closure is not being executed and `w` holds the
response, or the handler has panicked; until then the counter is 1, `w` is as it was
passed and nothing has panicked, and the closure is not yet called or is being
executed, unless the process has ended. -/
def Call.Inv (s : Pool) (i : Nat) (c : Call) : Prop :=
  (c.Returned = true → c.wg = 0) ∧
  (c.wg = 0 → List.count i s.Began = 1 ∧
    (c.Panicked = false → List.count i s.executing = 0 ∧ c.outcome = Outcome.returns c.w) ∧
    (c.Panicked = true → c.outcome = Outcome.panics c.w)) ∧
  (c.wg ≠ 0 → c.wg = 1 ∧ c.w = c.w0 ∧ c.Panicked = false ∧
    (s.Crashed = true ∨ List.count i s.Began = 0 ∨ List.count i s.executing = 1))

/-- What holds of every state of the gateway of `initialWorkers` workers: its pool is
reached by an execution of the pool, the jobs submitted are the calls, a job being
executed has been called, the process ends only by a panic of a closure, and every
call is as `Call.Inv` says. -/
def Gateway.Inv (initialWorkers : Int) (g : Gateway) : Prop :=
  (∃ acts : List Action, g.pool = (Pool.init (NewWorkerManager initialWorkers)).exec acts) ∧
  g.pool.Submitted = List.range g.Calls.length ∧
  (∀ j : Job, List.count j g.pool.executing ≤ List.count j g.pool.Began) ∧
  (g.pool.Crashed = true → ∃ (i : Nat) (c : Call), g.Calls[i]? = some c ∧ c.Panicked = true) ∧
  ∀ (i : Nat) (c : Call), g.Calls[i]? = some c → Call.Inv g.pool i c

/-- A handler that answers 200 with the body `ok`. -/
def okHandler : HandlerFunc := fun w _ =>
  Outcome.returns { w with Code := 200, Body := w.Body ++ "ok" }

/-- A handler that panics before it has recorded anything. -/
def panicHandler : HandlerFunc := fun w _ =>
  Outcome.panics w

/-- A recorder in which nothing has been recorded. -/
def NewRecorder : ResponseRecorder :=
  { Code := 0, HeaderMap := [], Body := "" }

/-- A `GET` request without headers. -/
def plainGet : HttpRequest :=
  { Header := fun _ => "" }

/-- The events after a call on an idle pool of one worker, up to the return of the
call: the job is dispatched to worker 0, received and called, the handler ends, and
`wg.Wait()` returns. -/
def oneCallRun : List Event :=
  [Event.dispatch 0, Event.dispatch 0, Event.loop 0 0, Event.loop 0 0, Event.loop 0 0,
   Event.loop 0 0, Event.wake 0]

/-- The job that leaves `job()` when goroutine `n` of the worker runs its next
statement. -/
def WorkerProc.leaving (p : WorkerProc) (n : Nat) : List Job :=
  match p.Loops[n]? with
  | some (LoopPc.running job) => [job]
  | _ => []

/-! ## Auxiliary facts -/

theorem wrapInt64_of_inRange (x : Int) (h1 : minInt64 ≤ x) (h2 : x ≤ maxInt64) :
    wrapInt64 x = x := by
  unfold wrapInt64
  unfold minInt64 at h1
  unfold maxInt64 at h2
  omega

theorem wrapInt64_inRange (x : Int) : minInt64 ≤ wrapInt64 x ∧ wrapInt64 x ≤ maxInt64 := by
  unfold wrapInt64 minInt64 maxInt64
  omega

theorem wrapInt64_wrap_add (a b : Int) : wrapInt64 (wrapInt64 a + b) = wrapInt64 (a + b) := by
  unfold wrapInt64
  omega

theorem UsageMap.get?_set_same (m : UsageMap) (k : String) (v : Int) :
    UsageMap.get? (UsageMap.set m k v) k = some v := by
  induction m with
  | nil => simp [UsageMap.set, UsageMap.get?]
  | cons p rest ih =>
    obtain ⟨k1, v1⟩ := p
    by_cases h : k1 = k
    · simp [UsageMap.set, UsageMap.get?, h]
    · simp [UsageMap.set, UsageMap.get?, h, ih]

theorem UsageMap.get?_set_other (m : UsageMap) (k k2 : String) (v : Int) (hne : k2 ≠ k) :
    UsageMap.get? (UsageMap.set m k v) k2 = UsageMap.get? m k2 := by
  induction m with
  | nil => simp [UsageMap.set, UsageMap.get?, hne.symm]
  | cons p rest ih =>
    obtain ⟨k1, v1⟩ := p
    by_cases h : k1 = k
    · subst h
      simp [UsageMap.set, UsageMap.get?, hne.symm]
    · by_cases h2 : k1 = k2
      · subst h2
        simp [UsageMap.set, UsageMap.get?, h]
      · simp [UsageMap.set, UsageMap.get?, h, h2, ih]

theorem Limiter.get_increment_same (l : Limiter) (k : String) :
    (l.Increment k).UsageMap.get k = wrapInt64 (l.UsageMap.get k + 1) := by
  simp [Limiter.Increment, UsageMap.get, UsageMap.get?_set_same]

theorem Limiter.get?_increment_other (l : Limiter) (k k2 : String) (hne : k2 ≠ k) :
    (l.Increment k).UsageMap.get? k2 = l.UsageMap.get? k2 := by
  simp [Limiter.Increment, UsageMap.get?_set_other _ _ _ _ hne]

theorem Limiter.get_increment_other (l : Limiter) (k k2 : String) (hne : k2 ≠ k) :
    (l.Increment k).UsageMap.get k2 = l.UsageMap.get k2 := by
  simp [UsageMap.get, Limiter.get?_increment_other l k k2 hne]

/-- With a non-empty `HTTP_RATE_LIMIT`, `ExceedsLimit` compares the stored count with
the value `strconv.Atoi` returned and hands the limiter back as it was. -/
theorem Limiter.exceedsLimit_of_nonempty (env : Env) (l : Limiter) (key : String)
    (h : env "HTTP_RATE_LIMIT" ≠ "") :
    l.ExceedsLimit env key =
      (Except.ok (decide ((Atoi (env "HTTP_RATE_LIMIT")).1 < l.UsageMap.get key)), l) := by
  simp [Limiter.ExceedsLimit, h]

/-- A value that `strconv.Atoi` accepts is not the empty string. -/
theorem ne_empty_of_atoi (s : String) (L : Int) (h : Atoi s = (L, none)) : s ≠ "" := by
  intro hs
  subst hs
  simp [Atoi] at h

/-! ### `Atoi` after `Itoa` -/

/-- The character of a decimal digit is `'0'` shifted by the digit. -/
theorem digitChar_toNat (m : Nat) (h : m < 10) : (Nat.digitChar m).toNat = 48 + m := by
  interval_cases m <;> rfl

/-- The digit loop of `ParseUint` reads the printed digits of `n` back as `n`. -/
theorem parseUintLoop_toDigitsCore (fuel : Nat) :
    ∀ (n : Nat) (ds : List Char), n < fuel → n ≤ maxUint64 →
      parseUintLoop (Nat.toDigitsCore 10 fuel n ds) 0 = parseUintLoop ds n := by
  induction fuel with
  | zero => intro n ds h; omega
  | succ fuel ih =>
    intro n ds hfuel hmax
    have hd := digitChar_toNat (n % 10) (Nat.mod_lt _ (by decide))
    unfold maxUint64 at hmax
    have hhead : ∀ acc : Nat, acc * 10 + n % 10 = n → acc < cutoff10 →
        parseUintLoop (Nat.digitChar (n % 10) :: ds) acc = parseUintLoop ds n := by
      intro acc hacc hcut
      have h1 : 48 ≤ (Nat.digitChar (n % 10)).toNat ∧ (Nat.digitChar (n % 10)).toNat ≤ 57 := by
        omega
      have h2 : ¬ cutoff10 ≤ acc := by omega
      have h3 : acc * 10 + ((Nat.digitChar (n % 10)).toNat - 48) = n := by omega
      have h4 : ¬ maxUint64 < n := by unfold maxUint64; omega
      simp only [parseUintLoop, h1, h2, h3, h4, and_self, if_true, if_false]
    unfold Nat.toDigitsCore
    by_cases hz : n / 10 = 0
    · simp only [hz, if_true]
      exact hhead 0 (by omega) (by decide)
    · simp only [hz, if_false]
      rw [ih (n / 10) _ (by omega) (by unfold maxUint64; omega)]
      exact hhead (n / 10) (by omega) (by unfold cutoff10; omega)

/-- Printed digits start with a decimal digit. -/
theorem toDigitsCore_head (fuel : Nat) :
    ∀ (n : Nat) (ds : List Char), 0 < fuel →
      ∃ c cs, Nat.toDigitsCore 10 fuel n ds = c :: cs ∧ 48 ≤ c.toNat ∧ c.toNat ≤ 57 := by
  induction fuel with
  | zero => intro n ds h; omega
  | succ fuel ih =>
    intro n ds _
    have hd := digitChar_toNat (n % 10) (Nat.mod_lt _ (by decide))
    unfold Nat.toDigitsCore
    by_cases hz : n / 10 = 0
    · simp only [hz, if_true]
      exact ⟨_, _, rfl, by omega, by omega⟩
    · simp only [hz, if_false]
      cases fuel with
      | zero => exact ⟨_, _, rfl, by omega, by omega⟩
      | succ fuel => exact ih (n / 10) _ (by omega)

/-- `ParseInt` on the printed digits of a natural number below 2^64. -/
theorem parseIntSigned_repr (neg : Bool) (n : Nat) (hmax : n ≤ maxUint64) :
    parseIntSigned neg (Nat.repr n).data =
      if !neg && decide (9223372036854775808 ≤ n) then (maxInt64, some NumError.ErrRange)
      else if neg && decide (9223372036854775808 < n) then (minInt64, some NumError.ErrRange)
      else if neg then (-(n : Int), none)
      else ((n : Int), none) := by
  have hdata : (Nat.repr n).data = Nat.toDigitsCore 10 (n + 1) n [] := rfl
  obtain ⟨c, cs, hcs, _, _⟩ := toDigitsCore_head (n + 1) n [] (by omega)
  have hloop := parseUintLoop_toDigitsCore (n + 1) n [] (by omega) hmax
  rw [hcs] at hloop
  have hparse : ParseUint (c :: cs) = (n, none) := by
    show parseUintLoop (c :: cs) 0 = (n, none)
    rw [hloop]
    rfl
  rw [hdata, hcs]
  simp only [parseIntSigned, hparse]

/-- `strconv.Atoi` reads back what `strconv.Itoa` prints, for every 64-bit integer. -/
theorem atoi_itoa (i : Int) (hlo : minInt64 ≤ i) (hhi : i ≤ maxInt64) :
    Atoi (Itoa i) = (i, none) := by
  unfold minInt64 at hlo
  unfold maxInt64 at hhi
  by_cases hneg : i < 0
  · have hdata : (Itoa i).data = '-' :: (Nat.repr (-i).toNat).data := by
      simp [Itoa, hneg]
    have hp := parseIntSigned_repr true (-i).toNat (by unfold maxUint64; omega)
    have h1 : ¬ (9223372036854775808 < (-i).toNat) := by omega
    have h2 : ((-i).toNat : Int) = -i := Int.toNat_of_nonneg (by omega)
    simp only [Atoi, hdata, hp, h1, h2]
    simp
  · have hdata : (Itoa i).data = Nat.toDigitsCore 10 (i.toNat + 1) i.toNat [] := by
      simp [Itoa, hneg]
      rfl
    obtain ⟨c, cs, hcs, hc1, hc2⟩ := toDigitsCore_head (i.toNat + 1) i.toNat [] (by omega)
    have hp := parseIntSigned_repr false i.toNat (by unfold maxUint64; omega)
    have hdata2 : (Nat.repr i.toNat).data = Nat.toDigitsCore 10 (i.toNat + 1) i.toNat [] := rfl
    rw [hdata2, hcs] at hp
    have hplus : c ≠ '+' := by
      intro h; subst h; revert hc1; decide
    have hminus : c ≠ '-' := by
      intro h; subst h; revert hc1; decide
    have h1 : ¬ (9223372036854775808 ≤ i.toNat) := by omega
    have h2 : (i.toNat : Int) = i := Int.toNat_of_nonneg (by omega)
    simp only [Atoi, hdata, hcs, hplus, hminus, if_false, hp, h1, h2]
    simp

/-! ## The rate limiter -/

/-- C1: for every usage map, key and `HTTP_RATE_LIMIT` value that `strconv.Atoi` parses
as the integer `L`, `ExceedsLimit(key)` returns a boolean that is true if and only if
the count stored for `key` (zero when the key is absent) is strictly greater than `L`,
and the limiter, with its usage map, is the same after the call. -/
theorem exceedsLimit_true_iff_count_gt (env : Env) (l : Limiter) (key : String) (L : Int)
    (hL : Atoi (env "HTTP_RATE_LIMIT") = (L, none)) :
    ∃ b : Bool, l.ExceedsLimit env key = (Except.ok b, l) ∧
      (b = true ↔ L < (l.UsageMap.get? key).getD 0) := by
  refine ⟨decide (L < l.UsageMap.get key), ?_, ?_⟩
  · rw [Limiter.exceedsLimit_of_nonempty env l key (ne_empty_of_atoi _ L hL), hL]
  · simp [UsageMap.get]

theorem exceedsLimit_true_iff_count_gt_witness :
    ∃ b : Bool,
      Limiter.ExceedsLimit (fun _ => "2") { UsageMap := [("a", 3), ("b", 1)] } "a"
        = (Except.ok b, { UsageMap := [("a", 3), ("b", 1)] }) ∧
      (b = true ↔ (2 : Int) < (UsageMap.get? [("a", 3), ("b", 1)] "a").getD 0) :=
  exceedsLimit_true_iff_count_gt (fun _ => "2") { UsageMap := [("a", 3), ("b", 1)] } "a" 2
    (by decide)

/-- The count of `key` after a sequence of increments: the 64-bit sum of the count
before and the number of increments of `key`. -/
theorem get_incrementAll (key : String) (ks : List String) (l : Limiter)
    (h1 : minInt64 ≤ l.UsageMap.get key) (h2 : l.UsageMap.get key ≤ maxInt64) :
    (incrementAll l ks).UsageMap.get key = wrapInt64 (l.UsageMap.get key + ks.count key) := by
  induction ks generalizing l with
  | nil => simp [incrementAll, wrapInt64_of_inRange _ h1 h2]
  | cons k ks ih =>
    have hstep : incrementAll l (k :: ks) = incrementAll (l.Increment k) ks := rfl
    rw [hstep]
    by_cases hk : k = key
    · subst hk
      have hr := wrapInt64_inRange (l.UsageMap.get k + 1)
      rw [ih (l.Increment k) (by rw [Limiter.get_increment_same]; exact hr.1)
        (by rw [Limiter.get_increment_same]; exact hr.2), Limiter.get_increment_same,
        wrapInt64_wrap_add]
      simp only [List.count_cons_self, Nat.cast_add, Nat.cast_one]
      congr 1
      ring
    · have hne : key ≠ k := fun h => hk h.symm
      rw [ih (l.Increment k) (by rw [Limiter.get_increment_other l k key hne]; exact h1)
        (by rw [Limiter.get_increment_other l k key hne]; exact h2),
        Limiter.get_increment_other l k key hne, List.count_cons_of_ne (fun h => hk h.symm)]

/-- C2, as amended: for every usage map and key `k` whose count is below the largest
64-bit integer, `Increment(k)` leaves at `k` the count, taken as 0 when `k` was absent,
plus 1 (so exactly 1 for an absent key), and the presence and count of every other key
`k2` are unchanged. -/
theorem increment_adds_one (l : Limiter) (k k2 : String)
    (hlo : minInt64 ≤ (l.UsageMap.get? k).getD 0) (hhi : (l.UsageMap.get? k).getD 0 < maxInt64)
    (hne : k2 ≠ k) :
    (l.Increment k).UsageMap.get? k = some ((l.UsageMap.get? k).getD 0 + 1) ∧
    (l.Increment k).UsageMap.get? k2 = l.UsageMap.get? k2 := by
  have hw : wrapInt64 ((l.UsageMap.get? k).getD 0 + 1) = (l.UsageMap.get? k).getD 0 + 1 :=
    wrapInt64_of_inRange _ (by omega) (by omega)
  refine ⟨?_, Limiter.get?_increment_other l k k2 hne⟩
  simp only [Limiter.Increment, UsageMap.get?_set_same, UsageMap.get, hw]

/-- A key that is absent is created at 1 and the key that is present keeps its count. -/
theorem increment_adds_one_witness :
    (Limiter.Increment { UsageMap := [("b", 4)] } "a").UsageMap.get? "a"
        = some ((UsageMap.get? [("b", 4)] "a").getD 0 + 1) ∧
    (Limiter.Increment { UsageMap := [("b", 4)] } "a").UsageMap.get? "b"
        = UsageMap.get? [("b", 4)] "b" :=
  increment_adds_one { UsageMap := [("b", 4)] } "a" "b" (by decide) (by decide) (by decide)

/-- C2 as stated fails at the largest 64-bit count: `Increment` leaves the smallest
64-bit integer there, not the count plus 1. -/
theorem increment_at_maxInt64_wraps :
    (Limiter.Increment { UsageMap := [("a", 9223372036854775807)] } "a").UsageMap.get? "a"
        = some (-9223372036854775808) ∧
    (Limiter.Increment { UsageMap := [("a", 9223372036854775807)] } "a").UsageMap.get? "a"
        ≠ some (UsageMap.get [("a", 9223372036854775807)] "a" + 1) := by
  decide

/-- C3, as amended: for every key, every limit `L` that `HTTP_RATE_LIMIT` parses to and
every sequence of `Increment` calls on a limiter made by `NewLimiter` in which `key`
occurs `n` times, `n` below 2^63, with calls for other keys interleaved at will,
`ExceedsLimit(key)` returns a boolean that is true if and only if `n > L`. -/
theorem exceedsLimit_after_increments (env : Env) (key : String) (L : Int) (ks : List String)
    (hL : Atoi (env "HTTP_RATE_LIMIT") = (L, none))
    (hn : ks.count key < 9223372036854775808) :
    ∃ b : Bool,
      (incrementAll NewLimiter ks).ExceedsLimit env key
        = (Except.ok b, incrementAll NewLimiter ks) ∧
      (b = true ↔ L < (ks.count key : Int)) := by
  have hget : (incrementAll NewLimiter ks).UsageMap.get key = (ks.count key : Int) := by
    have h0 : NewLimiter.UsageMap.get key = 0 := rfl
    rw [get_incrementAll key ks NewLimiter (by rw [h0]; decide) (by rw [h0]; decide), h0,
      zero_add]
    exact wrapInt64_of_inRange _ (by unfold minInt64; omega) (by unfold maxInt64; omega)
  refine ⟨decide (L < (ks.count key : Int)), ?_, by simp⟩
  rw [Limiter.exceedsLimit_of_nonempty env _ key (ne_empty_of_atoi _ L hL), hL, hget]

/-- With limit 2: not exceeded after the first and after the second increment,
exceeded after the third, increments of another key in between. -/
theorem exceedsLimit_after_increments_witness :
    (∃ b : Bool,
      (incrementAll NewLimiter ["a", "b"]).ExceedsLimit (fun _ => "2") "a"
        = (Except.ok b, incrementAll NewLimiter ["a", "b"]) ∧
      (b = true ↔ (2 : Int) < (List.count "a" ["a", "b"] : Int))) ∧
    (∃ b : Bool,
      (incrementAll NewLimiter ["a", "b", "a"]).ExceedsLimit (fun _ => "2") "a"
        = (Except.ok b, incrementAll NewLimiter ["a", "b", "a"]) ∧
      (b = true ↔ (2 : Int) < (List.count "a" ["a", "b", "a"] : Int))) ∧
    (∃ b : Bool,
      (incrementAll NewLimiter ["a", "b", "a", "b", "a"]).ExceedsLimit (fun _ => "2") "a"
        = (Except.ok b, incrementAll NewLimiter ["a", "b", "a", "b", "a"]) ∧
      (b = true ↔ (2 : Int) < (List.count "a" ["a", "b", "a", "b", "a"] : Int))) :=
  ⟨exceedsLimit_after_increments (fun _ => "2") "a" 2 ["a", "b"] (by decide) (by decide),
   exceedsLimit_after_increments (fun _ => "2") "a" 2 ["a", "b", "a"] (by decide) (by decide),
   exceedsLimit_after_increments (fun _ => "2") "a" 2 ["a", "b", "a", "b", "a"]
     (by decide) (by decide)⟩

/-- C3 as stated fails at `n = 2^63`: the count has wrapped to the smallest 64-bit
integer, so with limit 0 `ExceedsLimit` returns false although `n > 0`. -/
theorem exceedsLimit_after_2pow63_increments :
    (Limiter.ExceedsLimit (fun _ => "0")
        (incrementAll NewLimiter (List.replicate 9223372036854775808 "a")) "a").1
      = Except.ok false ∧
    (0 : Int) < (List.count "a" (List.replicate 9223372036854775808 "a") : Int) := by
  have hget := get_incrementAll "a" (List.replicate 9223372036854775808 "a") NewLimiter
    (by decide) (by decide)
  have h0 : NewLimiter.UsageMap.get "a" = 0 := rfl
  rw [h0, List.count_replicate_self] at hget
  have hw : wrapInt64 (0 + ((9223372036854775808 : Nat) : Int)) = -9223372036854775808 := by
    decide
  rw [hw] at hget
  constructor
  · rw [Limiter.exceedsLimit_of_nonempty _ _ _ (by decide), hget]
    have ha : (Atoi "0").1 = 0 := by decide
    simp [ha]
  · rw [List.count_replicate_self]
    decide

/-! ## The rate limit middleware -/

/-- One request from a non-empty address, with `HTTP_RATE_LIMIT` non-empty: the count of
the address is incremented, then compared with the limit. -/
theorem rateLimitMiddleware_of_addr (env : Env) (g : Option Limiter) (w : ResponseWriter)
    (r : Request) (hlim : env "HTTP_RATE_LIMIT" ≠ "") (haddr : GetRemoteAddr env r ≠ "") :
    RateLimitMiddleware env g w r =
      (if (Atoi (env "HTTP_RATE_LIMIT")).1 <
            wrapInt64 ((GetLimiter g).1.UsageMap.get (GetRemoteAddr env r) + 1)
        then respondError w StatusTooManyRequests "Too many requests"
        else Served.forwarded,
       some ((GetLimiter g).1.Increment (GetRemoteAddr env r))) := by
  unfold RateLimitMiddleware
  simp only [haddr, if_false]
  rw [Limiter.exceedsLimit_of_nonempty env _ _ hlim, Limiter.get_increment_same]
  by_cases hc : (Atoi (env "HTTP_RATE_LIMIT")).1 <
      wrapInt64 ((GetLimiter g).1.UsageMap.get (GetRemoteAddr env r) + 1)
  · simp [hc]
  · simp [hc, Served.forwarded]

/-- The outcome of each request of a sequence sent from one address: request number
`k + 1` is judged on the 64-bit sum of the count at the start and `k + 1`. -/
theorem serveAll_getElem? (env : Env) (addr : String) (hlim : env "HTTP_RATE_LIMIT" ≠ "")
    (haddr : addr ≠ "") (reqs : List (ResponseWriter × Request)) :
    ∀ (g : Option Limiter) (k : Nat) (p : ResponseWriter × Request),
      (∀ q ∈ reqs, GetRemoteAddr env q.2 = addr) → reqs[k]? = some p →
      (serveAll env g reqs)[k]? =
        some (if (Atoi (env "HTTP_RATE_LIMIT")).1 <
                wrapInt64 ((GetLimiter g).1.UsageMap.get addr + ((k + 1 : Nat) : Int))
              then respondError p.1 StatusTooManyRequests "Too many requests"
              else Served.forwarded) := by
  induction reqs with
  | nil => intro g k p _ hp; simp at hp
  | cons q rest ih =>
    intro g k p hall hp
    obtain ⟨w, r⟩ := q
    have hr : GetRemoteAddr env r = addr := hall (w, r) (List.mem_cons_self _ _)
    have hstep := rateLimitMiddleware_of_addr env g w r hlim (by rw [hr]; exact haddr)
    rw [hr] at hstep
    cases k with
    | zero =>
      simp only [List.getElem?_cons_zero, Option.some.injEq] at hp
      subst hp
      simp [serveAll, hstep]
    | succ k =>
      simp only [List.getElem?_cons_succ] at hp
      have hrest := ih (RateLimitMiddleware env g w r).2 k p
        (fun q hq => hall q (List.mem_cons_of_mem _ hq)) hp
      simp only [serveAll, List.getElem?_cons_succ]
      rw [hrest, hstep]
      have hg : (GetLimiter (some ((GetLimiter g).1.Increment addr))).1
          = (GetLimiter g).1.Increment addr := rfl
      simp only [hg, Limiter.get_increment_same, wrapInt64_wrap_add]
      have hsum : (GetLimiter g).1.UsageMap.get addr + 1 + ((k + 1 : Nat) : Int)
          = (GetLimiter g).1.UsageMap.get addr + ((k + 1 + 1 : Nat) : Int) := by
        push_cast
        ring
      rw [hsum]

theorem respondError_fields (w : ResponseWriter) (code : Nat) (message : String) :
    (respondError w code message).Error = some (code, message) ∧
    (respondError w code message).NextCalled = false := by
  unfold respondError
  cases w.EncodeErr <;> simp

/-- C4, as amended: for every limit `L` that `HTTP_RATE_LIMIT` parses to and every
non-empty client address, when the middleware handles fewer than 2^63 requests from that
address, starting from an empty usage map with no reset in between, request number `k`
is forwarded to the next handler if and only if `k ≤ L`, and is answered with 429
without calling the next handler if and only if `k > L`. -/
theorem rateLimit_allows_exactly_limit (env : Env) (L : Int) (addr : String)
    (g : Option Limiter) (reqs : List (ResponseWriter × Request))
    (hL : Atoi (env "HTTP_RATE_LIMIT") = (L, none)) (haddr : addr ≠ "")
    (hall : ∀ q ∈ reqs, GetRemoteAddr env q.2 = addr)
    (hempty : (GetLimiter g).1.UsageMap = [])
    (hlen : reqs.length < 9223372036854775808)
    (k : Nat) (hk1 : 1 ≤ k) (hk2 : k ≤ reqs.length) :
    ∃ o : Served, (serveAll env g reqs)[k - 1]? = some o ∧
      (o.NextCalled = true ↔ (k : Int) ≤ L) ∧
      ((o.Error = some (StatusTooManyRequests, "Too many requests") ∧ o.NextCalled = false)
        ↔ L < (k : Int)) := by
  have hlt : k - 1 < reqs.length := by omega
  have hp : reqs[k - 1]? = some (reqs[k - 1]) := List.getElem?_eq_getElem hlt
  have hget := serveAll_getElem? env addr (ne_empty_of_atoi _ L hL) haddr reqs g (k - 1)
    (reqs[k - 1]) hall hp
  have hk : ((k - 1 + 1 : Nat) : Int) = (k : Int) := by
    have : k - 1 + 1 = k := by omega
    rw [this]
  have h0 : (GetLimiter g).1.UsageMap.get addr = 0 := by rw [hempty]; rfl
  have hw : wrapInt64 (0 + (k : Int)) = (k : Int) := by
    rw [zero_add]
    exact wrapInt64_of_inRange _ (by unfold minInt64; omega) (by unfold maxInt64; omega)
  rw [hL, h0, hk, hw] at hget
  refine ⟨_, hget, ?_, ?_⟩
  · by_cases hc : L < (k : Int)
    · have hf := (respondError_fields (reqs[k - 1]).1 StatusTooManyRequests
        "Too many requests").2
      simp only [hc, if_true, hf]
      constructor
      · intro h; cases h
      · intro h; omega
    · simp only [hc, if_false, Served.forwarded]
      constructor
      · intro _; omega
      · intro _; trivial
  · by_cases hc : L < (k : Int)
    · have hf := respondError_fields (reqs[k - 1]).1 StatusTooManyRequests "Too many requests"
      simp only [hc, if_true, hf.1, hf.2, and_self]
    · simp only [hc, if_false, Served.forwarded]
      constructor
      · intro h; cases h.2
      · intro h; exact absurd h (by trivial)

/-- With limit 2, three requests from one address: the third one is rejected with 429. -/
theorem rateLimit_allows_exactly_limit_witness :
    ∃ o : Served,
      (serveAll (fun _ => "2") none
        [(⟨none⟩, ⟨fun _ => "10.0.0.1"⟩), (⟨none⟩, ⟨fun _ => "10.0.0.1"⟩),
         (⟨none⟩, ⟨fun _ => "10.0.0.1"⟩)])[3 - 1]? = some o ∧
      (o.NextCalled = true ↔ ((3 : Nat) : Int) ≤ 2) ∧
      ((o.Error = some (StatusTooManyRequests, "Too many requests") ∧ o.NextCalled = false)
        ↔ (2 : Int) < ((3 : Nat) : Int)) :=
  rateLimit_allows_exactly_limit (fun _ => "2") 2 "10.0.0.1" none
    [(⟨none⟩, ⟨fun _ => "10.0.0.1"⟩), (⟨none⟩, ⟨fun _ => "10.0.0.1"⟩),
     (⟨none⟩, ⟨fun _ => "10.0.0.1"⟩)]
    (by decide) (by decide)
    (by intro q hq; simp only [List.mem_cons, List.mem_singleton, List.not_mem_nil, or_false,
          or_self] at hq; subst hq; decide)
    rfl (by decide) 3 (by decide) (by decide)

/-- C4 as stated fails at request number 2^63: the count of the address has wrapped to
the smallest 64-bit integer, so with limit 1 that request is forwarded. -/
theorem rateLimit_forwards_request_2pow63 :
    (serveAll (fun _ => "1") none
      (List.replicate 9223372036854775808 (⟨none⟩, ⟨fun _ => "a"⟩)))[9223372036854775807]?
      = some { Error := none, NextCalled := true, Fault := none } := by
  have hp : (List.replicate 9223372036854775808
      ((⟨none⟩, ⟨fun _ => "a"⟩) : ResponseWriter × Request))[9223372036854775807]?
      = some (⟨none⟩, ⟨fun _ => "a"⟩) := by
    rw [List.getElem?_replicate]
    simp
  have hget := serveAll_getElem? (fun _ => "1") "a" (by decide) (by decide)
    (List.replicate 9223372036854775808 (⟨none⟩, ⟨fun _ => "a"⟩)) none 9223372036854775807
    (⟨none⟩, ⟨fun _ => "a"⟩)
    (by intro q hq; rw [List.eq_of_mem_replicate hq]; decide) hp
  have ha : (Atoi "1").1 = 1 := by decide
  have h0 : (GetLimiter none).1.UsageMap.get "a" = 0 := rfl
  have hw : wrapInt64 (0 + ((9223372036854775807 + 1 : Nat) : Int)) = -9223372036854775808 := by
    decide
  rw [ha, h0, hw] at hget
  rw [hget]
  simp [Served.forwarded]

/-- C5: for every usage map, every key absent from it and every `HTTP_RATE_LIMIT` that
parses to a positive integer, the count of the key reads as zero and `ExceedsLimit`
returns false. -/
theorem exceedsLimit_unseen_key (env : Env) (l : Limiter) (key : String) (L : Int)
    (hL : Atoi (env "HTTP_RATE_LIMIT") = (L, none)) (hpos : 0 < L)
    (habs : l.UsageMap.get? key = none) :
    l.UsageMap.get key = 0 ∧ l.ExceedsLimit env key = (Except.ok false, l) := by
  have h0 : l.UsageMap.get key = 0 := by simp [UsageMap.get, habs]
  refine ⟨h0, ?_⟩
  rw [Limiter.exceedsLimit_of_nonempty env l key (ne_empty_of_atoi _ L hL), hL, h0]
  have hn : ¬ L < 0 := by omega
  simp [hn]

theorem exceedsLimit_unseen_key_witness :
    UsageMap.get [("client1", 1), ("client2", 3)] "client3" = 0 ∧
    Limiter.ExceedsLimit (fun _ => "2") { UsageMap := [("client1", 1), ("client2", 3)] }
        "client3"
      = (Except.ok false, { UsageMap := [("client1", 1), ("client2", 3)] }) :=
  exceedsLimit_unseen_key (fun _ => "2") { UsageMap := [("client1", 1), ("client2", 3)] }
    "client3" 2 (by decide) (by decide) (by decide)

/-- C6: one reset step replaces the usage map, whatever its content, by the empty map:
right after it every key is absent, its count reads 0 and, for every limit `L ≥ 0` that
`HTTP_RATE_LIMIT` parses to, `ExceedsLimit` returns false. -/
theorem resetStep_clears_all (env : Env) (l : Limiter) (key : String) (L : Int)
    (hL : Atoi (env "HTTP_RATE_LIMIT") = (L, none)) (h0 : 0 ≤ L) :
    (ResetLoop.step l).UsageMap = [] ∧
    (ResetLoop.step l).UsageMap.get? key = none ∧
    (ResetLoop.step l).UsageMap.get key = 0 ∧
    (ResetLoop.step l).ExceedsLimit env key = (Except.ok false, ResetLoop.step l) := by
  refine ⟨rfl, rfl, rfl, ?_⟩
  rw [Limiter.exceedsLimit_of_nonempty env _ key (ne_empty_of_atoi _ L hL), hL]
  have hz : (ResetLoop.step l).UsageMap.get key = 0 := rfl
  have hn : ¬ L < 0 := by omega
  simp [hz, hn]

/-- Key `A` exceeded the limit 2 before the reset and does not after it. -/
theorem resetStep_clears_all_witness :
    (Limiter.ExceedsLimit (fun _ => "2") { UsageMap := [("A", 3), ("B", 1)] } "A").1
      = Except.ok true ∧
    (ResetLoop.step { UsageMap := [("A", 3), ("B", 1)] }).UsageMap = [] ∧
    (ResetLoop.step { UsageMap := [("A", 3), ("B", 1)] }).UsageMap.get? "A" = none ∧
    (ResetLoop.step { UsageMap := [("A", 3), ("B", 1)] }).UsageMap.get "A" = 0 ∧
    (ResetLoop.step { UsageMap := [("A", 3), ("B", 1)] }).ExceedsLimit (fun _ => "2") "A"
      = (Except.ok false, ResetLoop.step { UsageMap := [("A", 3), ("B", 1)] }) :=
  ⟨by rfl,
   resetStep_clears_all (fun _ => "2") { UsageMap := [("A", 3), ("B", 1)] } "A" 2
     (by decide) (by decide)⟩

/-- C7: with `HTTP_RATE_LIMIT` unset or empty, `Initialize` does what it does with any
other value of that variable and, the window being an integer, starts the reset loop;
`Increment` on the new limiter stores its count; and `ExceedsLimit` panics for every
key and every usage map instead of returning a boolean, leaving the limiter as it was. -/
theorem missing_limit_faults_in_exceedsLimit (env : Env) (l : Limiter) (key v : String)
    (window : Int) (hlim : env "HTTP_RATE_LIMIT" = "")
    (hwin : Atoi (env "HTTP_RATE_LIMIT_WINDOW") = (window, none)) :
    l.Initialize env =
      Except.ok { Window := window, SleepNs := wrapInt64 (window * 1000000000) } ∧
    l.Initialize (fun name => if name = "HTTP_RATE_LIMIT" then v else env name)
      = l.Initialize env ∧
    (NewLimiter.Increment key).UsageMap.get? key = some 1 ∧
    l.ExceedsLimit env key = (Except.error (Fault.panic "HTTP_RATE_LIMIT is not set"), l) := by
  have hne := ne_empty_of_atoi _ window hwin
  refine ⟨?_, ?_, ?_, ?_⟩
  · simp [Limiter.Initialize, hne, hwin]
  · simp [Limiter.Initialize]
  · simp [Limiter.Increment, UsageMap.get?_set_same, NewLimiter, UsageMap.get, UsageMap.get?]
    decide
  · simp [Limiter.ExceedsLimit, hlim]

theorem missing_limit_faults_in_exceedsLimit_witness :
    Limiter.Initialize (fun name => if name = "HTTP_RATE_LIMIT_WINDOW" then "1" else "")
        { UsageMap := [("client1", 1)] }
      = Except.ok { Window := 1, SleepNs := wrapInt64 (1 * 1000000000) } ∧
    Limiter.Initialize
        (fun name => if name = "HTTP_RATE_LIMIT" then "2"
          else (fun name => if name = "HTTP_RATE_LIMIT_WINDOW" then "1" else "") name)
        { UsageMap := [("client1", 1)] }
      = Limiter.Initialize (fun name => if name = "HTTP_RATE_LIMIT_WINDOW" then "1" else "")
        { UsageMap := [("client1", 1)] } ∧
    (NewLimiter.Increment "client1").UsageMap.get? "client1" = some 1 ∧
    Limiter.ExceedsLimit (fun name => if name = "HTTP_RATE_LIMIT_WINDOW" then "1" else "")
        { UsageMap := [("client1", 1)] } "client1"
      = (Except.error (Fault.panic "HTTP_RATE_LIMIT is not set"),
         { UsageMap := [("client1", 1)] }) :=
  missing_limit_faults_in_exceedsLimit
    (fun name => if name = "HTTP_RATE_LIMIT_WINDOW" then "1" else "")
    { UsageMap := [("client1", 1)] } "client1" "2" 1 (by decide) (by decide)

/-- C8, as amended: when `HTTP_RATE_LIMIT` is a non-empty value that parses as zero or
as a negative integer `L`, `ExceedsLimit` produces no fault: for every key and every
usage map it returns the boolean "count of the key greater than `L`" and leaves the
limiter as it was; the first request of a key already exceeds such a limit. -/
theorem exceedsLimit_nonpositive_limit (env : Env) (l : Limiter) (key : String) (L : Int)
    (hL : Atoi (env "HTTP_RATE_LIMIT") = (L, none)) (hnp : L ≤ 0) :
    l.ExceedsLimit env key =
      (Except.ok (decide (L < (l.UsageMap.get? key).getD 0)), l) ∧
    (NewLimiter.Increment key).ExceedsLimit env key
      = (Except.ok true, NewLimiter.Increment key) := by
  have hne := ne_empty_of_atoi _ L hL
  constructor
  · rw [Limiter.exceedsLimit_of_nonempty env l key hne, hL]
    rfl
  · rw [Limiter.exceedsLimit_of_nonempty env _ key hne, hL, Limiter.get_increment_same]
    have h1 : wrapInt64 (NewLimiter.UsageMap.get key + 1) = 1 := by
      have hz : NewLimiter.UsageMap.get key = 0 := rfl
      rw [hz]
      decide
    have hlt : L < 1 := by omega
    simp [h1, hlt]

theorem exceedsLimit_nonpositive_limit_witness :
    Limiter.ExceedsLimit (fun _ => "-3") { UsageMap := [("a", -5)] } "a"
      = (Except.ok (decide ((-3 : Int) < (UsageMap.get? [("a", -5)] "a").getD 0)),
         { UsageMap := [("a", -5)] }) ∧
    (NewLimiter.Increment "a").ExceedsLimit (fun _ => "-3") "a"
      = (Except.ok true, NewLimiter.Increment "a") :=
  exceedsLimit_nonpositive_limit (fun _ => "-3") { UsageMap := [("a", -5)] } "a" (-3)
    (by decide) (by decide)

/-- C8 as stated fails for the values `0` and `-3`: `ExceedsLimit` returns a boolean, it
does not fault. -/
theorem exceedsLimit_zero_limit_returns :
    Limiter.ExceedsLimit (fun _ => "0") { UsageMap := [] } "a"
      = (Except.ok false, { UsageMap := [] }) ∧
    Limiter.ExceedsLimit (fun _ => "-3") { UsageMap := [] } "a"
      = (Except.ok true, { UsageMap := [] }) := by
  constructor <;> rfl

/-- C9, as amended: `Initialize` fails fatally, starting no reset loop, exactly when
`strconv.Atoi` rejects `HTTP_RATE_LIMIT_WINDOW` (missing, empty, not a decimal integer or
outside the 64-bit range); for every value that `strconv.Atoi` accepts it starts the
loop with that window, and it does so for the decimal string of every 64-bit integer
`w`: the positive ones, zero and the negative ones. -/
theorem initialize_fatal_iff_atoi_rejects (env : Env) (l : Limiter) (w : Int)
    (hlo : minInt64 ≤ w) (hhi : w ≤ maxInt64) :
    ((∃ f : Fault, l.Initialize env = Except.error f ∧ f.isFatal = true)
      ↔ (Atoi (env "HTTP_RATE_LIMIT_WINDOW")).2 ≠ none) ∧
    (l.Initialize env =
        Except.ok { Window := (Atoi (env "HTTP_RATE_LIMIT_WINDOW")).1,
                    SleepNs := wrapInt64 ((Atoi (env "HTTP_RATE_LIMIT_WINDOW")).1 * 1000000000) }
      ↔ (Atoi (env "HTTP_RATE_LIMIT_WINDOW")).2 = none) ∧
    l.Initialize (fun name => if name = "HTTP_RATE_LIMIT_WINDOW" then Itoa w else env name)
      = Except.ok { Window := w, SleepNs := wrapInt64 (w * 1000000000) } := by
  refine ⟨?_, ?_, ?_⟩
  · by_cases hempty : env "HTTP_RATE_LIMIT_WINDOW" = ""
    · have ha : Atoi "" = (0, some NumError.ErrSyntax) := rfl
      simp [Limiter.Initialize, hempty, ha, Fault.isFatal]
    · rcases hat : Atoi (env "HTTP_RATE_LIMIT_WINDOW") with ⟨v, _ | err⟩
      · simp [Limiter.Initialize, hempty, hat]
      · simp [Limiter.Initialize, hempty, hat, Fault.isFatal]
  · by_cases hempty : env "HTTP_RATE_LIMIT_WINDOW" = ""
    · have ha : Atoi "" = (0, some NumError.ErrSyntax) := rfl
      simp [Limiter.Initialize, hempty, ha]
    · rcases hat : Atoi (env "HTTP_RATE_LIMIT_WINDOW") with ⟨v, _ | err⟩
      · simp [Limiter.Initialize, hempty, hat]
      · simp [Limiter.Initialize, hempty, hat]
  · have hat := atoi_itoa w hlo hhi
    have hne := ne_empty_of_atoi _ w hat
    simp [Limiter.Initialize, hne, hat]

theorem initialize_fatal_iff_atoi_rejects_witness :
    ((∃ f : Fault, Limiter.Initialize (fun _ => "abc") NewLimiter = Except.error f ∧
        f.isFatal = true)
      ↔ (Atoi ((fun _ => "abc") "HTTP_RATE_LIMIT_WINDOW")).2 ≠ none) ∧
    (Limiter.Initialize (fun _ => "abc") NewLimiter =
        Except.ok { Window := (Atoi ((fun _ => "abc") "HTTP_RATE_LIMIT_WINDOW")).1,
                    SleepNs := wrapInt64
                      ((Atoi ((fun _ => "abc") "HTTP_RATE_LIMIT_WINDOW")).1 * 1000000000) }
      ↔ (Atoi ((fun _ => "abc") "HTTP_RATE_LIMIT_WINDOW")).2 = none) ∧
    Limiter.Initialize
        (fun name => if name = "HTTP_RATE_LIMIT_WINDOW" then Itoa 60
          else (fun _ => "abc") name) NewLimiter
      = Except.ok { Window := 60, SleepNs := wrapInt64 (60 * 1000000000) } :=
  initialize_fatal_iff_atoi_rejects (fun _ => "abc") NewLimiter 60 (by decide) (by decide)

/-- C9 as stated fails for the windows `0` and `-5`, with which `Initialize` starts the
reset loop, and for the positive integer 2^63, with which it fails fatally. -/
theorem initialize_zero_window_starts_loop :
    Limiter.Initialize (fun _ => "0") NewLimiter
      = Except.ok { Window := 0, SleepNs := 0 } ∧
    Limiter.Initialize (fun _ => "-5") NewLimiter
      = Except.ok { Window := -5, SleepNs := -5000000000 } ∧
    Limiter.Initialize (fun _ => "9223372036854775808") NewLimiter
      = Except.error (Fault.fatalErr NumError.ErrRange) := by
  refine ⟨?_, ?_, ?_⟩ <;> rfl

/-! ## The worker manager -/

/-- The construction loop appends one started worker per iteration, named after the
loop counter. -/
theorem newWorkerManager_loop_workers (todo : Nat) :
    ∀ (i : Nat) (wm : WorkerManager),
      (NewWorkerManager.loop todo i wm).Workers =
        wm.Workers ++ (List.range' i todo).map (fun j : Nat => (NewWorker (Itoa (j : Int))).Start) := by
  induction todo with
  | zero => intro i wm; simp [NewWorkerManager.loop]
  | succ todo ih =>
    intro i wm
    rw [NewWorkerManager.loop, ih]
    simp [WorkerManager.AddWorker, List.range'_succ]

/-- C10: for every `n ≥ 0` the manager returned by `NewWorkerManager(n)` has exactly `n`
workers, and the worker at index `i < n` has the decimal string of `i` as its ID, is
marked free and has been started exactly once; there is no worker at another index. -/
theorem newWorkerManager_workers (n : Int) (hn : 0 ≤ n) (i : Nat) :
    ((NewWorkerManager n).Workers.length : Int) = n ∧
    (NewWorkerManager n).Workers[i]? =
      if (i : Int) < n then
        some { ID := Itoa (i : Int), JobQueue := [], IsFree := true, Starts := 1 }
      else none := by
  have hw : (NewWorkerManager n).Workers =
      (List.range' 0 n.toNat).map (fun j : Nat => (NewWorker (Itoa (j : Int))).Start) := by
    simp [NewWorkerManager, newWorkerManager_loop_workers]
  have hcast : (n.toNat : Int) = n := Int.toNat_of_nonneg hn
  constructor
  · rw [hw]
    simp [hcast]
  · rw [hw, List.getElem?_map]
    by_cases hi : (i : Int) < n
    · have hlt : i < n.toNat := by omega
      have hr : (List.range' 0 n.toNat)[i]? = some i := by
        rw [List.getElem?_range' 0 1 hlt]
        simp
      simp [hr, hi, NewWorker, Worker.Start]
    · have hge : n.toNat ≤ i := by omega
      have hr : (List.range' 0 n.toNat)[i]? = none := by
        rw [List.getElem?_eq_none]
        simp [hge]
      simp [hr, hi]

/-- The test `NewWorkerManager(2)`: two workers, the second one named `"1"`. -/
theorem newWorkerManager_workers_witness :
    ((NewWorkerManager 2).Workers.length : Int) = 2 ∧
    (NewWorkerManager 2).Workers[1]? =
      if ((1 : Nat) : Int) < 2 then
        some { ID := Itoa ((1 : Nat) : Int), JobQueue := [], IsFree := true, Starts := 1 }
      else none :=
  newWorkerManager_workers 2 (by decide) 1

/-! ### Worker IDs -/

/-- Reading the printed digits of `n` gives `n` back, whatever its size. -/
theorem decimalValue_toDigitsCore (fuel : Nat) :
    ∀ (n : Nat) (ds : List Char), n < fuel →
      decimalValue (Nat.toDigitsCore 10 fuel n ds) 0 = decimalValue ds n := by
  induction fuel with
  | zero => intro n ds h; omega
  | succ fuel ih =>
    intro n ds hfuel
    have hd := digitChar_toNat (n % 10) (Nat.mod_lt _ (by decide))
    have hhead : ∀ acc : Nat, acc * 10 + n % 10 = n →
        decimalValue (Nat.digitChar (n % 10) :: ds) acc = decimalValue ds n := by
      intro acc hacc
      have h3 : acc * 10 + ((Nat.digitChar (n % 10)).toNat - 48) = n := by omega
      simp only [decimalValue, h3]
    unfold Nat.toDigitsCore
    by_cases hz : n / 10 = 0
    · simp only [hz, if_true]
      exact hhead 0 (by omega)
    · simp only [hz, if_false]
      rw [ih (n / 10) _ (by omega)]
      exact hhead (n / 10) (by omega)

/-- Two natural numbers with the same decimal string are equal. -/
theorem itoa_natCast_injective (a b : Nat) (h : Itoa (a : Int) = Itoa (b : Int)) : a = b := by
  have hrepr : ∀ m : Nat, Itoa (m : Int) = Nat.repr m := by
    intro m
    have hm : ¬ ((m : Int) < 0) := by omega
    simp [Itoa, hm]
  have hval : ∀ m : Nat, decimalValue (Nat.repr m).data 0 = m := by
    intro m
    have hdata : (Nat.repr m).data = Nat.toDigitsCore 10 (m + 1) m [] := rfl
    rw [hdata, decimalValue_toDigitsCore (m + 1) m [] (by omega)]
    rfl
  rw [hrepr a, hrepr b] at h
  have := congrArg (fun s : String => decimalValue s.data 0) h
  simpa [hval] using this

/-- The workers of `NewWorkerManager(n)`, in order. -/
theorem newWorkerManager_workers_eq (n : Int) :
    (NewWorkerManager n).Workers =
      (List.range' 0 n.toNat).map (fun j : Nat => (NewWorker (Itoa (j : Int))).Start) := by
  simp [NewWorkerManager, newWorkerManager_loop_workers]

/-- The worker at a position of `NewWorkerManager(n)`. -/
theorem newWorkerManager_getElem? (n : Int) (i : Nat) (w : Worker)
    (h : (NewWorkerManager n).Workers[i]? = some w) :
    i < n.toNat ∧ w = { ID := Itoa (i : Int), JobQueue := [], IsFree := true, Starts := 1 } := by
  rw [newWorkerManager_workers_eq, List.getElem?_map] at h
  have hlt : i < n.toNat := by
    by_contra hge
    have hr : (List.range' 0 n.toNat)[i]? = none := by
      rw [List.getElem?_eq_none]
      simp
      omega
    simp [hr] at h
  have hr : (List.range' 0 n.toNat)[i]? = some i := by
    rw [List.getElem?_range' 0 1 hlt]
    simp
  simp [hr, NewWorker, Worker.Start] at h
  exact ⟨hlt, h.symm⟩

/-- C11: for every `n`, workers at two different positions of the `Workers` list of
`NewWorkerManager(n)` have different IDs. -/
theorem newWorkerManager_ids_distinct (n : Int) (i j : Nat) (wi wj : Worker)
    (hi : (NewWorkerManager n).Workers[i]? = some wi)
    (hj : (NewWorkerManager n).Workers[j]? = some wj) (hne : i ≠ j) :
    wi.ID ≠ wj.ID := by
  obtain ⟨_, hwi⟩ := newWorkerManager_getElem? n i wi hi
  obtain ⟨_, hwj⟩ := newWorkerManager_getElem? n j wj hj
  intro hid
  rw [hwi, hwj] at hid
  exact hne (itoa_natCast_injective i j hid)

/-- The first and the last of twelve workers: IDs `"0"` and `"11"`. -/
theorem newWorkerManager_ids_distinct_witness :
    ({ ID := "0", JobQueue := [], IsFree := true, Starts := 1 } : Worker).ID
      ≠ ({ ID := "11", JobQueue := [], IsFree := true, Starts := 1 } : Worker).ID :=
  newWorkerManager_ids_distinct 12 0 11 _ _ (by decide) (by decide) (by decide)

/-! ### The status map -/

/-- Assigning to a key that is not in the map adds an entry at the end. -/
theorem StatusMap.set_of_not_mem (m : StatusMap) (k : String) (v : Bool)
    (h : k ∉ m.map Prod.fst) : StatusMap.set m k v = m ++ [(k, v)] := by
  induction m with
  | nil => rfl
  | cons e rest ih =>
    obtain ⟨k1, v1⟩ := e
    simp only [List.map_cons, List.mem_cons, not_or] at h
    have hne : ¬ k1 = k := fun heq => h.1 heq.symm
    simp [StatusMap.set, hne, ih h.2]

/-- Reading a key of a map whose keys are distinct. -/
theorem StatusMap.get?_of_mem (m : StatusMap) (k : String) (v : Bool)
    (hnd : (m.map Prod.fst).Nodup) (h : (k, v) ∈ m) : StatusMap.get? m k = some v := by
  induction m with
  | nil => simp at h
  | cons e rest ih =>
    obtain ⟨k1, v1⟩ := e
    simp only [List.map_cons, List.nodup_cons] at hnd
    simp only [List.mem_cons, Prod.mk.injEq] at h
    rcases h with ⟨hk, hv⟩ | hmem
    · simp [StatusMap.get?, hk, hv]
    · have hne : ¬ k1 = k := by
        intro heq
        apply hnd.1
        rw [heq]
        exact List.mem_map_of_mem Prod.fst hmem
      simp [StatusMap.get?, hne, ih hnd.2 hmem]

/-- The status loop over workers with distinct IDs, none of them in the map yet, adds
one entry for each worker, in order. -/
theorem getWorkerStatus_loop_of_nodup (ws : List Worker) :
    ∀ status : StatusMap, (status.map Prod.fst ++ ws.map (fun w => w.ID)).Nodup →
      GetWorkerStatus.loop ws status = status ++ ws.map (fun w => (w.ID, w.IsAvailable)) := by
  induction ws with
  | nil => intro status _; simp [GetWorkerStatus.loop]
  | cons w rest ih =>
    intro status hnd
    have hnot : w.ID ∉ status.map Prod.fst := by
      intro hmem
      have := List.nodup_append.1 hnd
      exact this.2.2 hmem (by simp)
    rw [GetWorkerStatus.loop, StatusMap.set_of_not_mem status w.ID _ hnot, ih]
    · simp
    · simpa [List.map_append, List.append_assoc] using hnd

/-- The IDs of the workers of `NewWorkerManager(n)`. -/
theorem newWorkerManager_ids (n : Int) :
    (NewWorkerManager n).Workers.map (fun w => w.ID)
      = (List.range' 0 n.toNat).map (fun j : Nat => Itoa (j : Int)) := by
  rw [newWorkerManager_workers_eq, List.map_map]
  rfl

/-- The IDs of the workers of `NewWorkerManager(n)` do not repeat. -/
theorem newWorkerManager_ids_nodup (n : Int) :
    ((NewWorkerManager n).Workers.map (fun w => w.ID)).Nodup := by
  rw [newWorkerManager_ids]
  exact List.Nodup.map (fun a b h => itoa_natCast_injective a b h) (List.nodup_range' 0 n.toNat)

/-- The status map of a manager whose workers have distinct IDs. -/
theorem getWorkerStatus_of_nodup (wm : WorkerManager)
    (hnd : (wm.Workers.map (fun w => w.ID)).Nodup) :
    wm.GetWorkerStatus = wm.Workers.map (fun w => (w.ID, w.IsAvailable)) := by
  unfold WorkerManager.GetWorkerStatus
  rw [getWorkerStatus_loop_of_nodup wm.Workers [] (by simpa using hnd)]
  simp

/-- C12: for every `N ≥ 0`, `GetWorkerStatus` on the manager just built by
`NewWorkerManager(N)` returns a map with exactly `N` entries, whose keys are the worker
IDs, each once, and every entry has the value true: reading the map at the ID of any
worker gives true. -/
theorem getWorkerStatus_fresh (n : Int) (hn : 0 ≤ n) :
    (((NewWorkerManager n).GetWorkerStatus).length : Int) = n ∧
    ((NewWorkerManager n).GetWorkerStatus).map Prod.fst
      = (NewWorkerManager n).Workers.map (fun w => w.ID) ∧
    (((NewWorkerManager n).GetWorkerStatus).map Prod.fst).Nodup ∧
    (∀ e ∈ (NewWorkerManager n).GetWorkerStatus, e.2 = true) ∧
    (∀ w ∈ (NewWorkerManager n).Workers,
      StatusMap.get? (NewWorkerManager n).GetWorkerStatus w.ID = some true) := by
  have hst := getWorkerStatus_of_nodup (NewWorkerManager n) (newWorkerManager_ids_nodup n)
  have hkeys : ((NewWorkerManager n).GetWorkerStatus).map Prod.fst
      = (NewWorkerManager n).Workers.map (fun w => w.ID) := by
    rw [hst, List.map_map]
    rfl
  have hfree : ∀ w ∈ (NewWorkerManager n).Workers, w.IsAvailable = true := by
    intro w hw
    obtain ⟨i, hi⟩ := List.getElem?_of_mem hw
    rw [(newWorkerManager_getElem? n i w hi).2]
    rfl
  have hnd : (((NewWorkerManager n).GetWorkerStatus).map Prod.fst).Nodup := by
    rw [hkeys]
    exact newWorkerManager_ids_nodup n
  refine ⟨?_, hkeys, hnd, ?_, ?_⟩
  · rw [hst, List.length_map, newWorkerManager_workers_eq]
    simp [Int.toNat_of_nonneg hn]
  · intro e he
    rw [hst] at he
    obtain ⟨w, hw, rfl⟩ := List.mem_map.1 he
    exact hfree w hw
  · intro w hw
    apply StatusMap.get?_of_mem _ _ _ hnd
    rw [hst]
    exact List.mem_map.2 ⟨w, hw, by rw [hfree w hw]⟩

/-- The pool of the test, `NewWorkerManager(2)`: entries `"0"` and `"1"`, both true. -/
theorem getWorkerStatus_fresh_witness :
    (((NewWorkerManager 2).GetWorkerStatus).length : Int) = 2 ∧
    ((NewWorkerManager 2).GetWorkerStatus).map Prod.fst
      = (NewWorkerManager 2).Workers.map (fun w => w.ID) ∧
    (((NewWorkerManager 2).GetWorkerStatus).map Prod.fst).Nodup ∧
    (∀ e ∈ (NewWorkerManager 2).GetWorkerStatus, e.2 = true) ∧
    (∀ w ∈ (NewWorkerManager 2).Workers,
      StatusMap.get? (NewWorkerManager 2).GetWorkerStatus w.ID = some true) :=
  getWorkerStatus_fresh 2 (by decide)

/-! ### Executions -/

theorem Pool.exec_nil (s : Pool) : s.exec [] = s := rfl

theorem Pool.exec_cons (s : Pool) (a : Action) (tr : List Action) :
    s.exec (a :: tr) = (s.step a).exec tr := rfl

theorem Pool.exec_append (s : Pool) (tr1 tr2 : List Action) :
    s.exec (tr1 ++ tr2) = (s.exec tr1).exec tr2 := by
  simp [Pool.exec, List.foldl_append]

theorem Pool.exec_replicate_succ (s : Pool) (a : Action) (m : Nat) :
    s.exec (List.replicate (m + 1) a) = (s.step a).exec (List.replicate m a) := rfl

/-- Writing back the element that is there changes nothing. -/
theorem list_set_self {α : Type} (l : List α) (k : Nat) (x : α) (h : l[k]? = some x) :
    l.set k x = l := by
  induction l generalizing k with
  | nil => rfl
  | cons y rest ih =>
    cases k with
    | zero => simp at h; simp [h]
    | succ k => simp at h; simp [ih k h]

/-! ### Selecting a worker -/

/-- What the scan of `GetAvailableWorker` finds: nothing when every flag is false,
otherwise the first worker whose flag is true. -/
theorem getAvailableWorker_scan (procs : List WorkerProc) :
    ∀ i0 : Nat,
      ((∀ p ∈ procs, p.worker.IsAvailable = false) ∧
        GetAvailableWorker.scan (procs.map (fun p => p.worker)) i0 = none) ∨
      (∃ (i : Nat) (p : WorkerProc), procs[i]? = some p ∧ p.worker.IsAvailable = true ∧
        (∀ (j : Nat) (q : WorkerProc), j < i → procs[j]? = some q →
          q.worker.IsAvailable = false) ∧
        GetAvailableWorker.scan (procs.map (fun p => p.worker)) i0 = some (i0 + i, p.worker)) := by
  induction procs with
  | nil => intro i0; left; simp [GetAvailableWorker.scan]
  | cons p rest ih =>
    intro i0
    by_cases hfree : p.worker.IsAvailable = true
    · right
      refine ⟨0, p, by simp, hfree, ?_, by simp [GetAvailableWorker.scan, hfree]⟩
      intro j q hj
      omega
    · have hfalse : p.worker.IsAvailable = false := by simpa using hfree
      rcases ih (i0 + 1) with ⟨hall, hnone⟩ | ⟨i, q, hq, hqfree, hmin, hsome⟩
      · left
        refine ⟨?_, by simp [GetAvailableWorker.scan, hfalse, hnone]⟩
        intro x hx
        rcases List.mem_cons.1 hx with rfl | hx
        · exact hfalse
        · exact hall x hx
      · right
        refine ⟨i + 1, q, by simpa using hq, hqfree, ?_, ?_⟩
        · intro j r hj hr
          cases j with
          | zero => simp at hr; rw [← hr]; exact hfalse
          | succ j => exact hmin j r (by omega) (by simpa using hr)
        · simp [GetAvailableWorker.scan, hfalse, hsome]
          omega

/-- The dispatching goroutine walks over workers whose flag is false. -/
theorem dispatch_scan_busy (d : Nat) (job : Job) (m : Nat) :
    ∀ (s : Pool) (i : Nat), s.Crashed = false →
      s.Dispatchers[d]? = some { job := job, pc := DispatchPc.scan i } →
      (∀ j : Nat, i ≤ j → j < i + m →
        ∃ q, s.Procs[j]? = some q ∧ q.worker.IsAvailable = false) →
      s.exec (List.replicate m (Action.dispatch d)) =
        { s with Dispatchers :=
            s.Dispatchers.set d { job := job, pc := DispatchPc.scan (i + m) } } := by
  induction m with
  | zero =>
    intro s i _ hd _
    simp [Pool.exec_nil, list_set_self _ _ _ hd]
  | succ m ih =>
    intro s i hc hd hbusy
    obtain ⟨q, hq, hqbusy⟩ := hbusy i (le_refl _) (by omega)
    have hstep : s.step (Action.dispatch d) =
        { s with Dispatchers :=
            s.Dispatchers.set d { job := job, pc := DispatchPc.scan (i + 1) } } := by
      simp [Pool.step, hc, Pool.dispatchStep, hd, hq, hqbusy]
    have hlen : d < s.Dispatchers.length := by
      by_contra hge
      rw [List.getElem?_eq_none (by omega)] at hd
      exact absurd hd (by simp)
    have hd1 : (s.Dispatchers.set d { job := job, pc := DispatchPc.scan (i + 1) })[d]?
        = some { job := job, pc := DispatchPc.scan (i + 1) } := by
      simp [List.getElem?_set, hlen]
    rw [Pool.exec_replicate_succ, hstep]
    rw [ih { s with Dispatchers :=
          s.Dispatchers.set d { job := job, pc := DispatchPc.scan (i + 1) } } (i + 1) hc hd1
      (fun j h1 h2 => hbusy j (by omega) (by omega))]
    simp only [List.set_set]
    have hsum : i + 1 + m = i + (m + 1) := by omega
    rw [hsum]

/-- C13: for every worker list and every assignment of the flags, `GetAvailableWorker`
and one scan pass of the goroutine of `WorkerManager.AddJob`, run from the start of the
list with nothing else running in between, select the same worker: the one with the
smallest index whose flag is true, to whose channel the pass sends the job. When no
flag is true, and only then, `GetAvailableWorker` returns `nil` and the pass sends the
job to no worker and is back at the start of the list. -/
theorem first_free_worker_selected (s : Pool) (d : Nat) (job : Job)
    (hc : s.Crashed = false)
    (hd : s.Dispatchers[d]? = some { job := job, pc := DispatchPc.scan 0 }) :
    ((∀ p ∈ s.Procs, p.worker.IsAvailable = false) ∧
      s.manager.GetAvailableWorker = none ∧
      (∀ m : Nat, m ≤ s.Procs.length →
        (s.exec (List.replicate m (Action.dispatch d))).Procs = s.Procs) ∧
      s.exec (List.replicate (s.Procs.length + 1) (Action.dispatch d)) = s) ∨
    (∃ (i : Nat) (p : WorkerProc), s.Procs[i]? = some p ∧ p.worker.IsAvailable = true ∧
      (∀ (j : Nat) (q : WorkerProc), j < i → s.Procs[j]? = some q →
        q.worker.IsAvailable = false) ∧
      s.manager.GetAvailableWorker = some (i, p.worker) ∧
      s.exec (List.replicate (i + 2) (Action.dispatch d)) =
        { s with Procs := s.Procs.set i (p.AddJob job),
                 Dispatchers := s.Dispatchers.set d { job := job, pc := DispatchPc.send i } }) := by
  have hlen : d < s.Dispatchers.length := by
    by_contra hge
    rw [List.getElem?_eq_none (by omega)] at hd
    exact absurd hd (by simp)
  rcases getAvailableWorker_scan s.Procs 0 with ⟨hall, hnone⟩ | ⟨i, p, hp, hfree, hmin, hsome⟩
  · left
    have hbusy : ∀ m : Nat, m ≤ s.Procs.length →
        s.exec (List.replicate m (Action.dispatch d)) =
          { s with Dispatchers :=
              s.Dispatchers.set d { job := job, pc := DispatchPc.scan (0 + m) } } := by
      intro m hm
      apply dispatch_scan_busy d job m s 0 hc hd
      intro j _ hj
      have hjlt : j < s.Procs.length := by omega
      exact ⟨s.Procs[j], List.getElem?_eq_getElem hjlt, hall _ (List.getElem_mem hjlt)⟩
    refine ⟨hall, hnone, ?_, ?_⟩
    · intro m hm
      rw [hbusy m hm]
    · rw [List.replicate_succ', Pool.exec_append, hbusy _ (le_refl _)]
      have hnone2 : s.Procs[0 + s.Procs.length]? = none := by
        rw [List.getElem?_eq_none (by omega)]
      simp [Pool.exec, Pool.step, hc, Pool.dispatchStep, List.getElem?_set, hlen, hnone2,
        List.set_set, list_set_self _ _ _ hd]
      cases s
      simp_all
  · right
    refine ⟨i, p, hp, hfree, hmin, by simpa [Pool.manager, WorkerManager.GetAvailableWorker]
      using hsome, ?_⟩
    have hbusy := dispatch_scan_busy d job i s 0 hc hd (by
      intro j _ hj
      have hjlt : j < s.Procs.length := by
        have := (List.getElem?_eq_some_iff.1 hp).1
        omega
      exact ⟨s.Procs[j], List.getElem?_eq_getElem hjlt,
        hmin j _ (by omega) (List.getElem?_eq_getElem hjlt)⟩)
    have hsplit : List.replicate (i + 2) (Action.dispatch d)
        = List.replicate i (Action.dispatch d) ++ [Action.dispatch d, Action.dispatch d] := by
      rw [List.replicate_succ', List.replicate_succ']
      simp
    have hi : (0 + i) = i := by omega
    rw [hsplit, Pool.exec_append, hbusy, hi]
    simp [Pool.exec, Pool.step, hc, Pool.dispatchStep, List.getElem?_set, hlen, hp, hfree,
      List.set_set]

/-- Worker 0 busy, workers 1 and 2 free: worker 1 is selected. -/
theorem first_free_worker_selected_witness :
    ((∀ p ∈ busyFirstPool.Procs, p.worker.IsAvailable = false) ∧
      busyFirstPool.manager.GetAvailableWorker = none ∧
      (∀ m : Nat, m ≤ busyFirstPool.Procs.length →
        (busyFirstPool.exec (List.replicate m (Action.dispatch 0))).Procs
          = busyFirstPool.Procs) ∧
      busyFirstPool.exec (List.replicate (busyFirstPool.Procs.length + 1) (Action.dispatch 0))
        = busyFirstPool) ∨
    (∃ (i : Nat) (p : WorkerProc), busyFirstPool.Procs[i]? = some p ∧
      p.worker.IsAvailable = true ∧
      (∀ (j : Nat) (q : WorkerProc), j < i → busyFirstPool.Procs[j]? = some q →
        q.worker.IsAvailable = false) ∧
      busyFirstPool.manager.GetAvailableWorker = some (i, p.worker) ∧
      busyFirstPool.exec (List.replicate (i + 2) (Action.dispatch 0)) =
        { busyFirstPool with
            Procs := busyFirstPool.Procs.set i (p.AddJob 7),
            Dispatchers := busyFirstPool.Dispatchers.set 0
              { job := 7, pc := DispatchPc.send i } }) :=
  first_free_worker_selected busyFirstPool 0 7 rfl rfl

/-! ### The singleton manager -/

/-- C18, as amended: on its first call `GetWorkerManager` fails fatally exactly when
`strconv.Atoi` rejects `HTTP_WORKER_POOL_SIZE` (absent, empty, not a decimal integer or
outside the 64-bit range); for every value that is accepted it returns the manager
built by `NewWorkerManager`, it does so for the decimal string of every 64-bit integer
`n`, and the worker list of that manager is empty exactly when `n` is zero or
negative. -/
theorem getWorkerManager_fatal_iff_atoi_rejects (env : Env) (n : Int)
    (hlo : minInt64 ≤ n) (hhi : n ≤ maxInt64) :
    ((∃ f : Fault, (GetWorkerManager env none).1 = Except.error f ∧ f.isFatal = true)
      ↔ (Atoi (env "HTTP_WORKER_POOL_SIZE")).2 ≠ none) ∧
    ((GetWorkerManager env none).1
        = Except.ok (NewWorkerManager (Atoi (env "HTTP_WORKER_POOL_SIZE")).1)
      ↔ (Atoi (env "HTTP_WORKER_POOL_SIZE")).2 = none) ∧
    GetWorkerManager (fun name => if name = "HTTP_WORKER_POOL_SIZE" then Itoa n else env name)
        none
      = (Except.ok (NewWorkerManager n), some (NewWorkerManager n)) ∧
    ((NewWorkerManager n).Workers = [] ↔ n ≤ 0) := by
  refine ⟨?_, ?_, ?_, ?_⟩
  · rcases hat : Atoi (env "HTTP_WORKER_POOL_SIZE") with ⟨v, _ | err⟩
    · simp [GetWorkerManager, hat]
    · simp [GetWorkerManager, hat, Fault.isFatal]
  · rcases hat : Atoi (env "HTTP_WORKER_POOL_SIZE") with ⟨v, _ | err⟩
    · simp [GetWorkerManager, hat]
    · simp [GetWorkerManager, hat]
  · simp [GetWorkerManager, atoi_itoa n hlo hhi]
  · rw [newWorkerManager_workers_eq]
    simp

theorem getWorkerManager_fatal_iff_atoi_rejects_witness :
    ((∃ f : Fault, (GetWorkerManager (fun _ => "two") none).1 = Except.error f ∧
        f.isFatal = true)
      ↔ (Atoi ((fun _ => "two") "HTTP_WORKER_POOL_SIZE")).2 ≠ none) ∧
    ((GetWorkerManager (fun _ => "two") none).1
        = Except.ok (NewWorkerManager (Atoi ((fun _ => "two") "HTTP_WORKER_POOL_SIZE")).1)
      ↔ (Atoi ((fun _ => "two") "HTTP_WORKER_POOL_SIZE")).2 = none) ∧
    GetWorkerManager
        (fun name => if name = "HTTP_WORKER_POOL_SIZE" then Itoa 2
          else (fun _ => "two") name) none
      = (Except.ok (NewWorkerManager 2), some (NewWorkerManager 2)) ∧
    ((NewWorkerManager 2).Workers = [] ↔ (2 : Int) ≤ 0) :=
  getWorkerManager_fatal_iff_atoi_rejects (fun _ => "two") 2 (by decide) (by decide)

/-- C18 as stated fails for the pool sizes `0` and `-3`: the first call returns a
manager, and its worker list is empty. -/
theorem getWorkerManager_zero_pool_size :
    GetWorkerManager (fun _ => "0") none
      = (Except.ok { Workers := [] }, some { Workers := [] }) ∧
    GetWorkerManager (fun _ => "-3") none
      = (Except.ok { Workers := [] }, some { Workers := [] }) := by
  constructor <;> rfl

/-! ### The worker list -/

/-- Replacing an element by one with the same image leaves the list of images as it is. -/
theorem map_set_of_eq {α β : Type} (f : α → β) (l : List α) (k : Nat) (x y : α)
    (h : l[k]? = some y) (hf : f x = f y) : (l.set k x).map f = l.map f := by
  induction l generalizing k with
  | nil => rfl
  | cons z rest ih =>
    cases k with
    | zero => simp at h; simp [h, hf]
    | succ k => simp at h; simp [ih k h]

theorem WorkerProc.loopStep_id (p : WorkerProc) (n : Nat) :
    (p.loopStep n).1.worker.ID = p.worker.ID := by
  unfold WorkerProc.loopStep
  split
  · rfl
  · split <;> rfl
  all_goals rfl

/-- No action changes the IDs of the workers of the pool or their order. -/
theorem Pool.step_ids (s : Pool) (a : Action) :
    (s.step a).Procs.map (fun p => p.worker.ID) = s.Procs.map (fun p => p.worker.ID) := by
  unfold Pool.step
  split
  · rfl
  · cases a with
    | addJob job => rfl
    | workerAddJob k job =>
      simp only
      split
      · rfl
      · next p hp => exact map_set_of_eq _ _ _ _ _ hp rfl
    | dispatch d =>
      simp only [Pool.dispatchStep]
      split
      · rfl
      · split
        · split
          · rfl
          · split <;> rfl
        · split
          · rfl
          · next p hp => exact map_set_of_eq _ _ _ _ _ hp rfl
        · rfl
    | loop k n =>
      simp only
      split
      · rfl
      · next p hp => exact map_set_of_eq _ _ _ _ _ hp (WorkerProc.loopStep_id p n)
    | panic k n =>
      simp only
      split
      · rfl
      · next p hp =>
        split
        · exact map_set_of_eq _ _ _ _ _ hp rfl
        · rfl

theorem Pool.exec_ids (tr : List Action) :
    ∀ s : Pool,
      (s.exec tr).Procs.map (fun p => p.worker.ID) = s.Procs.map (fun p => p.worker.ID) := by
  induction tr with
  | nil => intro s; rfl
  | cons a tr ih =>
    intro s
    rw [Pool.exec_cons, ih, Pool.step_ids]

/-- C20, as amended: `Start` and `AddJob`, with everything the goroutines of the pool
do afterwards, leave the length of the `Workers` list and the IDs at its positions as
they are (`GetAvailableWorker` and `GetWorkerStatus` only read the list), whereas
`AddWorker` appends one worker to the list. -/
theorem workers_list_changes_only_by_addWorker (wm : WorkerManager) (worker : Worker)
    (s : Pool) (tr : List Action) :
    wm.Start.Workers.map (fun w => w.ID) = wm.Workers.map (fun w => w.ID) ∧
    wm.Start.Workers.length = wm.Workers.length ∧
    (s.exec tr).manager.Workers.map (fun w => w.ID) = s.manager.Workers.map (fun w => w.ID) ∧
    (s.exec tr).manager.Workers.length = s.manager.Workers.length ∧
    (wm.AddWorker worker).Workers = wm.Workers ++ [worker.Start] ∧
    (wm.AddWorker worker).Workers.length = wm.Workers.length + 1 := by
  have hids : (s.exec tr).manager.Workers.map (fun w => w.ID)
      = s.manager.Workers.map (fun w => w.ID) := by
    simpa [Pool.manager, List.map_map, Function.comp_def] using Pool.exec_ids tr s
  refine ⟨?_, ?_, hids, ?_, rfl, ?_⟩
  · simp [WorkerManager.Start, List.map_map, Function.comp_def, Worker.Start]
  · simp [WorkerManager.Start]
  · have := congrArg List.length hids
    simpa using this
  · simp [WorkerManager.AddWorker]

/-- C20 as stated fails for `AddWorker`: called on `NewWorkerManager(1)` it leaves two
workers in the list. -/
theorem addWorker_grows_workers :
    (NewWorkerManager 1).Workers.length = 1 ∧
    ((NewWorkerManager 1).AddWorker (NewWorker "extra")).Workers.length = 2 ∧
    ((NewWorkerManager 1).AddWorker (NewWorker "extra")).Workers.map (fun w => w.ID)
      = ["0", "extra"] := by
  decide

/-! ### One goroutine for each worker -/

theorem forall_mem_set {α : Type} (Q : α → Prop) (l : List α) (k : Nat) (y : α)
    (h : ∀ x ∈ l, Q x) (hy : Q y) : ∀ x ∈ l.set k y, Q x := by
  intro x hx
  rcases List.mem_or_eq_of_mem_set hx with hmem | heq
  · exact h x hmem
  · rw [heq]; exact hy

theorem WorkerProc.single_addJob (p : WorkerProc) (job : Job) (h : p.Single) :
    (p.AddJob job).Single := h

theorem WorkerProc.single_loopStep (p : WorkerProc) (n : Nat) (h : p.Single) :
    (p.loopStep n).1.Single := by
  obtain ⟨pc, hl, hf⟩ := h
  cases n with
  | succ n => simp [WorkerProc.loopStep, hl]; exact ⟨pc, hl, hf⟩
  | zero =>
    cases pc with
    | waiting =>
      cases hq : p.worker.JobQueue with
      | nil => simp [WorkerProc.loopStep, hl, hq]; exact ⟨_, hl, hf⟩
      | cons job rest =>
        simp [WorkerProc.loopStep, hl, hq]
        exact ⟨LoopPc.received job, rfl, by simpa [LoopPc.flag] using hf⟩
    | received job =>
      simp [WorkerProc.loopStep, hl]
      exact ⟨LoopPc.marked job, rfl, rfl⟩
    | marked job =>
      simp [WorkerProc.loopStep, hl]
      exact ⟨LoopPc.running job, rfl, by simpa [LoopPc.flag] using hf⟩
    | running job =>
      simp [WorkerProc.loopStep, hl]
      exact ⟨LoopPc.returned job, rfl, by simpa [LoopPc.flag] using hf⟩
    | returned job =>
      simp [WorkerProc.loopStep, hl]
      exact ⟨LoopPc.waiting, rfl, rfl⟩
    | panicked job =>
      simp [WorkerProc.loopStep, hl]
      exact ⟨_, hl, hf⟩

theorem WorkerProc.single_panic (p : WorkerProc) (n : Nat) (job : Job) (h : p.Single)
    (hrun : p.Loops[n]? = some (LoopPc.running job)) :
    ({ p with Loops := p.Loops.set n (LoopPc.panicked job) } : WorkerProc).Single := by
  obtain ⟨pc, hl, hf⟩ := h
  rw [hl] at hrun
  cases n with
  | succ n => simp at hrun
  | zero =>
    simp at hrun
    subst hrun
    exact ⟨LoopPc.panicked job, by simp [hl], by simpa [LoopPc.flag] using hf⟩

/-- Every action keeps one goroutine for each worker and the flag in step with it. -/
theorem Pool.step_single (s : Pool) (a : Action) (h : ∀ p ∈ s.Procs, p.Single) :
    ∀ p ∈ (s.step a).Procs, p.Single := by
  unfold Pool.step
  split
  · exact h
  · cases a with
    | addJob job => exact h
    | workerAddJob k job =>
      simp only
      split
      · exact h
      · next p hp =>
        exact forall_mem_set _ _ _ _ h (WorkerProc.single_addJob p job
          (h p (List.getElem?_mem hp)))
    | dispatch d =>
      simp only [Pool.dispatchStep]
      split
      · exact h
      · split
        · split
          · exact h
          · split <;> exact h
        · split
          · exact h
          · next p hp =>
            exact forall_mem_set _ _ _ _ h (WorkerProc.single_addJob p _
              (h p (List.getElem?_mem hp)))
        · exact h
    | loop k n =>
      simp only
      split
      · exact h
      · next p hp =>
        exact forall_mem_set _ _ _ _ h (WorkerProc.single_loopStep p n
          (h p (List.getElem?_mem hp)))
    | panic k n =>
      simp only
      split
      · exact h
      · next p hp =>
        split
        · next job hrun =>
          exact forall_mem_set _ _ _ _ h (WorkerProc.single_panic p n job
            (h p (List.getElem?_mem hp)) hrun)
        · exact h

theorem Pool.exec_single (tr : List Action) :
    ∀ s : Pool, (∀ p ∈ s.Procs, p.Single) → ∀ p ∈ (s.exec tr).Procs, p.Single := by
  induction tr with
  | nil => intro s h; exact h
  | cons a tr ih =>
    intro s h
    rw [Pool.exec_cons]
    exact ih _ (Pool.step_single s a h)

/-- In the pool of a manager whose workers are free and were started once, every worker
has one goroutine. -/
theorem Pool.init_single (wm : WorkerManager)
    (h : ∀ w ∈ wm.Workers, w.Starts = 1 ∧ w.IsFree = true) :
    ∀ p ∈ (Pool.init wm).Procs, p.Single := by
  intro p hp
  simp only [Pool.init, List.mem_map] at hp
  obtain ⟨w, hw, rfl⟩ := hp
  obtain ⟨hs, hf⟩ := h w hw
  exact ⟨LoopPc.waiting, by simp [hs], by simpa [LoopPc.flag] using hf⟩

theorem newWorkerManager_started_once (n : Int) :
    ∀ w ∈ (NewWorkerManager n).Workers, w.Starts = 1 ∧ w.IsFree = true := by
  intro w hw
  obtain ⟨i, hi⟩ := List.getElem?_of_mem hw
  rw [(newWorkerManager_getElem? n i w hi).2]
  exact ⟨rfl, rfl⟩

theorem Pool.exec_length (tr : List Action) (s : Pool) :
    (s.exec tr).Procs.length = s.Procs.length := by
  have := congrArg List.length (Pool.exec_ids tr s)
  simpa using this

/-- With one goroutine for each worker, the jobs executing are no more than the
workers. -/
theorem executing_le_of_single (procs : List WorkerProc) (h : ∀ p ∈ procs, p.Single) :
    (procs.flatMap (fun p => p.Loops.flatMap LoopPc.executing)).length ≤ procs.length := by
  induction procs with
  | nil => simp
  | cons p rest ih =>
    obtain ⟨pc, hl, _⟩ := h p (List.mem_cons_self _ _)
    have hrest := ih (fun q hq => h q (List.mem_cons_of_mem _ hq))
    have hpc : (LoopPc.executing pc).length ≤ 1 := by
      cases pc <;> simp [LoopPc.executing]
    simp only [List.flatMap_cons, List.length_append, List.length_cons, hl, List.flatMap_nil,
      List.append_nil]
    omega

/-! ## The worker loop -/

/-- C14, as amended: a worker made by `NewWorker` and started once has, in every state
any execution reaches, exactly one goroutine, so at most one job is executing, and its
flag is the value the loop wrote last: true while the loop waits for a job or has just
received one, false from `w.IsFree = false` until `w.IsFree = true` has run. Hence
`IsAvailable()` is true before the first job, false for the whole time a job runs and
true only when no job is executing. -/
theorem worker_flag_follows_loop (id : String) (tr : List Action) :
    (Pool.ofWorker id).Procs.map (fun p => p.worker.IsAvailable) = [true] ∧
    ∃ (p : WorkerProc) (pc : LoopPc),
      ((Pool.ofWorker id).exec tr).Procs = [p] ∧ p.Loops = [pc] ∧
      ((Pool.ofWorker id).exec tr).executing = pc.executing ∧
      ((Pool.ofWorker id).exec tr).executing.length ≤ 1 ∧
      p.worker.IsAvailable = pc.flag ∧
      (((Pool.ofWorker id).exec tr).executing ≠ [] → p.worker.IsAvailable = false) ∧
      (p.worker.IsAvailable = true → ((Pool.ofWorker id).exec tr).executing = []) := by
  refine ⟨rfl, ?_⟩
  have hlen := Pool.exec_length tr (Pool.ofWorker id)
  have hsingle := Pool.exec_single tr (Pool.ofWorker id)
    (Pool.init_single _ (by intro w hw; simp at hw; subst hw; exact ⟨rfl, rfl⟩))
  have hone : (Pool.ofWorker id).Procs.length = 1 := rfl
  rw [hone] at hlen
  obtain ⟨p, hp⟩ := List.length_eq_one.1 hlen
  obtain ⟨pc, hl, hf⟩ := hsingle p (by rw [hp]; exact List.mem_singleton_self p)
  have hex : ((Pool.ofWorker id).exec tr).executing = pc.executing := by
    simp [Pool.executing, hp, hl]
  refine ⟨p, pc, hp, hl, hex, ?_, hf, ?_, ?_⟩
  · rw [hex]; cases pc <;> simp [LoopPc.executing]
  · rw [hex]
    intro hne
    show p.worker.IsFree = false
    rw [hf]
    cases pc <;> simp_all [LoopPc.executing, LoopPc.flag]
  · rw [hex]
    intro hfree
    have hfree2 : p.worker.IsFree = true := hfree
    rw [hf] at hfree2
    cases pc <;> simp_all [LoopPc.executing, LoopPc.flag]

/-- C14 as stated fails right after a job has returned: `w.IsFree = true` has not run
yet, so `IsAvailable()` is false although no job is executing. -/
theorem worker_flag_false_after_job_returned :
    ((Pool.ofWorker "1").exec
        [Action.workerAddJob 0 7, Action.loop 0 0, Action.loop 0 0, Action.loop 0 0,
         Action.loop 0 0]).Procs.map (fun p => (p.worker.IsAvailable, p.Loops))
      = [(false, [LoopPc.returned 7])] ∧
    ((Pool.ofWorker "1").exec
        [Action.workerAddJob 0 7, Action.loop 0 0, Action.loop 0 0, Action.loop 0 0,
         Action.loop 0 0]).executing = [] := by
  decide

/-- C15: for every pool size `N` and every execution of the pool of
`NewWorkerManager(N)`, whatever the `AddJob` calls and the interleaving of the
goroutines, the jobs executing in the state reached are at most `N`. -/
theorem executing_at_most_pool_size (n : Int) (hn : 0 ≤ n) (tr : List Action) :
    ((((Pool.init (NewWorkerManager n)).exec tr).executing.length : Nat) : Int) ≤ n := by
  have hsingle := Pool.exec_single tr (Pool.init (NewWorkerManager n))
    (Pool.init_single _ (newWorkerManager_started_once n))
  have hle := executing_le_of_single _ hsingle
  have hlen := Pool.exec_length tr (Pool.init (NewWorkerManager n))
  have hinit : (Pool.init (NewWorkerManager n)).Procs.length = n.toNat := by
    simp [Pool.init, newWorkerManager_workers_eq]
  have hcast : (n.toNat : Int) = n := Int.toNat_of_nonneg hn
  unfold Pool.executing
  omega

/-- Two workers and three jobs: two jobs are executing, the third one waits. -/
theorem executing_at_most_pool_size_witness :
    ((((Pool.init (NewWorkerManager 2)).exec
        [Action.addJob 1, Action.addJob 2, Action.addJob 3,
         Action.dispatch 0, Action.dispatch 0, Action.loop 0 0, Action.loop 0 0,
         Action.loop 0 0,
         Action.dispatch 1, Action.dispatch 1, Action.dispatch 1, Action.loop 1 0,
         Action.loop 1 0, Action.loop 1 0,
         Action.dispatch 2, Action.dispatch 2, Action.dispatch 2]).executing.length : Nat) : Int)
      ≤ 2 :=
  executing_at_most_pool_size 2 (by decide) _

/-- C19: when a job run by a worker of the pool of `NewWorkerManager(n)` panics, the
goroutine of the worker is gone with nothing recovered and the process is over: the
flag of the worker, false while the job ran, stays false, and whatever is submitted or
scheduled afterwards changes nothing, so the worker runs no other job. -/
theorem job_panic_stops_worker (n : Int) (tr tr2 : List Action) (k : Nat) (p : WorkerProc)
    (job : Job)
    (hp : ((Pool.init (NewWorkerManager n)).exec tr).Procs[k]? = some p)
    (hrun : p.Loops[0]? = some (LoopPc.running job))
    (hc : ((Pool.init (NewWorkerManager n)).exec tr).Crashed = false) :
    p.worker.IsAvailable = false ∧
    (((Pool.init (NewWorkerManager n)).exec tr).step (Action.panic k 0)).Procs[k]?
      = some { worker := p.worker, Loops := [LoopPc.panicked job] } ∧
    (((Pool.init (NewWorkerManager n)).exec tr).step (Action.panic k 0)).Crashed = true ∧
    (((Pool.init (NewWorkerManager n)).exec tr).step (Action.panic k 0)).Began
      = ((Pool.init (NewWorkerManager n)).exec tr).Began ∧
    (((Pool.init (NewWorkerManager n)).exec tr).step (Action.panic k 0)).exec tr2
      = ((Pool.init (NewWorkerManager n)).exec tr).step (Action.panic k 0) := by
  have hsingle := Pool.exec_single tr (Pool.init (NewWorkerManager n))
    (Pool.init_single _ (newWorkerManager_started_once n))
  obtain ⟨pc, hl, hf⟩ := hsingle p (List.getElem?_mem hp)
  rw [hl] at hrun
  simp at hrun
  subst hrun
  have hklt : k < ((Pool.init (NewWorkerManager n)).exec tr).Procs.length :=
    (List.getElem?_eq_some_iff.1 hp).1
  have hstep : ((Pool.init (NewWorkerManager n)).exec tr).step (Action.panic k 0) =
      { (Pool.init (NewWorkerManager n)).exec tr with
          Procs := ((Pool.init (NewWorkerManager n)).exec tr).Procs.set k
            { worker := p.worker, Loops := [LoopPc.panicked job] },
          Crashed := true } := by
    simp [Pool.step, hc, hp, hl]
  have hfrozen : ∀ (tr2 : List Action) (s : Pool), s.Crashed = true → s.exec tr2 = s := by
    intro tr2
    induction tr2 with
    | nil => intro s _; rfl
    | cons a rest ih =>
      intro s hs
      have hsa : s.step a = s := by simp [Pool.step, hs]
      rw [Pool.exec_cons, hsa]
      exact ih s hs
  rw [hstep]
  refine ⟨?_, ?_, rfl, rfl, hfrozen tr2 _ rfl⟩
  · show p.worker.IsFree = false
    rw [hf]; rfl
  · simp [List.getElem?_set, hklt]

/-- One worker, one job that panics while it runs. -/
theorem job_panic_stops_worker_witness :
    ({ worker := { ID := "0", JobQueue := [], IsFree := false, Starts := 1 },
       Loops := [LoopPc.running 7] } : WorkerProc).worker.IsAvailable = false ∧
    (((Pool.init (NewWorkerManager 1)).exec
        [Action.addJob 7, Action.dispatch 0, Action.dispatch 0, Action.loop 0 0,
         Action.loop 0 0, Action.loop 0 0]).step (Action.panic 0 0)).Procs[0]?
      = some { worker := { ID := "0", JobQueue := [], IsFree := false, Starts := 1 },
               Loops := [LoopPc.panicked 7] } ∧
    (((Pool.init (NewWorkerManager 1)).exec
        [Action.addJob 7, Action.dispatch 0, Action.dispatch 0, Action.loop 0 0,
         Action.loop 0 0, Action.loop 0 0]).step (Action.panic 0 0)).Crashed = true ∧
    (((Pool.init (NewWorkerManager 1)).exec
        [Action.addJob 7, Action.dispatch 0, Action.dispatch 0, Action.loop 0 0,
         Action.loop 0 0, Action.loop 0 0]).step (Action.panic 0 0)).Began
      = ((Pool.init (NewWorkerManager 1)).exec
        [Action.addJob 7, Action.dispatch 0, Action.dispatch 0, Action.loop 0 0,
         Action.loop 0 0, Action.loop 0 0]).Began ∧
    (((Pool.init (NewWorkerManager 1)).exec
        [Action.addJob 7, Action.dispatch 0, Action.dispatch 0, Action.loop 0 0,
         Action.loop 0 0, Action.loop 0 0]).step (Action.panic 0 0)).exec
        [Action.addJob 8, Action.dispatch 1, Action.loop 0 0]
      = ((Pool.init (NewWorkerManager 1)).exec
        [Action.addJob 7, Action.dispatch 0, Action.dispatch 0, Action.loop 0 0,
         Action.loop 0 0, Action.loop 0 0]).step (Action.panic 0 0) :=
  job_panic_stops_worker 1
    [Action.addJob 7, Action.dispatch 0, Action.dispatch 0, Action.loop 0 0,
     Action.loop 0 0, Action.loop 0 0]
    [Action.addJob 8, Action.dispatch 1, Action.loop 0 0] 0
    { worker := { ID := "0", JobQueue := [], IsFree := false, Starts := 1 },
      Loops := [LoopPc.running 7] } 7 (by decide) (by decide) (by decide)

/-! ## Dispatching a job -/

/-- C17, as amended: `WorkerManager.AddJob` does not wait for a worker. In every state
of the pool the call starts a goroutine and returns: the workers and their channels
are as before and the job is held by the new goroutine, pending outside every worker.
That goroutine, as long as the flag it reads is false (or the list is at its end), goes
on scanning and sends nothing; it sends the job only to a worker whose flag it has
read as true. -/
theorem addJob_returns_at_once (s : Pool) (job : Job) (d i : Nat) (disp : Dispatcher)
    (hc : s.Crashed = false)
    (hd : s.Dispatchers[d]? = some disp) (hpc : disp.pc = DispatchPc.scan i)
    (hbusy : ∀ p : WorkerProc, s.Procs[i]? = some p → p.worker.IsAvailable = false) :
    s.step (Action.addJob job) = s.AddJob job ∧
    (s.AddJob job).Procs = s.Procs ∧
    (s.AddJob job).Dispatchers = s.Dispatchers ++ [{ job := job, pc := DispatchPc.scan 0 }] ∧
    (s.AddJob job).Began = s.Began ∧
    (s.AddJob job).pending = s.Dispatchers.flatMap Dispatcher.holding ++ [job]
      ++ s.Procs.flatMap WorkerProc.holding ∧
    (s.step (Action.dispatch d)).Procs = s.Procs ∧
    (∃ i2 : Nat, (s.step (Action.dispatch d)).Dispatchers[d]?
      = some { job := disp.job, pc := DispatchPc.scan i2 }) ∧
    (∀ (s2 : Pool) (d2 : Nat), (s2.step (Action.dispatch d2)).Procs ≠ s2.Procs →
      ∃ (disp2 : Dispatcher) (k : Nat), s2.Dispatchers[d2]? = some disp2 ∧
        disp2.pc = DispatchPc.enter k) ∧
    (∀ (s2 : Pool) (d2 k : Nat) (disp2 : Dispatcher), s2.Dispatchers[d2]? = some disp2 →
      (s2.step (Action.dispatch d2)).Dispatchers[d2]?
        = some { job := disp2.job, pc := DispatchPc.enter k } →
      disp2.pc = DispatchPc.enter k ∨
      (disp2.pc = DispatchPc.scan k ∧ ∃ p, s2.Procs[k]? = some p ∧
        p.worker.IsAvailable = true)) := by
  have hlen : d < s.Dispatchers.length := (List.getElem?_eq_some_iff.1 hd).1
  refine ⟨by simp [Pool.step, hc], rfl, rfl, rfl, ?_, ?_, ?_, ?_, ?_⟩
  · simp [Pool.pending, Pool.AddJob, Dispatcher.holding, List.flatMap_append]
  · cases hp : s.Procs[i]? with
    | none => simp [Pool.step, hc, Pool.dispatchStep, hd, hpc, hp]
    | some p => simp [Pool.step, hc, Pool.dispatchStep, hd, hpc, hp, hbusy p hp]
  · cases hp : s.Procs[i]? with
    | none =>
      exact ⟨0, by simp [Pool.step, hc, Pool.dispatchStep, hd, hpc, hp, List.getElem?_set, hlen]⟩
    | some p =>
      exact ⟨i + 1, by
        simp [Pool.step, hc, Pool.dispatchStep, hd, hpc, hp, hbusy p hp, List.getElem?_set,
          hlen]⟩
  · intro s2 d2 hne
    unfold Pool.step at hne
    split at hne
    · exact absurd rfl hne
    · simp only [Pool.dispatchStep] at hne
      split at hne
      · exact absurd rfl hne
      · next disp2 hd2 =>
        split at hne
        · split at hne
          · exact absurd rfl hne
          · split at hne <;> exact absurd rfl hne
        · next k hk => exact ⟨disp2, k, hd2, hk⟩
        · exact absurd rfl hne
  · intro s2 d2 k disp2 hd2 hres
    have hlen2 : d2 < s2.Dispatchers.length := (List.getElem?_eq_some_iff.1 hd2).1
    unfold Pool.step at hres
    split at hres
    · rw [hd2] at hres
      left
      have := Option.some.inj hres
      rw [this]
    · simp only [Pool.dispatchStep, hd2] at hres
      split at hres
      · next i2 hi2 =>
        split at hres
        · simp [List.getElem?_set, hlen2] at hres
        · next p hp =>
          split at hres
          · next hfree =>
            simp [List.getElem?_set, hlen2] at hres
            right
            subst hres
            exact ⟨hi2, p, hp, hfree⟩
          · simp [List.getElem?_set, hlen2] at hres
      · next k2 hk2 =>
        split at hres
        · rw [hd2] at hres
          left
          have := Option.some.inj hres
          rw [this]
        · simp [List.getElem?_set, hlen2] at hres
      · next k2 hk2 =>
        rw [hd2] at hres
        left
        have := Option.some.inj hres
        rw [this]

/-- Worker 0 is busy when dispatcher 0 reads its flag; a second job is submitted. -/
theorem addJob_returns_at_once_witness :
    busyFirstPool.step (Action.addJob 8) = busyFirstPool.AddJob 8 ∧
    (busyFirstPool.AddJob 8).Procs = busyFirstPool.Procs ∧
    (busyFirstPool.AddJob 8).Dispatchers
      = busyFirstPool.Dispatchers ++ [{ job := 8, pc := DispatchPc.scan 0 }] ∧
    (busyFirstPool.AddJob 8).Began = busyFirstPool.Began ∧
    (busyFirstPool.AddJob 8).pending
      = busyFirstPool.Dispatchers.flatMap Dispatcher.holding ++ [8]
        ++ busyFirstPool.Procs.flatMap WorkerProc.holding ∧
    (busyFirstPool.step (Action.dispatch 0)).Procs = busyFirstPool.Procs ∧
    (∃ i2 : Nat, (busyFirstPool.step (Action.dispatch 0)).Dispatchers[0]?
      = some { job := ({ job := 7, pc := DispatchPc.scan 0 } : Dispatcher).job,
               pc := DispatchPc.scan i2 }) ∧
    (∀ (s2 : Pool) (d2 : Nat), (s2.step (Action.dispatch d2)).Procs ≠ s2.Procs →
      ∃ (disp2 : Dispatcher) (k : Nat), s2.Dispatchers[d2]? = some disp2 ∧
        disp2.pc = DispatchPc.enter k) ∧
    (∀ (s2 : Pool) (d2 k : Nat) (disp2 : Dispatcher), s2.Dispatchers[d2]? = some disp2 →
      (s2.step (Action.dispatch d2)).Dispatchers[d2]?
        = some { job := disp2.job, pc := DispatchPc.enter k } →
      disp2.pc = DispatchPc.enter k ∨
      (disp2.pc = DispatchPc.scan k ∧ ∃ p, s2.Procs[k]? = some p ∧
        p.worker.IsAvailable = true)) :=
  addJob_returns_at_once busyFirstPool 8 0 0 { job := 7, pc := DispatchPc.scan 0 } rfl rfl rfl
    (by intro p hp; simp [busyFirstPool] at hp; rw [← hp]; rfl)

/-- C17 as stated fails when the only worker is busy, and when there is no worker:
`AddJob(7)` has returned, and the job is with the goroutine it started, in no worker's
channel. -/
theorem addJob_returns_while_workers_busy :
    (((Pool.init (NewWorkerManager 1)).exec
        [Action.addJob 3, Action.dispatch 0, Action.dispatch 0, Action.loop 0 0,
         Action.loop 0 0, Action.loop 0 0]).Procs.map
        (fun p => (p.worker.IsAvailable, p.worker.JobQueue, p.Loops)))
      = [(false, [], [LoopPc.running 3])] ∧
    ((((Pool.init (NewWorkerManager 1)).exec
        [Action.addJob 3, Action.dispatch 0, Action.dispatch 0, Action.loop 0 0,
         Action.loop 0 0, Action.loop 0 0]).AddJob 7).Procs.map
        (fun p => (p.worker.IsAvailable, p.worker.JobQueue, p.Loops)))
      = [(false, [], [LoopPc.running 3])] ∧
    (((Pool.init (NewWorkerManager 1)).exec
        [Action.addJob 3, Action.dispatch 0, Action.dispatch 0, Action.loop 0 0,
         Action.loop 0 0, Action.loop 0 0]).AddJob 7).Dispatchers
      = [{ job := 3, pc := DispatchPc.send 0 }, { job := 7, pc := DispatchPc.scan 0 }] ∧
    ((Pool.init (NewWorkerManager 0)).AddJob 7).Procs = [] ∧
    ((Pool.init (NewWorkerManager 0)).AddJob 7).pending = [7] := by
  decide

/-! ## Every job is accounted for -/

/-- Replacing one element of a list changes the count of `j` in the flattened images by
what the two images differ in. -/
theorem count_flatMap_set {α : Type} (f : α → List Job) (j : Job) (l : List α) :
    ∀ (k : Nat) (x y : α), l[k]? = some y →
      List.count j ((l.set k x).flatMap f) + List.count j (f y)
        = List.count j (l.flatMap f) + List.count j (f x) := by
  induction l with
  | nil => intro k x y h; simp at h
  | cons z rest ih =>
    intro k x y h
    cases k with
    | zero =>
      simp at h
      subst h
      simp [List.count_append]
      omega
    | succ k =>
      simp at h
      have := ih k x y h
      simp [List.count_append]
      omega

theorem WorkerProc.count_holding_addJob (p : WorkerProc) (job j : Job) :
    List.count j (p.AddJob job).holding = List.count j p.holding + List.count j [job] := by
  simp only [WorkerProc.holding, WorkerProc.AddJob, List.count_append]
  omega

/-- A statement of the loop moves a job from the channel to the goroutine, or from the
goroutine to the jobs called, or moves none. -/
theorem WorkerProc.count_holding_loopStep (p : WorkerProc) (n : Nat) (j : Job) :
    List.count j (p.loopStep n).1.holding + List.count j (p.loopStep n).2
      = List.count j p.holding := by
  unfold WorkerProc.loopStep
  split
  · simp
  · next hn =>
    split
    · simp
    · next job rest hq =>
      have := count_flatMap_set LoopPc.holding j p.Loops n (LoopPc.received job) _ hn
      simp [WorkerProc.holding, hq, List.count_append, LoopPc.holding, List.count_cons] at this ⊢
      omega
  · next job hn =>
    have := count_flatMap_set LoopPc.holding j p.Loops n (LoopPc.marked job) _ hn
    simp [WorkerProc.holding, List.count_append, LoopPc.holding] at this ⊢
    omega
  · next job hn =>
    have := count_flatMap_set LoopPc.holding j p.Loops n (LoopPc.running job) _ hn
    simp [WorkerProc.holding, List.count_append, LoopPc.holding, List.count_cons] at this ⊢
    omega
  · next job hn =>
    have := count_flatMap_set LoopPc.holding j p.Loops n (LoopPc.returned job) _ hn
    simp [WorkerProc.holding, List.count_append, LoopPc.holding] at this ⊢
    omega
  · next job hn =>
    have := count_flatMap_set LoopPc.holding j p.Loops n LoopPc.waiting _ hn
    simp [WorkerProc.holding, List.count_append, LoopPc.holding] at this ⊢
    omega
  · simp

theorem WorkerProc.count_holding_panic (p : WorkerProc) (n : Nat) (job j : Job)
    (hrun : p.Loops[n]? = some (LoopPc.running job)) :
    List.count j ({ p with Loops := p.Loops.set n (LoopPc.panicked job) } : WorkerProc).holding
      = List.count j p.holding := by
  have := count_flatMap_set LoopPc.holding j p.Loops n (LoopPc.panicked job) _ hrun
  simp [WorkerProc.holding, List.count_append, LoopPc.holding] at this ⊢
  omega

/-- Every action keeps the account of the jobs: those pending and those called make up
those submitted. -/
theorem Pool.step_conserved (s : Pool) (a : Action) (j : Job)
    (h : List.count j s.pending + List.count j s.Began = List.count j s.Submitted) :
    List.count j (s.step a).pending + List.count j (s.step a).Began
      = List.count j (s.step a).Submitted := by
  unfold Pool.step
  split
  · exact h
  · simp only [Pool.pending, List.count_append] at h
    cases a with
    | addJob job =>
      simp only [Pool.AddJob, Pool.pending, List.count_append, List.flatMap_append,
        List.flatMap_cons, List.flatMap_nil, Dispatcher.holding, List.append_nil]
      omega
    | workerAddJob k job =>
      simp only
      split
      · simp only [Pool.pending, List.count_append]; exact h
      · next p hp =>
        have h1 := count_flatMap_set WorkerProc.holding j s.Procs k (p.AddJob job) p hp
        have h2 := WorkerProc.count_holding_addJob p job j
        simp only [Pool.pending, List.count_append]
        omega
    | dispatch d =>
      simp only [Pool.dispatchStep]
      split
      · simp only [Pool.pending, List.count_append]; exact h
      · next disp hd =>
        split
        · next i hi =>
          have hold : disp.holding = [disp.job] := by simp [Dispatcher.holding, hi]
          split
          · have h1 := count_flatMap_set Dispatcher.holding j s.Dispatchers d
              { disp with pc := DispatchPc.scan 0 } disp hd
            have h2 : ({ disp with pc := DispatchPc.scan 0 } : Dispatcher).holding
                = [disp.job] := rfl
            rw [h2, hold] at h1
            simp only [Pool.pending, List.count_append]
            omega
          · split
            · have h1 := count_flatMap_set Dispatcher.holding j s.Dispatchers d
                { disp with pc := DispatchPc.enter i } disp hd
              have h2 : ({ disp with pc := DispatchPc.enter i } : Dispatcher).holding
                  = [disp.job] := rfl
              rw [h2, hold] at h1
              simp only [Pool.pending, List.count_append]
              omega
            · have h1 := count_flatMap_set Dispatcher.holding j s.Dispatchers d
                { disp with pc := DispatchPc.scan (i + 1) } disp hd
              have h2 : ({ disp with pc := DispatchPc.scan (i + 1) } : Dispatcher).holding
                  = [disp.job] := rfl
              rw [h2, hold] at h1
              simp only [Pool.pending, List.count_append]
              omega
        · next k hk =>
          have hold : disp.holding = [disp.job] := by simp [Dispatcher.holding, hk]
          split
          · simp only [Pool.pending, List.count_append]; exact h
          · next p hp =>
            have h1 := count_flatMap_set Dispatcher.holding j s.Dispatchers d
              { disp with pc := DispatchPc.send k } disp hd
            have h2 : ({ disp with pc := DispatchPc.send k } : Dispatcher).holding = [] := rfl
            have h3 := count_flatMap_set WorkerProc.holding j s.Procs k (p.AddJob disp.job) p hp
            have h4 := WorkerProc.count_holding_addJob p disp.job j
            rw [h2, hold] at h1
            simp only [Pool.pending, List.count_append]
            simp only [List.count_nil] at h1
            omega
        · simp only [Pool.pending, List.count_append]; exact h
    | loop k n =>
      simp only
      split
      · simp only [Pool.pending, List.count_append]; exact h
      · next p hp =>
        have h1 := count_flatMap_set WorkerProc.holding j s.Procs k (p.loopStep n).1 p hp
        have h2 := WorkerProc.count_holding_loopStep p n j
        simp only [Pool.pending, List.count_append]
        omega
    | panic k n =>
      simp only
      split
      · simp only [Pool.pending, List.count_append]; exact h
      · next p hp =>
        split
        · next job hrun =>
          have h1 := count_flatMap_set WorkerProc.holding j s.Procs k
            { p with Loops := p.Loops.set n (LoopPc.panicked job) } p hp
          have h2 := WorkerProc.count_holding_panic p n job j hrun
          simp only [Pool.pending, List.count_append]
          omega
        · simp only [Pool.pending, List.count_append]; exact h

theorem Pool.exec_conserved (tr : List Action) (j : Job) :
    ∀ s : Pool, List.count j s.pending + List.count j s.Began = List.count j s.Submitted →
      List.count j (s.exec tr).pending + List.count j (s.exec tr).Began
        = List.count j (s.exec tr).Submitted := by
  induction tr with
  | nil => intro s h; exact h
  | cons a tr ih =>
    intro s h
    rw [Pool.exec_cons]
    exact ih _ (Pool.step_conserved s a j h)

/-- Nothing is pending in the pool of a manager whose workers have empty channels. -/
theorem Pool.init_pending (wm : WorkerManager) (h : ∀ w ∈ wm.Workers, w.JobQueue = []) :
    (Pool.init wm).pending = [] := by
  have hall : ∀ p ∈ (Pool.init wm).Procs, p.holding = [] := by
    intro p hp
    simp only [Pool.init, List.mem_map] at hp
    obtain ⟨w, hw, rfl⟩ := hp
    have hloops : ∀ m : Nat, (List.replicate m LoopPc.waiting).flatMap LoopPc.holding = [] := by
      intro m
      induction m with
      | zero => rfl
      | succ m ihm => simp [List.replicate_succ, LoopPc.holding, ihm]
    simp [WorkerProc.holding, h w hw, hloops]
  have hflat : ∀ l : List WorkerProc, (∀ p ∈ l, p.holding = []) →
      l.flatMap WorkerProc.holding = [] := by
    intro l
    induction l with
    | nil => intro _; rfl
    | cons p rest ih =>
      intro hl
      simp [hl p (List.mem_cons_self _ _), ih (fun q hq => hl q (List.mem_cons_of_mem _ hq))]
  have hd : (Pool.init wm).Dispatchers = [] := rfl
  simp [Pool.pending, hd, hflat _ hall]

/-! ## Every job can be brought to run -/

theorem WorkerProc.noPanic_loopStep (p : WorkerProc) (n : Nat) (h : p.NoPanic) :
    (p.loopStep n).1.NoPanic := by
  have hset : ∀ pc : LoopPc, (∀ job, pc ≠ LoopPc.panicked job) →
      ∀ job, LoopPc.panicked job ∉ p.Loops.set n pc := by
    intro pc hpc job hmem
    rcases List.mem_or_eq_of_mem_set hmem with hm | he
    · exact h job hm
    · exact hpc job he.symm
  unfold WorkerProc.loopStep
  split
  · exact h
  · split
    · exact h
    · exact hset _ (by intro job; simp)
  · exact hset _ (by intro job; simp)
  · exact hset _ (by intro job; simp)
  · exact hset _ (by intro job; simp)
  · exact hset _ (by intro job; simp)
  · exact h

/-- While the process has not crashed no goroutine has been lost to a panic. -/
theorem Pool.step_noPanic (s : Pool) (a : Action)
    (h : s.Crashed = false → ∀ p ∈ s.Procs, p.NoPanic) :
    (s.step a).Crashed = false → ∀ p ∈ (s.step a).Procs, p.NoPanic := by
  unfold Pool.step
  split
  · exact h
  · next hc =>
    have hc2 : s.Crashed = false := by simpa using hc
    have hall := h hc2
    cases a with
    | addJob job => intro _; exact hall
    | workerAddJob k job =>
      simp only
      split
      · intro _; exact hall
      · next p hp =>
        intro _
        exact forall_mem_set _ _ _ _ hall (hall p (List.getElem?_mem hp))
    | dispatch d =>
      simp only [Pool.dispatchStep]
      split
      · intro _; exact hall
      · split
        · split
          · intro _; exact hall
          · split <;> (intro _; exact hall)
        · split
          · intro _; exact hall
          · next p hp =>
            intro _
            exact forall_mem_set _ _ _ _ hall (hall p (List.getElem?_mem hp))
        · intro _; exact hall
    | loop k n =>
      simp only
      split
      · intro _; exact hall
      · next p hp =>
        intro _
        exact forall_mem_set _ _ _ _ hall
          (WorkerProc.noPanic_loopStep p n (hall p (List.getElem?_mem hp)))
    | panic k n =>
      simp only
      split
      · intro _; exact hall
      · split
        · intro hcr; simp at hcr
        · intro _; exact hall

theorem Pool.exec_noPanic (tr : List Action) :
    ∀ s : Pool, (s.Crashed = false → ∀ p ∈ s.Procs, p.NoPanic) →
      (s.exec tr).Crashed = false → ∀ p ∈ (s.exec tr).Procs, p.NoPanic := by
  induction tr with
  | nil => intro s h; exact h
  | cons a tr ih =>
    intro s h
    rw [Pool.exec_cons]
    exact ih _ (Pool.step_noPanic s a h)

theorem Pool.step_length (s : Pool) (a : Action) :
    (s.step a).Procs.length = s.Procs.length := by
  have := congrArg List.length (Pool.step_ids s a)
  simpa using this

/-- A dispatching goroutine that has chosen a worker has chosen one of the list. -/
theorem Pool.step_enterValid (s : Pool) (a : Action)
    (h : ∀ disp ∈ s.Dispatchers, ∀ k, disp.pc = DispatchPc.enter k → k < s.Procs.length) :
    ∀ disp ∈ (s.step a).Dispatchers, ∀ k, disp.pc = DispatchPc.enter k →
      k < (s.step a).Procs.length := by
  rw [Pool.step_length]
  unfold Pool.step
  split
  · exact h
  · cases a with
    | addJob job =>
      intro disp hd k hk
      simp only [Pool.AddJob, List.mem_append, List.mem_singleton] at hd
      rcases hd with hd | hd
      · exact h disp hd k hk
      · rw [hd] at hk; simp at hk
    | workerAddJob k job =>
      simp only
      split <;> exact h
    | dispatch d =>
      simp only [Pool.dispatchStep]
      split
      · exact h
      · next disp0 hd0 =>
        split
        · next i hi =>
          split
          · exact forall_mem_set _ _ _ _ h (by intro k hk; simp at hk)
          · next p hp =>
            split
            · refine forall_mem_set _ _ _ _ h ?_
              intro k hk
              simp at hk
              rw [← hk]
              exact (List.getElem?_eq_some_iff.1 hp).1
            · exact forall_mem_set _ _ _ _ h (by intro k hk; simp at hk)
        · split
          · exact h
          · exact forall_mem_set _ _ _ _ h (by intro k hk; simp at hk)
        · exact h
    | loop k n =>
      simp only
      split <;> exact h
    | panic k n =>
      simp only
      split
      · exact h
      · split <;> exact h

theorem Pool.exec_enterValid (tr : List Action) :
    ∀ s : Pool,
      (∀ disp ∈ s.Dispatchers, ∀ k, disp.pc = DispatchPc.enter k → k < s.Procs.length) →
      ∀ disp ∈ (s.exec tr).Dispatchers, ∀ k, disp.pc = DispatchPc.enter k →
        k < (s.exec tr).Procs.length := by
  induction tr with
  | nil => intro s h; exact h
  | cons a tr ih =>
    intro s h
    rw [Pool.exec_cons]
    exact ih _ (Pool.step_enterValid s a h)

/-- A statement of the loop brings the worker nearer to being idle, and a worker with
nothing left to do is idle. -/
theorem WorkerProc.work_loopStep (p : WorkerProc) (h : p.Single) (hnp : p.NoPanic) :
    (p.loopStep 0).1.work ≤ p.work - 1 ∧ (p.work = 0 → p.Quiet) := by
  obtain ⟨pc, hl, hf⟩ := h
  cases pc with
  | waiting =>
    cases hq : p.worker.JobQueue with
    | nil =>
      refine ⟨by simp [WorkerProc.loopStep, hl, hq, WorkerProc.work, LoopPc.rank], ?_⟩
      intro _
      exact ⟨hl, hq, by simpa [LoopPc.flag] using hf⟩
    | cons job rest =>
      refine ⟨?_, ?_⟩
      · simp [WorkerProc.loopStep, hl, hq, WorkerProc.work, LoopPc.rank]
        omega
      · intro h0
        simp [WorkerProc.work, hl, hq, LoopPc.rank] at h0
  | received job =>
    refine ⟨by simp [WorkerProc.loopStep, hl, WorkerProc.work, LoopPc.rank], ?_⟩
    intro h0
    simp [WorkerProc.work, hl, LoopPc.rank] at h0
  | marked job =>
    refine ⟨by simp [WorkerProc.loopStep, hl, WorkerProc.work, LoopPc.rank], ?_⟩
    intro h0
    simp [WorkerProc.work, hl, LoopPc.rank] at h0
  | running job =>
    refine ⟨by simp [WorkerProc.loopStep, hl, WorkerProc.work, LoopPc.rank], ?_⟩
    intro h0
    simp [WorkerProc.work, hl, LoopPc.rank] at h0
  | returned job =>
    refine ⟨by simp [WorkerProc.loopStep, hl, WorkerProc.work, LoopPc.rank], ?_⟩
    intro h0
    simp [WorkerProc.work, hl, LoopPc.rank] at h0
  | panicked job =>
    exact absurd (by rw [hl]; exact List.mem_singleton_self _) (hnp job)

/-- Letting the goroutine of worker `k` run long enough leaves that worker idle and
touches nothing else but the list of jobs called. -/
theorem drain_worker (m : Nat) :
    ∀ (s : Pool) (k : Nat) (p : WorkerProc), s.Crashed = false → s.Procs[k]? = some p →
      p.Single → p.NoPanic → p.work ≤ m →
      ∃ q : WorkerProc, q.Quiet ∧
        (s.exec (List.replicate m (Action.loop k 0))).Procs = s.Procs.set k q ∧
        (s.exec (List.replicate m (Action.loop k 0))).Dispatchers = s.Dispatchers ∧
        (s.exec (List.replicate m (Action.loop k 0))).Submitted = s.Submitted ∧
        (s.exec (List.replicate m (Action.loop k 0))).Crashed = false := by
  induction m with
  | zero =>
    intro s k p hc hp hs hnp hw
    exact ⟨p, (WorkerProc.work_loopStep p hs hnp).2 (by omega),
      (list_set_self _ _ _ hp).symm, rfl, rfl, hc⟩
  | succ m ih =>
    intro s k p hc hp hs hnp hw
    have hklt : k < s.Procs.length := (List.getElem?_eq_some_iff.1 hp).1
    have hstep : s.step (Action.loop k 0) =
        { s with Procs := s.Procs.set k (p.loopStep 0).1,
                 Began := s.Began ++ (p.loopStep 0).2 } := by
      simp [Pool.step, hc, hp]
    have hp1 : (s.step (Action.loop k 0)).Procs[k]? = some (p.loopStep 0).1 := by
      rw [hstep]
      simp [List.getElem?_set, hklt]
    have hc1 : (s.step (Action.loop k 0)).Crashed = false := by rw [hstep]; exact hc
    obtain ⟨q, hq, h1, h2, h3, h4⟩ := ih (s.step (Action.loop k 0)) k (p.loopStep 0).1 hc1 hp1
      (WorkerProc.single_loopStep p 0 hs) (WorkerProc.noPanic_loopStep p 0 hnp)
      (by have := (WorkerProc.work_loopStep p hs hnp).1; omega)
    rw [Pool.exec_replicate_succ]
    refine ⟨q, hq, ?_, ?_, ?_, h4⟩
    · rw [h1, hstep]; simp [List.set_set]
    · rw [h2, hstep]
    · rw [h3, hstep]

/-- Letting the goroutines of the workers run, one worker after the other, leaves
every worker idle. -/
theorem drain_workers_upto (s : Pool) (hc : s.Crashed = false)
    (hs : ∀ p ∈ s.Procs, p.Single) (hnp : ∀ p ∈ s.Procs, p.NoPanic) (m : Nat) :
    m ≤ s.Procs.length →
    ∃ tr : List Action,
      (∀ (k : Nat) (p : WorkerProc), k < m → (s.exec tr).Procs[k]? = some p → p.Quiet) ∧
      (∀ k : Nat, m ≤ k → (s.exec tr).Procs[k]? = s.Procs[k]?) ∧
      (s.exec tr).Dispatchers = s.Dispatchers ∧
      (s.exec tr).Submitted = s.Submitted ∧
      (s.exec tr).Crashed = false ∧
      (s.exec tr).Procs.length = s.Procs.length := by
  induction m with
  | zero =>
    intro _
    exact ⟨[], by intro k p hk; omega, by intro k _; rfl, rfl, rfl, hc, rfl⟩
  | succ m ih =>
    intro hm
    obtain ⟨tr, hquiet, hrest, hd, hsub, hcr, hlen⟩ := ih (by omega)
    have hpm : s.Procs[m]? = some (s.Procs[m]) := List.getElem?_eq_getElem (by omega)
    have hpm' : (s.exec tr).Procs[m]? = some (s.Procs[m]) := by rw [hrest m (le_refl _), hpm]
    have hmem := List.getElem?_mem hpm
    obtain ⟨q, hq, h1, h2, h3, h4⟩ := drain_worker (s.Procs[m]).work (s.exec tr) m (s.Procs[m])
      hcr hpm' (hs _ hmem) (hnp _ hmem) (le_refl _)
    refine ⟨tr ++ List.replicate (s.Procs[m]).work (Action.loop m 0), ?_, ?_, ?_, ?_, ?_, ?_⟩
    · intro k p hk hp
      rw [Pool.exec_append, h1] at hp
      by_cases hkm : k = m
      · subst hkm
        rw [List.getElem?_set_eq_of_lt _ (by omega)] at hp
        rw [← Option.some.inj hp]
        exact hq
      · rw [List.getElem?_set_ne (fun h => hkm h.symm)] at hp
        exact hquiet k p (by omega) hp
    · intro k hk
      rw [Pool.exec_append, h1, List.getElem?_set_ne (by omega)]
      exact hrest k (by omega)
    · rw [Pool.exec_append, h2, hd]
    · rw [Pool.exec_append, h3, hsub]
    · rw [Pool.exec_append]; exact h4
    · rw [Pool.exec_append, h1, List.length_set, hlen]

theorem drain_workers (s : Pool) (hc : s.Crashed = false)
    (hs : ∀ p ∈ s.Procs, p.Single) (hnp : ∀ p ∈ s.Procs, p.NoPanic) :
    ∃ tr : List Action,
      (∀ p ∈ (s.exec tr).Procs, p.Quiet) ∧
      (s.exec tr).Dispatchers = s.Dispatchers ∧
      (s.exec tr).Submitted = s.Submitted ∧
      (s.exec tr).Crashed = false ∧
      (s.exec tr).Procs.length = s.Procs.length := by
  obtain ⟨tr, hquiet, _, hd, hsub, hcr, hlen⟩ :=
    drain_workers_upto s hc hs hnp s.Procs.length (le_refl _)
  refine ⟨tr, ?_, hd, hsub, hcr, hlen⟩
  intro p hp
  obtain ⟨k, hk⟩ := List.mem_iff_getElem?.1 hp
  have hklt := (List.getElem?_eq_some_iff.1 hk).1
  exact hquiet k p (by omega) hk

theorem WorkerProc.quiet_single (p : WorkerProc) (h : p.Quiet) : p.Single :=
  ⟨LoopPc.waiting, h.1, by rw [h.2.2]; rfl⟩

/-- With every worker idle, a dispatching goroutine that has chosen worker `k` sends
its job, and the worker runs it and is idle again. -/
theorem dispatch_entered (s : Pool) (d k : Nat) (disp : Dispatcher) (p : WorkerProc)
    (hc : s.Crashed = false) (hquiet : ∀ p ∈ s.Procs, p.Quiet)
    (hd : s.Dispatchers[d]? = some disp) (hpc : disp.pc = DispatchPc.enter k)
    (hp : s.Procs[k]? = some p) :
    ∃ tr : List Action,
      (∀ p ∈ (s.exec tr).Procs, p.Quiet) ∧
      (s.exec tr).Dispatchers = s.Dispatchers.set d { disp with pc := DispatchPc.send k } ∧
      (s.exec tr).Submitted = s.Submitted ∧
      (s.exec tr).Crashed = false ∧
      (s.exec tr).Procs.length = s.Procs.length := by
  have hklt : k < s.Procs.length := (List.getElem?_eq_some_iff.1 hp).1
  have hpq := hquiet p (List.getElem?_mem hp)
  have hstep : s.step (Action.dispatch d) =
      { s with Procs := s.Procs.set k (p.AddJob disp.job),
               Dispatchers := s.Dispatchers.set d { disp with pc := DispatchPc.send k } } := by
    simp [Pool.step, hc, Pool.dispatchStep, hd, hpc, hp]
  have hp1 : (s.step (Action.dispatch d)).Procs[k]? = some (p.AddJob disp.job) := by
    rw [hstep]; simp [List.getElem?_set, hklt]
  have hnp1 : (p.AddJob disp.job).NoPanic := by
    intro job hmem
    have hl : (p.AddJob disp.job).Loops = [LoopPc.waiting] := hpq.1
    rw [hl] at hmem
    simp at hmem
  have hwork : (p.AddJob disp.job).work ≤ 5 := by
    simp [WorkerProc.work, WorkerProc.AddJob, hpq.1, hpq.2.1, LoopPc.rank]
  obtain ⟨q, hq, h1, h2, h3, h4⟩ := drain_worker 5 (s.step (Action.dispatch d)) k
    (p.AddJob disp.job) (by rw [hstep]; exact hc) hp1
    (WorkerProc.single_addJob p disp.job (WorkerProc.quiet_single p hpq)) hnp1 hwork
  refine ⟨Action.dispatch d :: List.replicate 5 (Action.loop k 0), ?_, ?_, ?_, ?_, ?_⟩
  · rw [Pool.exec_cons, h1, hstep]
    simp only [List.set_set]
    exact forall_mem_set _ _ _ _ hquiet hq
  · rw [Pool.exec_cons, h2, hstep]
  · rw [Pool.exec_cons, h3, hstep]
  · rw [Pool.exec_cons]; exact h4
  · rw [Pool.exec_cons, h1, hstep]
    simp [List.length_set]

/-- With every worker idle, a dispatching goroutine scanning at a worker of the list
chooses it and sends its job. -/
theorem dispatch_scanning (s : Pool) (d i : Nat) (disp : Dispatcher)
    (hc : s.Crashed = false) (hquiet : ∀ p ∈ s.Procs, p.Quiet)
    (hd : s.Dispatchers[d]? = some disp) (hpc : disp.pc = DispatchPc.scan i)
    (hi : i < s.Procs.length) :
    ∃ tr : List Action,
      (∀ p ∈ (s.exec tr).Procs, p.Quiet) ∧
      (s.exec tr).Dispatchers = s.Dispatchers.set d { disp with pc := DispatchPc.send i } ∧
      (s.exec tr).Submitted = s.Submitted ∧
      (s.exec tr).Crashed = false ∧
      (s.exec tr).Procs.length = s.Procs.length := by
  have hdlt : d < s.Dispatchers.length := (List.getElem?_eq_some_iff.1 hd).1
  have hp : s.Procs[i]? = some (s.Procs[i]) := List.getElem?_eq_getElem hi
  have hfree : (s.Procs[i]).worker.IsAvailable = true :=
    (hquiet _ (List.getElem?_mem hp)).2.2
  have hstep : s.step (Action.dispatch d) =
      { s with Dispatchers := s.Dispatchers.set d { disp with pc := DispatchPc.enter i } } := by
    simp [Pool.step, hc, Pool.dispatchStep, hd, hpc, hp, hfree]
  obtain ⟨tr, h1, h2, h3, h4, h5⟩ := dispatch_entered (s.step (Action.dispatch d)) d i
    { disp with pc := DispatchPc.enter i } (s.Procs[i]) (by rw [hstep]; exact hc)
    (by rw [hstep]; exact hquiet) (by rw [hstep]; simp [List.getElem?_set, hdlt]) rfl
    (by rw [hstep]; exact hp)
  refine ⟨Action.dispatch d :: tr, ?_, ?_, ?_, ?_, ?_⟩
  · rw [Pool.exec_cons]; exact h1
  · rw [Pool.exec_cons, h2, hstep]; simp [List.set_set]
  · rw [Pool.exec_cons, h3, hstep]
  · rw [Pool.exec_cons]; exact h4
  · rw [Pool.exec_cons, h5, hstep]

/-- With every worker idle and at least one worker, any dispatching goroutine can be
brought to send its job to a worker, which runs it and is idle again. -/
theorem dispatch_one (s : Pool) (d : Nat) (disp : Dispatcher)
    (hc : s.Crashed = false) (hquiet : ∀ p ∈ s.Procs, p.Quiet) (hpos : 0 < s.Procs.length)
    (hd : s.Dispatchers[d]? = some disp)
    (hvalid : ∀ k, disp.pc = DispatchPc.enter k → k < s.Procs.length) :
    ∃ (tr : List Action) (k : Nat),
      (∀ p ∈ (s.exec tr).Procs, p.Quiet) ∧
      (s.exec tr).Dispatchers = s.Dispatchers.set d { disp with pc := DispatchPc.send k } ∧
      (s.exec tr).Submitted = s.Submitted ∧
      (s.exec tr).Crashed = false ∧
      (s.exec tr).Procs.length = s.Procs.length := by
  have hdlt : d < s.Dispatchers.length := (List.getElem?_eq_some_iff.1 hd).1
  cases hpc : disp.pc with
  | send k =>
    refine ⟨[], k, hquiet, ?_, rfl, hc, rfl⟩
    have hself : ({ disp with pc := DispatchPc.send k } : Dispatcher) = disp := by
      cases disp; simp_all
    rw [hself]
    exact (list_set_self _ _ _ hd).symm
  | enter k =>
    have hk := hvalid k hpc
    obtain ⟨tr, h⟩ := dispatch_entered s d k disp (s.Procs[k]) hc hquiet hd hpc
      (List.getElem?_eq_getElem hk)
    exact ⟨tr, k, h⟩
  | scan i =>
    by_cases hi : i < s.Procs.length
    · obtain ⟨tr, h⟩ := dispatch_scanning s d i disp hc hquiet hd hpc hi
      exact ⟨tr, i, h⟩
    · have hnone : s.Procs[i]? = none := List.getElem?_eq_none (by omega)
      have hstep : s.step (Action.dispatch d) =
          { s with Dispatchers := s.Dispatchers.set d { disp with pc := DispatchPc.scan 0 } } := by
        simp [Pool.step, hc, Pool.dispatchStep, hd, hpc, hnone]
      obtain ⟨tr, h1, h2, h3, h4, h5⟩ := dispatch_scanning (s.step (Action.dispatch d)) d 0
        { disp with pc := DispatchPc.scan 0 } (by rw [hstep]; exact hc)
        (by rw [hstep]; exact hquiet) (by rw [hstep]; simp [List.getElem?_set, hdlt]) rfl
        (by rw [hstep]; exact hpos)
      refine ⟨Action.dispatch d :: tr, 0, ?_, ?_, ?_, ?_, ?_⟩
      · rw [Pool.exec_cons]; exact h1
      · rw [Pool.exec_cons, h2, hstep]; simp [List.set_set]
      · rw [Pool.exec_cons, h3, hstep]
      · rw [Pool.exec_cons]; exact h4
      · rw [Pool.exec_cons, h5, hstep]

/-- The dispatching goroutines, one after the other, can all be brought to send their
job to a worker that runs it. -/
theorem dispatch_upto (s : Pool) (hc : s.Crashed = false)
    (hquiet : ∀ p ∈ s.Procs, p.Quiet) (hpos : 0 < s.Procs.length)
    (hvalid : ∀ disp ∈ s.Dispatchers, ∀ k, disp.pc = DispatchPc.enter k → k < s.Procs.length)
    (m : Nat) :
    m ≤ s.Dispatchers.length →
    ∃ tr : List Action,
      (∀ p ∈ (s.exec tr).Procs, p.Quiet) ∧
      (s.exec tr).Dispatchers.length = s.Dispatchers.length ∧
      (∀ (d : Nat) (disp : Dispatcher), d < m → (s.exec tr).Dispatchers[d]? = some disp →
        ∃ k, disp.pc = DispatchPc.send k) ∧
      (∀ d : Nat, m ≤ d → (s.exec tr).Dispatchers[d]? = s.Dispatchers[d]?) ∧
      (s.exec tr).Submitted = s.Submitted ∧
      (s.exec tr).Crashed = false ∧
      (s.exec tr).Procs.length = s.Procs.length := by
  induction m with
  | zero =>
    intro _
    exact ⟨[], hquiet, rfl, by intro d disp hd; omega, by intro d _; rfl, rfl, hc, rfl⟩
  | succ m ih =>
    intro hm
    obtain ⟨tr, hq, hdl, hsent, hrest, hsub, hcr, hlen⟩ := ih (by omega)
    have hdm : s.Dispatchers[m]? = some (s.Dispatchers[m]) := List.getElem?_eq_getElem (by omega)
    have hdm' : (s.exec tr).Dispatchers[m]? = some (s.Dispatchers[m]) := by
      rw [hrest m (le_refl _), hdm]
    obtain ⟨tr2, k, h1, h2, h3, h4, h5⟩ := dispatch_one (s.exec tr) m (s.Dispatchers[m]) hcr hq
      (by rw [hlen]; exact hpos) hdm'
      (by intro k hk; rw [hlen]; exact hvalid _ (List.getElem?_mem hdm) k hk)
    refine ⟨tr ++ tr2, ?_, ?_, ?_, ?_, ?_, ?_, ?_⟩
    · rw [Pool.exec_append]; exact h1
    · rw [Pool.exec_append, h2, List.length_set, hdl]
    · intro d disp hd hdisp
      rw [Pool.exec_append, h2] at hdisp
      by_cases hdm2 : d = m
      · subst hdm2
        rw [List.getElem?_set_eq_of_lt _ (by omega)] at hdisp
        rw [← Option.some.inj hdisp]
        exact ⟨k, rfl⟩
      · rw [List.getElem?_set_ne (fun h => hdm2 h.symm)] at hdisp
        exact hsent d disp (by omega) hdisp
    · intro d hd
      rw [Pool.exec_append, h2, List.getElem?_set_ne (by omega)]
      exact hrest d (by omega)
    · rw [Pool.exec_append, h3, hsub]
    · rw [Pool.exec_append]; exact h4
    · rw [Pool.exec_append, h5, hlen]

theorem flatMap_nil_of_forall {α β : Type} (f : α → List β) (l : List α)
    (h : ∀ x ∈ l, f x = []) : l.flatMap f = [] := by
  induction l with
  | nil => rfl
  | cons x rest ih =>
    simp [h x (List.mem_cons_self _ _), ih (fun y hy => h y (List.mem_cons_of_mem _ hy))]

/-- From a state without a crash in which every worker has one goroutine, the pool can
be run until nothing is pending and every worker is idle. -/
theorem run_to_completion (s : Pool) (hc : s.Crashed = false)
    (hs : ∀ p ∈ s.Procs, p.Single) (hnp : ∀ p ∈ s.Procs, p.NoPanic)
    (hpos : 0 < s.Procs.length)
    (hvalid : ∀ disp ∈ s.Dispatchers, ∀ k, disp.pc = DispatchPc.enter k → k < s.Procs.length) :
    ∃ tr : List Action,
      (s.exec tr).Crashed = false ∧ (s.exec tr).Submitted = s.Submitted ∧
      (s.exec tr).pending = [] ∧ (s.exec tr).executing = [] := by
  obtain ⟨tr1, hq1, hd1, hsub1, hc1, hlen1⟩ := drain_workers s hc hs hnp
  obtain ⟨tr2, hq2, _, hsent, _, hsub2, hc2, _⟩ := dispatch_upto (s.exec tr1) hc1 hq1
    (by rw [hlen1]; exact hpos)
    (by rw [hd1, hlen1]; exact hvalid) (s.exec tr1).Dispatchers.length (le_refl _)
  refine ⟨tr1 ++ tr2, ?_, ?_, ?_, ?_⟩
  · rw [Pool.exec_append]; exact hc2
  · rw [Pool.exec_append, hsub2, hsub1]
  · rw [Pool.exec_append]
    have hdisp : ((s.exec tr1).exec tr2).Dispatchers.flatMap Dispatcher.holding = [] := by
      apply flatMap_nil_of_forall
      intro disp hmem
      obtain ⟨d, hd⟩ := List.mem_iff_getElem?.1 hmem
      have hdlt := (List.getElem?_eq_some_iff.1 hd).1
      obtain ⟨k, hk⟩ := hsent d disp (by omega) hd
      simp [Dispatcher.holding, hk]
    have hprocs : ((s.exec tr1).exec tr2).Procs.flatMap WorkerProc.holding = [] := by
      apply flatMap_nil_of_forall
      intro p hmem
      obtain ⟨hl, hqe, _⟩ := hq2 p hmem
      simp [WorkerProc.holding, hl, hqe, LoopPc.holding]
    simp [Pool.pending, hdisp, hprocs]
  · rw [Pool.exec_append]
    unfold Pool.executing
    apply flatMap_nil_of_forall
    intro p hmem
    obtain ⟨hl, _, _⟩ := hq2 p hmem
    simp [hl, LoopPc.executing]

/-- C16, as amended: in the pool of `NewWorkerManager(N)` with `N ≥ 1`, in every state
reached without a job having panicked, whatever was submitted and however the
goroutines were interleaved, no job has been called more often than it was submitted,
every submitted job is either pending (with its dispatching goroutine or with a worker)
or has been called, and the execution can be continued, by letting the goroutines run
and the jobs return, to a state in which nothing is pending or executing and the jobs
called are exactly the jobs submitted, each as often as it was submitted. -/
theorem every_job_runs_once (n : Int) (hn : 1 ≤ n) (tr : List Action)
    (hc : ((Pool.init (NewWorkerManager n)).exec tr).Crashed = false) :
    (∀ j : Job, List.count j ((Pool.init (NewWorkerManager n)).exec tr).Began
      ≤ List.count j ((Pool.init (NewWorkerManager n)).exec tr).Submitted) ∧
    (∀ j : Job, List.count j ((Pool.init (NewWorkerManager n)).exec tr).pending
        + List.count j ((Pool.init (NewWorkerManager n)).exec tr).Began
      = List.count j ((Pool.init (NewWorkerManager n)).exec tr).Submitted) ∧
    ∃ tr2 : List Action,
      (((Pool.init (NewWorkerManager n)).exec tr).exec tr2).Crashed = false ∧
      (((Pool.init (NewWorkerManager n)).exec tr).exec tr2).Submitted
        = ((Pool.init (NewWorkerManager n)).exec tr).Submitted ∧
      (((Pool.init (NewWorkerManager n)).exec tr).exec tr2).pending = [] ∧
      (((Pool.init (NewWorkerManager n)).exec tr).exec tr2).executing = [] ∧
      (((Pool.init (NewWorkerManager n)).exec tr).exec tr2).Began.Perm
        ((Pool.init (NewWorkerManager n)).exec tr).Submitted := by
  have hstarted := newWorkerManager_started_once n
  have hqueue : ∀ w ∈ (NewWorkerManager n).Workers, w.JobQueue = [] := by
    intro w hw
    obtain ⟨i, hi⟩ := List.getElem?_of_mem hw
    rw [(newWorkerManager_getElem? n i w hi).2]
  have hcons0 : ∀ j : Job, List.count j (Pool.init (NewWorkerManager n)).pending
      + List.count j (Pool.init (NewWorkerManager n)).Began
      = List.count j (Pool.init (NewWorkerManager n)).Submitted := by
    intro j
    rw [Pool.init_pending _ hqueue]
    rfl
  have hcons : ∀ (tr2 : List Action) (j : Job),
      List.count j (((Pool.init (NewWorkerManager n)).exec tr).exec tr2).pending
        + List.count j (((Pool.init (NewWorkerManager n)).exec tr).exec tr2).Began
      = List.count j (((Pool.init (NewWorkerManager n)).exec tr).exec tr2).Submitted := by
    intro tr2 j
    rw [← Pool.exec_append]
    exact Pool.exec_conserved _ j _ (hcons0 j)
  have hsingle := Pool.exec_single tr _ (Pool.init_single _ hstarted)
  have hnp := Pool.exec_noPanic tr (Pool.init (NewWorkerManager n))
    (by
      intro _ p hp job hmem
      obtain ⟨pc, hl, _⟩ := Pool.init_single _ hstarted p hp
      simp only [Pool.init, List.mem_map] at hp
      obtain ⟨w, hw, rfl⟩ := hp
      simp [(hstarted w hw).1] at hmem) hc
  have hlen : ((Pool.init (NewWorkerManager n)).exec tr).Procs.length = n.toNat := by
    rw [Pool.exec_length]
    simp [Pool.init, newWorkerManager_workers_eq]
  have hvalid := Pool.exec_enterValid tr (Pool.init (NewWorkerManager n))
    (by intro disp hd; simp [Pool.init] at hd)
  obtain ⟨tr2, h1, h2, h3, h4⟩ := run_to_completion _ hc hsingle hnp (by omega) hvalid
  refine ⟨?_, ?_, tr2, h1, h2, h3, h4, ?_⟩
  · intro j
    have := hcons [] j
    simp only [Pool.exec_nil] at this
    omega
  · intro j
    simpa only [Pool.exec_nil] using hcons [] j
  · rw [← h2]
    apply List.perm_iff_count.2
    intro j
    have := hcons tr2 j
    rw [h3] at this
    simpa using this

/-- Two workers, three jobs submitted, one of them done and one being executed. -/
theorem every_job_runs_once_witness :
    (∀ j : Job, List.count j ((Pool.init (NewWorkerManager 2)).exec threeJobsRun).Began
      ≤ List.count j ((Pool.init (NewWorkerManager 2)).exec threeJobsRun).Submitted) ∧
    (∀ j : Job, List.count j ((Pool.init (NewWorkerManager 2)).exec threeJobsRun).pending
        + List.count j ((Pool.init (NewWorkerManager 2)).exec threeJobsRun).Began
      = List.count j ((Pool.init (NewWorkerManager 2)).exec threeJobsRun).Submitted) ∧
    ∃ tr2 : List Action,
      (((Pool.init (NewWorkerManager 2)).exec threeJobsRun).exec tr2).Crashed = false ∧
      (((Pool.init (NewWorkerManager 2)).exec threeJobsRun).exec tr2).Submitted
        = ((Pool.init (NewWorkerManager 2)).exec threeJobsRun).Submitted ∧
      (((Pool.init (NewWorkerManager 2)).exec threeJobsRun).exec tr2).pending = [] ∧
      (((Pool.init (NewWorkerManager 2)).exec threeJobsRun).exec tr2).executing = [] ∧
      (((Pool.init (NewWorkerManager 2)).exec threeJobsRun).exec tr2).Began.Perm
        ((Pool.init (NewWorkerManager 2)).exec threeJobsRun).Submitted :=
  every_job_runs_once 2 (by decide) threeJobsRun (by decide)

/-- A pool without workers calls no job. -/
theorem Pool.exec_of_no_worker (tr : List Action) :
    ∀ s : Pool, s.Procs = [] → (s.exec tr).Procs = [] ∧ (s.exec tr).Began = s.Began := by
  induction tr with
  | nil => intro s h; exact ⟨h, rfl⟩
  | cons a tr ih =>
    intro s h
    have hstep : (s.step a).Procs = [] ∧ (s.step a).Began = s.Began := by
      unfold Pool.step
      split
      · exact ⟨h, rfl⟩
      · cases a with
        | addJob job => exact ⟨h, rfl⟩
        | workerAddJob k job => simp [h]
        | dispatch d =>
          simp only [Pool.dispatchStep, h]
          split
          · exact ⟨h, rfl⟩
          · split <;> simp [h]
        | loop k n => simp [h]
        | panic k n => simp [h]
    rw [Pool.exec_cons]
    obtain ⟨h1, h2⟩ := ih (s.step a) hstep.1
    exact ⟨h1, by rw [h2, hstep.2]⟩

/-- C16 as stated fails for the pool size 0: `AddJob(7)` records the job as submitted,
and in no execution is job 7 ever called. -/
theorem job_never_runs_without_worker :
    ((Pool.init (NewWorkerManager 0)).AddJob 7).Submitted = [7] ∧
    ¬ ∃ tr : List Action, 7 ∈ (((Pool.init (NewWorkerManager 0)).AddJob 7).exec tr).Began := by
  refine ⟨rfl, ?_⟩
  rintro ⟨tr, hmem⟩
  rw [(Pool.exec_of_no_worker tr _ rfl).2] at hmem
  simp [Pool.AddJob, Pool.init] at hmem

/-! ## The remote address -/

/-- C22: for every request for which `GetRemoteAddr` returns the empty string,
`RateLimitMiddleware` answers 400 Bad Request, does not call the next handler, and
leaves the limiter as it was: the package variable, and with it the usage map, is the
one from before the call. -/
theorem rateLimit_rejects_missing_addr (env : Env) (g : Option Limiter) (w : ResponseWriter)
    (r : Request) (h : GetRemoteAddr env r = "") :
    (RateLimitMiddleware env g w r).1.Error
        = some (400, "Bad request, missing remote address") ∧
      (RateLimitMiddleware env g w r).1.NextCalled = false ∧
      (RateLimitMiddleware env g w r).2 = g := by
  have hr : RateLimitMiddleware env g w r
      = (respondError w StatusBadRequest "Bad request, missing remote address", g) := by
    unfold RateLimitMiddleware
    simp only [h, if_true]
  rw [hr]
  unfold respondError
  cases w.EncodeErr <;> exact ⟨rfl, rfl, rfl⟩

theorem rateLimit_rejects_missing_addr_witness :
    GetRemoteAddr (fun _ => "") ⟨fun _ => ""⟩ = "" ∧
      (RateLimitMiddleware (fun _ => "") (some ⟨[("10.0.0.1", 3)]⟩) ⟨none⟩ ⟨fun _ => ""⟩).1.Error
        = some (400, "Bad request, missing remote address") ∧
      (RateLimitMiddleware (fun _ => "") (some ⟨[("10.0.0.1", 3)]⟩) ⟨none⟩
        ⟨fun _ => ""⟩).1.NextCalled = false ∧
      (RateLimitMiddleware (fun _ => "") (some ⟨[("10.0.0.1", 3)]⟩) ⟨none⟩ ⟨fun _ => ""⟩).2
        = some ⟨[("10.0.0.1", 3)]⟩ :=
  ⟨by decide, rateLimit_rejects_missing_addr (fun _ => "") (some ⟨[("10.0.0.1", 3)]⟩) ⟨none⟩
    ⟨fun _ => ""⟩ (by decide)⟩

/-- C23: `GetRemoteAddr` returns `MOCK_REMOTE_ADDR` when `ENV_LOCAL` is `"true"`,
whatever the headers are; otherwise the `REMOTE_ADDR` header when that is non-empty,
and otherwise the `X-Forwarded-For` header; so it returns the empty string exactly
when the source selected in this way is empty. -/
theorem getRemoteAddr_selects_source (env : Env) (r : Request) :
    (env "ENV_LOCAL" = "true" → GetRemoteAddr env r = env "MOCK_REMOTE_ADDR") ∧
      (env "ENV_LOCAL" ≠ "true" → r.Header "REMOTE_ADDR" ≠ "" →
        GetRemoteAddr env r = r.Header "REMOTE_ADDR") ∧
      (env "ENV_LOCAL" ≠ "true" → r.Header "REMOTE_ADDR" = "" →
        GetRemoteAddr env r = r.Header "X-Forwarded-For") ∧
      (GetRemoteAddr env r = "" ↔
        (env "ENV_LOCAL" = "true" ∧ env "MOCK_REMOTE_ADDR" = "") ∨
        (env "ENV_LOCAL" ≠ "true" ∧ r.Header "REMOTE_ADDR" = "" ∧
          r.Header "X-Forwarded-For" = "")) := by
  unfold GetRemoteAddr
  refine ⟨?_, ?_, ?_, ?_⟩
  · intro h
    simp [h]
  · intro h1 h2
    simp [h1, h2]
  · intro h1 h2
    simp [h1, h2]
  · by_cases h1 : env "ENV_LOCAL" = "true"
    · simp [h1]
    · by_cases h2 : r.Header "REMOTE_ADDR" = ""
      · simp [h1, h2]
      · simp [h1, h2]

/-! ## The CORS middleware -/

/-- C24: with `HTTP_ALLOWED_ORIGINS` set to `http://a.com,http://b.com`, a request
whose `Origin` header is `http://a.com` leaves `CORSMiddleware` without the header
`Access-Control-Allow-Origin`, although the origin is an entry of the list: the list
the handler compares with is `strings.Split(",", value)`, the pieces of the string
`","`. -/
theorem cors_listed_origin_gets_no_header :
    Split "," (corsOriginEnv "HTTP_ALLOWED_ORIGINS") = [","] ∧
      (CORSMiddleware corsOriginEnv getFromOriginA).AllowOrigin = none ∧
      (CORSMiddleware corsOriginEnv getFromOriginA).NextCalled = true := by
  decide

/-- C25: with `HTTP_ALLOWED_METHODS` set to `GET,POST`, a `GET` request is answered
405 Method Not Allowed by `CORSMiddleware` and the next handler is not called,
although `GET` is an entry of the list: `_contains` splits the method at the commas
and compares the piece `GET` with the whole value `GET,POST`. -/
theorem cors_listed_method_rejected :
    _contains getFromOriginA.Method (corsEnv "HTTP_ALLOWED_METHODS") = false ∧
      _contains (corsEnv "HTTP_ALLOWED_METHODS") getFromOriginA.Method = true ∧
      (CORSMiddleware corsEnv getFromOriginA).Status = some 405 ∧
      (CORSMiddleware corsEnv getFromOriginA).NextCalled = false := by
  decide

/-! ## The SQL injection patterns -/

theorem contains_scan_iff (p : List Char) (s : List Char) :
    Contains.scan p s = true ↔ p <:+: s := by
  induction s with
  | nil =>
    cases p with
    | nil => simp [Contains.scan]
    | cons a p => simp [Contains.scan]
  | cons c rest ih =>
    simp only [Contains.scan, Bool.or_eq_true, ih, List.isPrefixOf_iff_prefix,
      List.infix_cons_iff]

theorem contains_trans (v p q : String) (h1 : Contains v p = true) (h2 : Contains p q = true) :
    Contains v q = true := by
  unfold Contains at *
  rw [contains_scan_iff] at *
  exact h2.trans h1

theorem isSQLInjection_loop_iff (v : String) (ps : List String) :
    isSQLInjection.loop v ps = true ↔ ∃ p ∈ ps, Contains v p = true := by
  induction ps with
  | nil => simp [isSQLInjection.loop]
  | cons p rest ih =>
    simp only [isSQLInjection.loop, List.mem_cons, exists_eq_or_imp, ← ih]
    by_cases h : Contains v p = true
    · simp [h]
    · simp [h]

/-- C29: for every string `v`, `isSQLInjection(v)` with its 14 patterns returns what
the case-sensitive substring test against the 8 patterns `SELECT`, `DELETE`,
`DROP TABLE`, `INSERT INTO`, `UPDATE`, `1=1`, `OR '1'='1` and `AND '1'='1` returns:
each of the other 6 patterns contains one of these 8. -/
theorem isSQLInjection_eq_eight_patterns (v : String) :
    isSQLInjection v = containsOneOfEight v ∧
      (∀ p ∈ patterns, p ∉ eightPatterns → ∃ q ∈ eightPatterns, Contains p q = true) := by
  have hcover : ∀ p ∈ patterns, ∃ q ∈ eightPatterns, Contains p q = true := by decide
  have hsub : ∀ q ∈ eightPatterns, q ∈ patterns := by decide
  refine ⟨?_, fun p hp _ => hcover p hp⟩
  rw [Bool.eq_iff_iff]
  unfold isSQLInjection containsOneOfEight
  rw [isSQLInjection_loop_iff, List.any_eq_true]
  constructor
  · rintro ⟨p, hp, hv⟩
    obtain ⟨q, hq, hpq⟩ := hcover p hp
    exact ⟨q, hq, contains_trans v p q hv hpq⟩
  · rintro ⟨q, hq, hv⟩
    exact ⟨q, hsub q hq, hv⟩

/-! ## The SQL injection middleware -/

theorem sqlInjection_form_cases (r : HttpRequest) :
    ((SQLInjectionMiddleware.form r).Error = some (500, "Internal Server Error") ∧
        (SQLInjectionMiddleware.form r).NextCalled = false ∧
        ∃ msg, r.ParseFormErr = some (FormError.other msg)) ∨
      ((SQLInjectionMiddleware.form r).Error = some (400, "Potential SQL Injection Detected") ∧
        (SQLInjectionMiddleware.form r).NextCalled = false ∧
        anyValueInjected r.PostForm = true ∧
        ∀ msg, r.ParseFormErr ≠ some (FormError.other msg)) ∨
      ((SQLInjectionMiddleware.form r).Error = none ∧
        (SQLInjectionMiddleware.form r).NextCalled = true ∧
        anyValueInjected r.PostForm = false ∧
        ∀ msg, r.ParseFormErr ≠ some (FormError.other msg)) := by
  have hlen : anyValueInjected r.PostForm = true → 0 < r.PostForm.length := by
    intro h
    cases hp : r.PostForm with
    | nil => rw [hp] at h; simp [anyValueInjected] at h
    | cons a l => simp
  unfold SQLInjectionMiddleware.form
  rcases hperr : r.ParseFormErr with _ | e
  · by_cases hv : anyValueInjected r.PostForm = true
    · right; left
      simp [hv, hlen hv, rejected, StatusBadRequest]
    · right; right
      simp [hv, Served.forwarded]
  · cases e with
    | ErrNotMultipart =>
      by_cases hv : anyValueInjected r.PostForm = true
      · right; left
        simp [hv, hlen hv, rejected, StatusBadRequest]
      · right; right
        simp [hv, Served.forwarded]
    | other msg =>
      left
      simp [rejected, StatusInternalServerError]

/-- C27, a request on which the claim fails: the `POST` request with the form body
`a=DROP+TABLE&b=%zz` has the posted form value `DROP TABLE`, which contains a pattern,
and neither a query value nor the body as sent contains one; `r.ParseForm()` returns
the error of the escape `%zz`, and `SQLInjectionMiddleware` answers 500 Internal
Server Error, not 400. -/
theorem sqlInjection_posted_value_answered_500 :
    anyValueInjected brokenFormPost.PostForm = true ∧
      (SQLInjectionMiddleware brokenFormPost).Error = some (500, "Internal Server Error") ∧
      (SQLInjectionMiddleware brokenFormPost).Error
        ≠ some (400, "Potential SQL Injection Detected") := by
  decide

/-- C27, amended: whenever a URL query value, the first 1 MB of the request body or a
posted form value contains one of the patterns of `isSQLInjection`,
`SQLInjectionMiddleware` does not call the next handler, and it answers 400 Bad
Request unless reading the body or parsing the form failed before the value was
checked, in which case it answers 500 Internal Server Error. A pattern in a query
value is always answered 400, as is one in a body that was read without error; and
the request with the query value `1 OR 1=1` is answered 400. -/
theorem sqlInjection_rejects_patterns (r : HttpRequest)
    (h : anyValueInjected r.Query = true ∨
      (∃ b, r.Body = some b ∧ isSQLInjection (readLimited b).1 = true) ∨
      anyValueInjected r.PostForm = true) :
    (SQLInjectionMiddleware r).NextCalled = false ∧
      ((SQLInjectionMiddleware r).Error = some (400, "Potential SQL Injection Detected") ∨
        ((SQLInjectionMiddleware r).Error = some (500, "Internal Server Error") ∧
          ((∃ b, r.Body = some b ∧ (readLimited b).2 ≠ none) ∨
            ∃ msg, r.ParseFormErr = some (FormError.other msg)))) ∧
      (anyValueInjected r.Query = true →
        (SQLInjectionMiddleware r).Error = some (400, "Potential SQL Injection Detected")) ∧
      ((∃ b, r.Body = some b ∧ isSQLInjection (readLimited b).1 = true ∧
          (readLimited b).2 = none) →
        (SQLInjectionMiddleware r).Error = some (400, "Potential SQL Injection Detected")) ∧
      ((∀ b, r.Body = some b → (readLimited b).2 = none) →
        (∀ msg, r.ParseFormErr ≠ some (FormError.other msg)) →
        (SQLInjectionMiddleware r).Error = some (400, "Potential SQL Injection Detected")) ∧
      (SQLInjectionMiddleware injectedQueryGet).Error
        = some (400, "Potential SQL Injection Detected") := by
  have hform := sqlInjection_form_cases r
  have hex : (SQLInjectionMiddleware injectedQueryGet).Error
      = some (400, "Potential SQL Injection Detected") := by decide
  by_cases hq : anyValueInjected r.Query = true
  · have hr : SQLInjectionMiddleware r
        = rejected StatusBadRequest "Potential SQL Injection Detected" := by
      unfold SQLInjectionMiddleware
      rw [if_pos hq]
    rw [hr]
    exact ⟨rfl, Or.inl rfl, fun _ => rfl, fun _ => rfl, fun _ _ => rfl, hex⟩
  · rcases hb : r.Body with _ | b
    · have hr : SQLInjectionMiddleware r = SQLInjectionMiddleware.form r := by
        unfold SQLInjectionMiddleware
        rw [if_neg hq, hb]
      have hp : anyValueInjected r.PostForm = true := by
        rcases h with h | ⟨b, hb2, _⟩ | h
        · exact absurd h hq
        · rw [hb] at hb2; cases hb2
        · exact h
      rw [hr]
      rcases hform with ⟨h1, h2, h3⟩ | ⟨h1, h2, h3, h4⟩ | ⟨h1, h2, h3, h4⟩
      · refine ⟨h2, Or.inr ⟨h1, Or.inr h3⟩, fun hq2 => absurd hq2 hq, ?_, ?_, hex⟩
        · rintro ⟨b, hb2, _⟩
          cases hb2
        · intro _ hno
          obtain ⟨msg, hmsg⟩ := h3
          exact absurd hmsg (hno msg)
      · refine ⟨h2, Or.inl h1, fun _ => h1, fun _ => h1, fun _ _ => h1, hex⟩
      · rw [hp] at h3
        cases h3
    · rcases hrd : readLimited b with ⟨body, err⟩
      cases err with
      | some e =>
        have hr : SQLInjectionMiddleware r
            = rejected StatusInternalServerError "Internal Server Error" := by
          unfold SQLInjectionMiddleware
          rw [if_neg hq, hb]
          simp only [hrd]
        rw [hr]
        refine ⟨rfl, Or.inr ⟨rfl, Or.inl ⟨b, rfl, ?_⟩⟩, fun hq2 => absurd hq2 hq, ?_, ?_, hex⟩
        · rw [hrd]
          simp
        · rintro ⟨b2, hb2, _, hnone⟩
          cases hb2
          rw [hrd] at hnone
          cases hnone
        · intro hall _
          have := hall b rfl
          rw [hrd] at this
          cases this
      | none =>
        by_cases hbody : isSQLInjection body = true
        · have hr : SQLInjectionMiddleware r
              = rejected StatusBadRequest "Potential SQL Injection Detected" := by
            unfold SQLInjectionMiddleware
            rw [if_neg hq, hb]
            simp only [hrd, hbody, if_true]
          rw [hr]
          exact ⟨rfl, Or.inl rfl, fun _ => rfl, fun _ => rfl, fun _ _ => rfl, hex⟩
        · have hr : SQLInjectionMiddleware r = SQLInjectionMiddleware.form r := by
            unfold SQLInjectionMiddleware
            rw [if_neg hq, hb]
            simp only [hrd, hbody]
            simp
          have hp : anyValueInjected r.PostForm = true := by
            rcases h with h | ⟨b2, hb2, hinj⟩ | h
            · exact absurd h hq
            · rw [hb] at hb2
              cases hb2
              rw [hrd] at hinj
              exact absurd hinj hbody
            · exact h
          rw [hr]
          rcases hform with ⟨h1, h2, h3⟩ | ⟨h1, h2, h3, h4⟩ | ⟨h1, h2, h3, h4⟩
          · refine ⟨h2, Or.inr ⟨h1, Or.inr h3⟩, fun hq2 => absurd hq2 hq, ?_, ?_, hex⟩
            · rintro ⟨b2, hb2, hinj, _⟩
              cases hb2
              rw [hrd] at hinj
              exact absurd hinj hbody
            · intro _ hno
              obtain ⟨msg, hmsg⟩ := h3
              exact absurd hmsg (hno msg)
          · refine ⟨h2, Or.inl h1, fun _ => h1, fun _ => h1, fun _ _ => h1, hex⟩
          · rw [hp] at h3
            cases h3

theorem sqlInjection_rejects_patterns_witness :
    anyValueInjected injectedQueryGet.Query = true ∧
      (SQLInjectionMiddleware injectedQueryGet).NextCalled = false :=
  ⟨by decide, (sqlInjection_rejects_patterns injectedQueryGet (Or.inl (by decide))).1⟩

/-! ## The task controller -/

/-- C28: for every request whose route variable `id` is absent, empty or rejected by
`strconv.Atoi`, the handlers `GetTask` and `DeleteTask` answer 400 Bad Request and
send no query and no statement to the database. -/
theorem task_handlers_reject_bad_id (db : DB) (vars : Option (String → String))
    (h : vars = none ∨ ∃ m, vars = some m ∧ (m "id" = "" ∨ (Atoi (m "id")).2 ≠ none)) :
    ((∃ msg, (GetTask db vars).Error = some (400, msg)) ∧ (GetTask db vars).JSON = none ∧
        (GetTask db vars).Statements = []) ∧
      ((∃ msg, (DeleteTask db vars).Error = some (400, msg)) ∧
        (DeleteTask db vars).JSON = none ∧ (DeleteTask db vars).Statements = []) := by
  rcases h with h | ⟨m, h, hm⟩
  · subst h
    exact ⟨⟨⟨_, rfl⟩, rfl, rfl⟩, ⟨_, rfl⟩, rfl, rfl⟩
  · subst h
    by_cases hid : m "id" = ""
    · simp [GetTask, DeleteTask, hid, StatusBadRequest]
    · have hnum : (Atoi (m "id")).2 ≠ none := hm.resolve_left hid
      simp [GetTask, DeleteTask, hid, hnum, StatusBadRequest]

theorem task_handlers_reject_bad_id_witness :
    (Atoi "12a").2 ≠ none ∧
      (GetTask emptyDB (some (fun _ => "12a"))).Statements = [] ∧
      (DeleteTask emptyDB (some (fun _ => "12a"))).Statements = [] :=
  ⟨by decide,
   (task_handlers_reject_bad_id emptyDB (some (fun _ => "12a"))
      (Or.inr ⟨fun _ => "12a", rfl, Or.inr (by decide)⟩)).1.2.2,
   (task_handlers_reject_bad_id emptyDB (some (fun _ => "12a"))
      (Or.inr ⟨fun _ => "12a", rfl, Or.inr (by decide)⟩)).2.2.2⟩

/-! ## Pagination -/

theorem parseIntSigned_inRange (neg : Bool) (s : List Char) :
    minInt64 ≤ (parseIntSigned neg s).1 ∧ (parseIntSigned neg s).1 ≤ maxInt64 := by
  unfold parseIntSigned
  split
  · simp [minInt64, maxInt64]
  · rename_i un e _
    cases neg <;>
      simp only [Bool.not_false, Bool.not_true, Bool.true_and, Bool.false_and, decide_eq_true_eq,
        Bool.false_eq_true, if_false] <;>
      split_ifs <;> simp only [minInt64, maxInt64] <;> omega

theorem atoi_inRange (s : String) :
    minInt64 ≤ (Atoi s).1 ∧ (Atoi s).1 ≤ maxInt64 := by
  unfold Atoi
  split
  · simp [minInt64, maxInt64]
  · split_ifs <;> exact parseIntSigned_inRange _ _

theorem getTasks_page_range (pageStr : String) :
    1 ≤ GetTasks.page pageStr ∧ GetTasks.page pageStr ≤ maxInt64 := by
  have h := atoi_inRange pageStr
  unfold GetTasks.page
  rcases hp : Atoi pageStr with ⟨page, err⟩
  rw [hp] at h
  simp only
  split_ifs with hc
  · simp [maxInt64]
  · exact ⟨by omega, h.2⟩

theorem getTasks_size_range (sizeStr : String) :
    1 ≤ GetTasks.size sizeStr ∧ GetTasks.size sizeStr ≤ maxInt64 := by
  have h := atoi_inRange sizeStr
  unfold GetTasks.size
  rcases hp : Atoi sizeStr with ⟨size, err⟩
  rw [hp] at h
  simp only
  split_ifs with hc
  · simp [maxInt64]
  · exact ⟨by omega, h.2⟩

theorem getTasks_statements (db : DB) (pageStr sizeStr : String) :
    (GetTasks db pageStr sizeStr).Statements
      = [(GetTasks.statement (GetTasks.size sizeStr)
          (GetTasks.offset (GetTasks.page pageStr) (GetTasks.size sizeStr)), [])] := by
  unfold GetTasks
  simp only
  split
  · rfl
  · split <;> rfl

/-- C30, an input on which the claim fails: with `page=4611686018427387905` and
`size=2` the product `(page-1)*size` is `2^63`, which `GetTasks` computes as
`-9223372036854775808`: the statement that is sent has a negative `OFFSET`. -/
theorem getTasks_offset_negative :
    GetTasks.offset (GetTasks.page "4611686018427387905") (GetTasks.size "2")
        = -9223372036854775808 ∧
      (GetTasks emptyDB "4611686018427387905" "2").Statements
        = [("SELECT * FROM tasks ORDER BY id LIMIT 2 OFFSET -9223372036854775808", [])] := by
  decide

/-- C30, amended: for every pair of `page` and `size` query strings, the `LIMIT` value
of the statement `GetTasks` sends is at least 1 (the parsed size, or 10 when `size` is
missing, unparseable or below 1), and the `OFFSET` value is `(page-1)*size` reduced to
Go's 64-bit signed `int`, with `page` defaulting to 1 when missing, unparseable or
below 1: it equals the product and is not negative whenever the product is below
`2^63`. -/
theorem getTasks_limit_offset (db : DB) (pageStr sizeStr : String) :
    (GetTasks db pageStr sizeStr).Statements
        = [(GetTasks.statement (GetTasks.size sizeStr)
            (GetTasks.offset (GetTasks.page pageStr) (GetTasks.size sizeStr)), [])] ∧
      1 ≤ GetTasks.size sizeStr ∧
      GetTasks.size sizeStr
        = (if (Atoi sizeStr).2 = none ∧ 1 ≤ (Atoi sizeStr).1 then (Atoi sizeStr).1 else 10) ∧
      GetTasks.page pageStr
        = (if (Atoi pageStr).2 = none ∧ 1 ≤ (Atoi pageStr).1 then (Atoi pageStr).1 else 1) ∧
      GetTasks.offset (GetTasks.page pageStr) (GetTasks.size sizeStr)
        = wrapInt64 ((GetTasks.page pageStr - 1) * GetTasks.size sizeStr) ∧
      ((GetTasks.page pageStr - 1) * GetTasks.size sizeStr ≤ maxInt64 →
        GetTasks.offset (GetTasks.page pageStr) (GetTasks.size sizeStr)
            = (GetTasks.page pageStr - 1) * GetTasks.size sizeStr ∧
          0 ≤ GetTasks.offset (GetTasks.page pageStr) (GetTasks.size sizeStr)) := by
  have hp := getTasks_page_range pageStr
  have hs := getTasks_size_range sizeStr
  have hw : wrapInt64 (GetTasks.page pageStr - 1) = GetTasks.page pageStr - 1 :=
    wrapInt64_of_inRange _ (by simp only [minInt64]; omega) (by omega)
  have hnn : 0 ≤ (GetTasks.page pageStr - 1) * GetTasks.size sizeStr :=
    Int.mul_nonneg (by omega) (by omega)
  refine ⟨getTasks_statements db pageStr sizeStr, hs.1, ?_, ?_, ?_, ?_⟩
  · unfold GetTasks.size
    rcases Atoi sizeStr with ⟨size, err⟩
    simp only
    by_cases h1 : err = none
    · by_cases h2 : size < 1
      · simp [h1, h2, Int.not_le.mpr h2]
      · simp [h1, h2, Int.not_lt.mp h2]
    · simp [h1]
  · unfold GetTasks.page
    rcases Atoi pageStr with ⟨page, err⟩
    simp only
    by_cases h1 : err = none
    · by_cases h2 : page < 1
      · simp [h1, h2, Int.not_le.mpr h2]
      · simp [h1, h2, Int.not_lt.mp h2]
    · simp [h1]
  · unfold GetTasks.offset
    rw [hw]
  · intro hle
    have ho : GetTasks.offset (GetTasks.page pageStr) (GetTasks.size sizeStr)
        = (GetTasks.page pageStr - 1) * GetTasks.size sizeStr := by
      unfold GetTasks.offset
      rw [hw]
      exact wrapInt64_of_inRange _ (by simp only [minInt64]; omega) hle
    rw [ho]
    exact ⟨rfl, hnn⟩

/-! ## The CSRF middleware -/

theorem encodeToString_ne_nil (a b c : Nat) (rest : List Nat) :
    EncodeToString (a :: b :: c :: rest) ≠ [] := by
  simp [EncodeToString]

theorem generateCSRFToken_fresh_ne_empty (rand : Except String (Nat → Nat)) (tok : String)
    (h : generateCSRFToken.fresh rand = Except.ok tok) : tok ≠ "" := by
  unfold generateCSRFToken.fresh at h
  cases rand with
  | error e => cases h
  | ok bytes =>
    simp only [Except.ok.injEq] at h
    subst h
    have hr : List.range csrfTokenLength = 0 :: 1 :: 2 :: List.range' 3 29 := by decide
    rw [hr]
    intro hc
    have hd := congrArg String.data hc
    exact encodeToString_ne_nil _ _ _ _ hd

theorem generateCSRFToken_cases (rand : Except String (Nat → Nat)) (r : HttpRequest) :
    (∃ v, r.Cookie "csrf_token" = some v ∧ v ≠ "" ∧ generateCSRFToken rand r = Except.ok v) ∨
      ((r.Cookie "csrf_token" = none ∨ r.Cookie "csrf_token" = some "") ∧
        generateCSRFToken rand r = generateCSRFToken.fresh rand) := by
  unfold generateCSRFToken csrfCookieName
  rcases r.Cookie "csrf_token" with _ | v
  · exact Or.inr ⟨Or.inl rfl, rfl⟩
  · by_cases hv : v = ""
    · subst hv
      exact Or.inr ⟨Or.inr rfl, by simp⟩
    · exact Or.inl ⟨v, rfl, hv, by simp [hv]⟩

/-- C26: the request's token is the value `generateCSRFToken` returns: the non-empty
`csrf_token` cookie value, or else a freshly generated token, the encoding of 32
random bytes, which is never empty. For every `POST`, `PUT` or `DELETE` request,
`CSRFMiddleware` calls the next handler only if the token sent by the client (the
`X-CSRF-Token` header or, when that is empty, the `csrf_token` form value) equals the
request's token; when the client token is missing or different it answers 403
Forbidden and does not call the next handler. A request with any other method is
never answered 403 and is handed on whenever it has a token. So the `POST` request
with the token `abc` in its cookie and in its header is handed on, and the same
request without the header is answered 403. -/
theorem csrf_checks_client_token (rand : Except String (Nat → Nat)) (r : HttpRequest) :
    (∀ v, r.Cookie "csrf_token" = some v → v ≠ "" → generateCSRFToken rand r = Except.ok v) ∧
      (∀ bytes, rand = Except.ok bytes →
        (r.Cookie "csrf_token" = none ∨ r.Cookie "csrf_token" = some "") →
        generateCSRFToken rand r = Except.ok (String.mk (EncodeToString
          ((List.range 32).map (fun i => bytes i % 256))))) ∧
      (∀ tok, generateCSRFToken rand r = Except.ok tok → tok ≠ "") ∧
      (r.Method = "POST" ∨ r.Method = "PUT" ∨ r.Method = "DELETE" →
        ((CSRFMiddleware rand r).NextCalled = true →
          generateCSRFToken rand r = Except.ok
            (if r.Header "X-CSRF-Token" = "" then r.FormValue "csrf_token"
              else r.Header "X-CSRF-Token")) ∧
        (∀ tok, generateCSRFToken rand r = Except.ok tok →
          ((if r.Header "X-CSRF-Token" = "" then r.FormValue "csrf_token"
              else r.Header "X-CSRF-Token") ≠ tok ∨
            (r.Header "X-CSRF-Token" = "" ∧ r.FormValue "csrf_token" = "")) →
          (CSRFMiddleware rand r).Status = some 403 ∧
            (CSRFMiddleware rand r).NextCalled = false)) ∧
      (¬ (r.Method = "POST" ∨ r.Method = "PUT" ∨ r.Method = "DELETE") →
        (CSRFMiddleware rand r).Status ≠ some 403 ∧
          ∀ tok, generateCSRFToken rand r = Except.ok tok →
            (CSRFMiddleware rand r).Status = none ∧
              (CSRFMiddleware rand r).NextCalled = true) ∧
      (CSRFMiddleware rand postWithToken).NextCalled = true ∧
      (CSRFMiddleware rand { postWithToken with Header := fun _ => "" }).Status = some 403 := by
  have hne : ∀ tok, generateCSRFToken rand r = Except.ok tok → tok ≠ "" := by
    intro tok htok
    rcases generateCSRFToken_cases rand r with ⟨v, _, hv, hgen⟩ | ⟨_, hgen⟩
    · rw [hgen] at htok
      cases htok
      exact hv
    · rw [hgen] at htok
      exact generateCSRFToken_fresh_ne_empty rand tok htok
  refine ⟨?_, ?_, hne, ?_, ?_, by rfl, by rfl⟩
  · intro v hc hv
    rcases generateCSRFToken_cases rand r with ⟨v2, hc2, _, hgen⟩ | ⟨hc2 | hc2, _⟩
    · rw [hc] at hc2
      cases hc2
      exact hgen
    · rw [hc] at hc2
      cases hc2
    · rw [hc] at hc2
      cases hc2
      exact absurd rfl hv
  · intro bytes hrand hc
    rcases generateCSRFToken_cases rand r with ⟨v2, hc2, hv2, _⟩ | ⟨_, hgen⟩
    · rcases hc with hc | hc
      · rw [hc] at hc2
        cases hc2
      · rw [hc] at hc2
        cases hc2
        exact absurd rfl hv2
    · rw [hgen, hrand]
      rfl
  · intro hm
    unfold CSRFMiddleware csrfHeaderName csrfCookieName
    rcases hgen : generateCSRFToken rand r with e | csrfToken
    · simp
    · simp only [hm, if_true]
      by_cases hcl : (if r.Header "X-CSRF-Token" = "" then r.FormValue "csrf_token"
          else r.Header "X-CSRF-Token") = csrfToken
      · have hne2 := hne csrfToken hgen
        refine ⟨fun _ => by rw [hcl], ?_⟩
        intro tok htok hdiff
        cases htok
        rcases hdiff with hdiff | ⟨h1, h2⟩
        · exact absurd hcl hdiff
        · rw [h1, if_pos rfl, h2] at hcl
          exact absurd hcl.symm hne2
      · simp [hcl, StatusForbidden]
  · intro hm
    unfold CSRFMiddleware
    rcases hgen : generateCSRFToken rand r with e | csrfToken
    · simp [StatusInternalServerError]
    · simp [hm]

/-! ## Jobs being executed -/

theorem flatMap_set_of_eq {α β : Type} (f : α → List β) (l : List α) (k : Nat) (x y : α)
    (h : l[k]? = some y) (hf : f x = f y) : (l.set k x).flatMap f = l.flatMap f := by
  rw [List.flatMap_def, List.flatMap_def, map_set_of_eq f l k x y h hf]

theorem WorkerProc.count_executing_loopStep (p : WorkerProc) (n : Nat) (j : Job) :
    List.count j ((p.loopStep n).1.Loops.flatMap LoopPc.executing)
        + List.count j (p.leaving n)
      = List.count j (p.Loops.flatMap LoopPc.executing) + List.count j (p.loopStep n).2 := by
  unfold WorkerProc.loopStep WorkerProc.leaving
  split
  · next hn => simp [hn]
  · next hn =>
    split
    · simp [hn]
    · next job rest hq =>
      have := count_flatMap_set LoopPc.executing j p.Loops n (LoopPc.received job) _ hn
      simp [hn, LoopPc.executing] at this ⊢
      omega
  · next job hn =>
    have := count_flatMap_set LoopPc.executing j p.Loops n (LoopPc.marked job) _ hn
    simp [hn, LoopPc.executing] at this ⊢
    omega
  · next job hn =>
    have := count_flatMap_set LoopPc.executing j p.Loops n (LoopPc.running job) _ hn
    simp [hn, LoopPc.executing] at this ⊢
    omega
  · next job hn =>
    have := count_flatMap_set LoopPc.executing j p.Loops n (LoopPc.returned job) _ hn
    simp [hn, LoopPc.executing] at this ⊢
    omega
  · next job hn =>
    have := count_flatMap_set LoopPc.executing j p.Loops n LoopPc.waiting _ hn
    simp [hn, LoopPc.executing] at this ⊢
    omega
  · next job hn => simp [hn]

/-- A statement of a worker's goroutine, in the counts of the pool: the job that is
called joins the jobs being executed and the job that returns leaves them. -/
theorem Pool.step_loop_counts (s : Pool) (k n : Nat) (p : WorkerProc)
    (hc : s.Crashed = false) (hp : s.Procs[k]? = some p) :
    (s.step (Action.loop k n)).Began = s.Began ++ (p.loopStep n).2 ∧
      (s.step (Action.loop k n)).Submitted = s.Submitted ∧
      (s.step (Action.loop k n)).Crashed = false ∧
      ∀ j : Job, List.count j (s.step (Action.loop k n)).executing + List.count j (p.leaving n)
        = List.count j s.executing + List.count j (p.loopStep n).2 := by
  have hstep : s.step (Action.loop k n)
      = { s with Procs := s.Procs.set k (p.loopStep n).1,
                 Began := s.Began ++ (p.loopStep n).2 } := by
    unfold Pool.step
    simp [hc, hp]
  rw [hstep]
  refine ⟨rfl, rfl, hc, ?_⟩
  intro j
  have h1 := count_flatMap_set (fun p : WorkerProc => p.Loops.flatMap LoopPc.executing) j
    s.Procs k (p.loopStep n).1 p hp
  have h2 := WorkerProc.count_executing_loopStep p n j
  simp only [Pool.executing] at h1 ⊢
  omega

theorem Pool.step_loop_none (s : Pool) (k n : Nat) (hp : s.Procs[k]? = none) :
    s.step (Action.loop k n) = s := by
  unfold Pool.step
  split
  · rfl
  · simp [hp]

/-- A dispatching goroutine calls no job and ends none. -/
theorem Pool.step_dispatch_facts (s : Pool) (d : Nat) :
    (s.step (Action.dispatch d)).Began = s.Began ∧
      (s.step (Action.dispatch d)).Submitted = s.Submitted ∧
      (s.step (Action.dispatch d)).Crashed = s.Crashed ∧
      (s.step (Action.dispatch d)).executing = s.executing := by
  unfold Pool.step
  split
  · exact ⟨rfl, rfl, rfl, rfl⟩
  · simp only [Pool.dispatchStep]
    split
    · exact ⟨rfl, rfl, rfl, rfl⟩
    · next disp hd =>
      split
      · split
        · exact ⟨rfl, rfl, rfl, rfl⟩
        · split <;> exact ⟨rfl, rfl, rfl, rfl⟩
      · next kk hk =>
        split
        · exact ⟨rfl, rfl, rfl, rfl⟩
        · next p hp =>
          refine ⟨rfl, rfl, rfl, ?_⟩
          simp only [Pool.executing]
          exact flatMap_set_of_eq _ s.Procs kk (p.AddJob disp.job) p hp rfl
      · exact ⟨rfl, rfl, rfl, rfl⟩

/-- A panic calls no job, and no job is executed more often after it than before. -/
theorem Pool.step_panic_facts (s : Pool) (k n : Nat) :
    (s.step (Action.panic k n)).Began = s.Began ∧
      (s.step (Action.panic k n)).Submitted = s.Submitted ∧
      (∀ j : Job, List.count j (s.step (Action.panic k n)).executing
        ≤ List.count j s.executing) ∧
      (s.step (Action.panic k n) = s ∨ (s.step (Action.panic k n)).Crashed = true) := by
  unfold Pool.step
  split
  · exact ⟨rfl, rfl, fun _ => le_refl _, Or.inl rfl⟩
  · simp only
    split
    · exact ⟨rfl, rfl, fun _ => le_refl _, Or.inl rfl⟩
    · next p hp =>
      split
      · next job hrun =>
        refine ⟨rfl, rfl, ?_, Or.inr rfl⟩
        intro j
        have h1 := count_flatMap_set (fun p : WorkerProc => p.Loops.flatMap LoopPc.executing) j
          s.Procs k { p with Loops := p.Loops.set n (LoopPc.panicked job) } p hp
        have h2 := count_flatMap_set LoopPc.executing j p.Loops n (LoopPc.panicked job) _ hrun
        simp only [Pool.executing, LoopPc.executing, List.count_nil] at h1 h2 ⊢
        omega
      · exact ⟨rfl, rfl, fun _ => le_refl _, Or.inl rfl⟩

theorem Pool.exec_crashed (tr : List Action) (s : Pool) (h : s.Crashed = true) :
    s.exec tr = s := by
  induction tr with
  | nil => rfl
  | cons a tr ih =>
    rw [Pool.exec_cons]
    have : s.step a = s := by
      unfold Pool.step
      simp [h]
    rw [this, ih]

/-- The list of the jobs submitted only grows. -/
theorem Pool.step_submitted_length (s : Pool) (a : Action) :
    s.Submitted.length ≤ (s.step a).Submitted.length := by
  cases a with
  | addJob job =>
    unfold Pool.step
    split
    · exact le_refl _
    · simp [Pool.AddJob]
  | workerAddJob k job =>
    unfold Pool.step
    split
    · exact le_refl _
    · simp only
      split
      · exact le_refl _
      · simp
  | dispatch d => rw [(Pool.step_dispatch_facts s d).2.1]
  | loop k n =>
    by_cases hc : s.Crashed = true
    · have := Pool.exec_crashed [Action.loop k n] s hc
      simp only [Pool.exec_cons, Pool.exec_nil] at this
      rw [this]
    · rcases hp : s.Procs[k]? with _ | p
      · rw [Pool.step_loop_none s k n hp]
      · rw [(Pool.step_loop_counts s k n p (by simpa using hc) hp).2.1]
  | panic k n => rw [(Pool.step_panic_facts s k n).2.1]

theorem Pool.exec_submitted_length (tr : List Action) :
    ∀ s : Pool, s.Submitted.length ≤ (s.exec tr).Submitted.length := by
  induction tr with
  | nil => intro s; exact le_refl _
  | cons a tr ih =>
    intro s
    rw [Pool.exec_cons]
    exact le_trans (Pool.step_submitted_length s a) (ih (s.step a))

/-! ## Calls of `enqueueJob` -/

theorem init_conserved (n : Int) (acts : List Action) (j : Job) :
    List.count j ((Pool.init (NewWorkerManager n)).exec acts).pending
        + List.count j ((Pool.init (NewWorkerManager n)).exec acts).Began
      = List.count j ((Pool.init (NewWorkerManager n)).exec acts).Submitted := by
  apply Pool.exec_conserved
  have hqueue : ∀ w ∈ (NewWorkerManager n).Workers, w.JobQueue = [] := by
    intro w hw
    obtain ⟨i, hi⟩ := List.getElem?_of_mem hw
    rw [(newWorkerManager_getElem? n i w hi).2]
  rw [Pool.init_pending _ hqueue]
  rfl

theorem count_range_eq (j L : Nat) : List.count j (List.range L) = if j < L then 1 else 0 := by
  rw [List.count_eq_of_nodup (List.nodup_range L)]
  simp [List.mem_range]

theorem reach_step (n : Int) (s : Pool) (a : Action)
    (h : ∃ acts : List Action, s = (Pool.init (NewWorkerManager n)).exec acts) :
    ∃ acts : List Action, s.step a = (Pool.init (NewWorkerManager n)).exec acts := by
  obtain ⟨acts, rfl⟩ := h
  exact ⟨acts ++ [a], by rw [Pool.exec_append]; rfl⟩

/-- In a state of the gateway every job is pending or called, once if it is the job of
a call and never otherwise. -/
theorem Gateway.Inv.conserved {n : Int} {g : Gateway} (h : g.Inv n) (j : Job) :
    List.count j g.pool.pending + List.count j g.pool.Began
      = if j < g.Calls.length then 1 else 0 := by
  obtain ⟨⟨acts, hacts⟩, hsub, _, _, _⟩ := h
  have := init_conserved n acts j
  rw [← hacts, hsub, count_range_eq] at this
  exact this

theorem reach_began_le_one (n : Int) (s : Pool) (L : Nat)
    (h : ∃ acts : List Action, s = (Pool.init (NewWorkerManager n)).exec acts)
    (hsub : s.Submitted = List.range L) (j : Job) : List.count j s.Began ≤ 1 := by
  obtain ⟨acts, hacts⟩ := h
  have := init_conserved n acts j
  rw [← hacts, hsub, count_range_eq] at this
  split_ifs at this <;> omega

/-- A call whose counter and recorder are untouched stays as `Call.Inv` says when its
job is counted as before, or is called for the first time. -/
theorem Call.Inv.of_counts {s s2 : Pool} {i : Nat} {c : Call} (h : Call.Inv s i c)
    (delta : Nat) (hB : List.count i s2.Began = List.count i s.Began + delta)
    (hE : List.count i s2.executing = List.count i s.executing + delta)
    (hle : List.count i s2.Began ≤ 1) (hK : List.count i s.executing ≤ List.count i s.Began)
    (hC : s2.Crashed = s.Crashed) : Call.Inv s2 i c := by
  obtain ⟨hR, hZ, hN⟩ := h
  refine ⟨hR, ?_, ?_⟩
  · intro hwg
    obtain ⟨h1, h2, h3⟩ := hZ hwg
    refine ⟨by omega, ?_, h3⟩
    intro hp
    obtain ⟨h4, h5⟩ := h2 hp
    exact ⟨by omega, h5⟩
  · intro hwg
    obtain ⟨h1, h2, hp, h3⟩ := hN hwg
    refine ⟨h1, h2, hp, ?_⟩
    rcases h3 with h3 | h3 | h3
    · exact Or.inl (by rw [hC]; exact h3)
    · by_cases hd : delta = 0
      · exact Or.inr (Or.inl (by omega))
      · exact Or.inr (Or.inr (by omega))
    · exact Or.inr (Or.inr (by omega))

/-- A call stays as `Call.Inv` says when the process ends. -/
theorem Call.Inv.of_crash {s s2 : Pool} {i : Nat} {c : Call} (h : Call.Inv s i c)
    (hB : List.count i s2.Began = List.count i s.Began)
    (hE : List.count i s2.executing ≤ List.count i s.executing)
    (hC : s2.Crashed = true) : Call.Inv s2 i c := by
  obtain ⟨hR, hZ, hN⟩ := h
  refine ⟨hR, ?_, ?_⟩
  · intro hwg
    obtain ⟨h1, h2, h3⟩ := hZ hwg
    refine ⟨by omega, ?_, h3⟩
    intro hp
    obtain ⟨h4, h5⟩ := h2 hp
    exact ⟨by omega, h5⟩
  · intro hwg
    obtain ⟨h1, h2, hp, _⟩ := hN hwg
    exact ⟨h1, h2, hp, Or.inl hC⟩

theorem Gateway.init_inv (n : Int) : (Gateway.init n).Inv n := by
  refine ⟨⟨[], rfl⟩, rfl, ?_, ?_, ?_⟩
  · intro j
    have : (Pool.init (NewWorkerManager n)).Began = [] := rfl
    have hs := newWorkerManager_started_once n
    have he : (Pool.init (NewWorkerManager n)).executing = [] := by
      apply flatMap_nil_of_forall
      intro p hp
      simp only [Pool.init, List.mem_map] at hp
      obtain ⟨w, hw, rfl⟩ := hp
      simp [(hs w hw).1, LoopPc.executing]
    simp [Gateway.init, he]
  · intro hcr
    simp [Gateway.init, Pool.init] at hcr
  · intro i c hi
    simp [Gateway.init] at hi

theorem Gateway.inv_enqueue {n : Int} {g : Gateway} (h : g.Inv n)
    (hc : g.pool.Crashed = false) (handlerFunc : HandlerFunc) (w : ResponseRecorder)
    (r : HttpRequest) :
    Gateway.Inv n
      { pool := g.pool.AddJob g.Calls.length,
        Calls := g.Calls ++
          [{ handlerFunc := handlerFunc, r := r, w0 := w, w := w, wg := 1, Panicked := false,
             Returned := false }] } := by
  have hcons := h.conserved g.Calls.length
  obtain ⟨hreach, hsub, hK, _, hcalls⟩ := h
  have hstep : g.pool.AddJob g.Calls.length = g.pool.step (Action.addJob g.Calls.length) := by
    unfold Pool.step
    simp [hc]
  refine ⟨?_, ?_, hK, ?_, ?_⟩
  · simp only [hstep]
    exact reach_step n g.pool _ hreach
  · simp [Pool.AddJob, hsub, List.range_succ]
  · intro hcr
    have hcr2 : g.pool.Crashed = true := hcr
    rw [hc] at hcr2
    cases hcr2
  · intro i c hi
    simp only at hi
    by_cases hlt : i < g.Calls.length
    · rw [List.getElem?_append_left hlt] at hi
      exact hcalls i c hi
    · rw [List.getElem?_append_right (by omega)] at hi
      have hi0 : i - g.Calls.length = 0 := by
        by_contra hne
        rw [List.getElem?_eq_none (by simp; omega)] at hi
        cases hi
      rw [hi0] at hi
      simp only [List.getElem?_cons_zero, Option.some.injEq] at hi
      subst hi
      have hi2 : i = g.Calls.length := by omega
      subst hi2
      simp only [lt_self_iff_false, if_false] at hcons
      refine ⟨by simp, by simp, ?_⟩
      intro _
      refine ⟨rfl, rfl, rfl, Or.inr (Or.inl ?_)⟩
      show List.count g.Calls.length g.pool.Began = 0
      omega

theorem Gateway.inv_dispatch {n : Int} {g : Gateway} (h : g.Inv n)
    (hc : g.pool.Crashed = false) (d : Nat) :
    Gateway.Inv n { g with pool := g.pool.step (Action.dispatch d) } := by
  obtain ⟨hreach, hsub, hK, _, hcalls⟩ := h
  obtain ⟨hB, hS, hC, hE⟩ := Pool.step_dispatch_facts g.pool d
  refine ⟨reach_step n g.pool (Action.dispatch d) hreach, by simp only [hS, hsub], ?_, ?_, ?_⟩
  · intro j
    simp only [hB, hE]
    exact hK j
  · intro hcr
    have hcr2 : (g.pool.step (Action.dispatch d)).Crashed = true := hcr
    rw [hC, hc] at hcr2
    cases hcr2
  · intro i c hi
    have hinv := hcalls i c hi
    unfold Call.Inv at hinv ⊢
    simp only [hB, hE, hC]
    exact hinv

/-- The step in which the panic of a closure leaves the goroutine and ends the
process. -/
theorem Gateway.inv_crash {n : Int} {g : Gateway} (h : g.Inv n) (k m : Nat)
    (hw : ∃ (i : Nat) (c : Call), g.Calls[i]? = some c ∧ c.Panicked = true) :
    Gateway.Inv n { g with pool := g.pool.step (Action.panic k m) } := by
  obtain ⟨hB, hS, hE, hor⟩ := Pool.step_panic_facts g.pool k m
  rcases hor with hsame | hcr
  · rw [hsame]
    exact h
  · obtain ⟨hreach, hsub, hK, _, hcalls⟩ := h
    refine ⟨reach_step n g.pool (Action.panic k m) hreach, by simp only [hS, hsub], ?_,
      fun _ => hw, ?_⟩
    · intro j
      simp only [hB]
      exact le_trans (hE j) (hK j)
    · intro i c hi
      exact (hcalls i c hi).of_crash (by simp only [hB]) (hE i) hcr

theorem Gateway.inv_wake {n : Int} {g : Gateway} (h : g.Inv n)
    (hc : g.pool.Crashed = false) (i : Nat) (c : Call)
    (hi : g.Calls[i]? = some c) (hwg : c.wg = 0) :
    Gateway.Inv n { g with Calls := g.Calls.set i { c with Returned := true } } := by
  obtain ⟨hreach, hsub, hK, _, hcalls⟩ := h
  refine ⟨hreach, by simp only [List.length_set, hsub], hK, ?_, ?_⟩
  · intro hcr
    have hcr2 : g.pool.Crashed = true := hcr
    rw [hc] at hcr2
    cases hcr2
  · intro i2 c2 hi2
    simp only at hi2
    by_cases hii : i = i2
    · subst hii
      have hlt := (List.getElem?_eq_some_iff.1 hi).1
      rw [List.getElem?_set_eq_of_lt _ hlt] at hi2
      simp only [Option.some.injEq] at hi2
      subst hi2
      obtain ⟨_, hZ, hN⟩ := hcalls i c hi
      exact ⟨fun _ => hwg, hZ, hN⟩
    · rw [List.getElem?_set_ne hii] at hi2
      exact hcalls i2 c2 hi2

theorem Gateway.inv_loop_same {n : Int} {g : Gateway} (h : g.Inv n)
    (hc : g.pool.Crashed = false) (k m : Nat) (p : WorkerProc) (hp : g.pool.Procs[k]? = some p)
    (hleave : ∀ (i : Nat) (c : Call), g.Calls[i]? = some c → List.count i (p.leaving m) = 0) :
    Gateway.Inv n { g with pool := g.pool.step (Action.loop k m) } := by
  obtain ⟨hreach, hsub, hK, _, hcalls⟩ := h
  obtain ⟨hB, hS, hC, hE⟩ := Pool.step_loop_counts g.pool k m p hc hp
  have hreach2 := reach_step n g.pool (Action.loop k m) hreach
  have hsub2 : (g.pool.step (Action.loop k m)).Submitted = List.range g.Calls.length := by
    rw [hS, hsub]
  have hle := reach_began_le_one n _ _ hreach2 hsub2
  refine ⟨hreach2, hsub2, ?_, ?_, ?_⟩
  · intro j
    have := hE j
    have := hK j
    simp only [hB, List.count_append]
    omega
  · intro hcr
    have hcr2 : (g.pool.step (Action.loop k m)).Crashed = true := hcr
    rw [hC] at hcr2
    cases hcr2
  · intro i c hi
    have h0 := hleave i c hi
    have h1 := hE i
    have h2 := hle i
    refine (hcalls i c hi).of_counts (List.count i (p.loopStep m).2) ?_ ?_ h2 (hK i) ?_
    · rw [hB, List.count_append]
    · show List.count i (g.pool.step (Action.loop k m)).executing = _
      omega
    · show (g.pool.step (Action.loop k m)).Crashed = g.pool.Crashed
      rw [hC, hc]

/-- A closure that is being executed and has not panicked has its counter at 1 and its
recorder as it was passed, and has been called once. -/
theorem Gateway.Inv.running {n : Int} {g : Gateway} (h : g.Inv n)
    (hc : g.pool.Crashed = false) (k m : Nat) (p : WorkerProc) (job : Job) (c : Call)
    (hp : g.pool.Procs[k]? = some p) (hl : p.Loops[m]? = some (LoopPc.running job))
    (hjob : g.Calls[job]? = some c) (hpf : c.Panicked = false) :
    c.wg = 1 ∧ c.w = c.w0 ∧ List.count job g.pool.Began = 1 ∧
      List.count job g.pool.executing = 1 := by
  obtain ⟨hreach, hsub, hK, _, hcalls⟩ := h
  have hE := (Pool.step_loop_counts g.pool k m p hc hp).2.2.2 job
  have hleave : p.leaving m = [job] := by simp [WorkerProc.leaving, hl]
  have hdelta : (p.loopStep m).2 = [] := by simp [WorkerProc.loopStep, hl]
  simp only [hleave, hdelta, List.count_nil, Nat.add_zero, List.count_cons_self] at hE
  have hk := hK job
  have hle := reach_began_le_one n g.pool _ hreach hsub job
  obtain ⟨_, hZ, hN⟩ := hcalls job c hjob
  have hwg : c.wg ≠ 0 := by
    intro h0
    obtain ⟨_, h2, _⟩ := hZ h0
    have := (h2 hpf).1
    omega
  obtain ⟨h1, h2, _, _⟩ := hN hwg
  exact ⟨h1, h2, by omega, by omega⟩

/-- The step in which the closure of a call returns: the handler has left its response
in `w` and the deferred `wg.Done()` has brought the counter to zero. -/
theorem Gateway.inv_loop_done {n : Int} {g : Gateway} (h : g.Inv n)
    (hc : g.pool.Crashed = false) (k m : Nat) (p : WorkerProc) (job : Job) (c : Call)
    (w1 : ResponseRecorder)
    (hp : g.pool.Procs[k]? = some p) (hl : p.Loops[m]? = some (LoopPc.running job))
    (hjob : g.Calls[job]? = some c) (hpf : c.Panicked = false)
    (hout : c.handlerFunc c.w c.r = Outcome.returns w1) :
    Gateway.Inv n
      { pool := g.pool.step (Action.loop k m),
        Calls := g.Calls.set job { c with w := w1, wg := c.wg - 1 } } := by
  obtain ⟨hwg1, hw0, hb1, he1⟩ := h.running hc k m p job c hp hl hjob hpf
  obtain ⟨hreach, hsub, hK, _, hcalls⟩ := h
  obtain ⟨hB, hS, hC, hE⟩ := Pool.step_loop_counts g.pool k m p hc hp
  have hleave : p.leaving m = [job] := by simp [WorkerProc.leaving, hl]
  have hdelta : (p.loopStep m).2 = [] := by simp [WorkerProc.loopStep, hl]
  rw [hdelta, List.append_nil] at hB
  simp only [hleave, hdelta, List.count_nil, Nat.add_zero] at hE
  have hreach2 := reach_step n g.pool (Action.loop k m) hreach
  have hsub2 : (g.pool.step (Action.loop k m)).Submitted = List.range g.Calls.length := by
    rw [hS, hsub]
  refine ⟨hreach2, by simp only [List.length_set]; exact hsub2, ?_, ?_, ?_⟩
  · intro j
    have := hE j
    have := hK j
    simp only [hB]
    omega
  · intro hcr
    have hcr2 : (g.pool.step (Action.loop k m)).Crashed = true := hcr
    rw [hC] at hcr2
    cases hcr2
  · intro i ci hi
    simp only at hi
    by_cases hii : job = i
    · subst hii
      have hlt := (List.getElem?_eq_some_iff.1 hjob).1
      rw [List.getElem?_set_eq_of_lt _ hlt] at hi
      simp only [Option.some.injEq] at hi
      subst hi
      have he := hE job
      simp only [List.count_cons_self, List.count_nil] at he
      refine ⟨fun _ => by simp only; omega, fun _ => ⟨?_, fun _ => ⟨?_, ?_⟩, fun hpt => ?_⟩,
        fun hne => ?_⟩
      · show List.count job (g.pool.step (Action.loop k m)).Began = 1
        rw [hB]
        exact hb1
      · show List.count job (g.pool.step (Action.loop k m)).executing = 0
        omega
      · show c.handlerFunc c.w0 c.r = Outcome.returns w1
        rw [← hw0]
        exact hout
      · exfalso
        have hpt2 : c.Panicked = true := hpt
        rw [hpf] at hpt2
        cases hpt2
      · exfalso
        apply hne
        show c.wg - 1 = 0
        omega
    · rw [List.getElem?_set_ne hii] at hi
      have he := hE i
      have hne : List.count i [job] = 0 := by
        simp only [List.count_cons, List.count_nil]
        have : (job == i) = false := by simpa using hii
        simp [this]
      refine (hcalls i ci hi).of_counts 0 ?_ ?_ ?_ (hK i) ?_
      · show List.count i (g.pool.step (Action.loop k m)).Began = _
        rw [hB]
        rfl
      · show List.count i (g.pool.step (Action.loop k m)).executing = _
        omega
      · show List.count i (g.pool.step (Action.loop k m)).Began ≤ 1
        exact reach_began_le_one n _ _ hreach2 hsub2 i
      · show (g.pool.step (Action.loop k m)).Crashed = g.pool.Crashed
        rw [hC, hc]

/-- The step in which the handler of a call panics: the deferred `wg.Done()` brings
the counter to zero while the closure is still being executed. -/
theorem Gateway.inv_loop_unwind {n : Int} {g : Gateway} (h : g.Inv n)
    (hc : g.pool.Crashed = false) (k m : Nat) (p : WorkerProc) (job : Job) (c : Call)
    (w1 : ResponseRecorder)
    (hp : g.pool.Procs[k]? = some p) (hl : p.Loops[m]? = some (LoopPc.running job))
    (hjob : g.Calls[job]? = some c) (hpf : c.Panicked = false)
    (hout : c.handlerFunc c.w c.r = Outcome.panics w1) :
    Gateway.Inv n
      { g with Calls := g.Calls.set job { c with w := w1, wg := c.wg - 1, Panicked := true } } := by
  obtain ⟨hwg1, hw0, hb1, he1⟩ := h.running hc k m p job c hp hl hjob hpf
  obtain ⟨hreach, hsub, hK, _, hcalls⟩ := h
  refine ⟨hreach, by simp only [List.length_set]; exact hsub, hK, ?_, ?_⟩
  · intro hcr
    have hcr2 : g.pool.Crashed = true := hcr
    rw [hc] at hcr2
    cases hcr2
  · intro i ci hi
    simp only at hi
    by_cases hii : job = i
    · subst hii
      have hlt := (List.getElem?_eq_some_iff.1 hjob).1
      rw [List.getElem?_set_eq_of_lt _ hlt] at hi
      simp only [Option.some.injEq] at hi
      subst hi
      refine ⟨fun _ => by simp only; omega, fun _ => ⟨hb1, fun hpt => ?_, fun _ => ?_⟩,
        fun hne => ?_⟩
      · exfalso
        simp at hpt
      · show c.handlerFunc c.w0 c.r = Outcome.panics w1
        rw [← hw0]
        exact hout
      · exfalso
        apply hne
        show c.wg - 1 = 0
        omega
    · rw [List.getElem?_set_ne hii] at hi
      exact hcalls i ci hi

theorem Gateway.inv_loop {n : Int} {g : Gateway} (h : g.Inv n)
    (hc : g.pool.Crashed = false) (k m : Nat) : (g.loopStep k m).Inv n := by
  unfold Gateway.loopStep
  rcases hp : g.pool.Procs[k]? with _ | p
  · exact h
  · simp only
    have hother : (∀ job : Job, p.Loops[m]? ≠ some (LoopPc.running job)) →
        Gateway.Inv n { g with pool := g.pool.step (Action.loop k m) } := by
      intro hno
      apply Gateway.inv_loop_same h hc k m p hp
      intro i c _
      unfold WorkerProc.leaving
      split
      · next job hl => exact absurd hl (hno job)
      · rfl
    split
    · next job hl =>
      split
      · next hjob =>
        apply Gateway.inv_loop_same h hc k m p hp
        intro i c hi
        have hne : job ≠ i := by
          intro he
          subst he
          rw [hjob] at hi
          cases hi
        have : (job == i) = false := by simpa using hne
        simp [WorkerProc.leaving, hl, List.count_cons, this]
      · next c hjob =>
        split
        · next hpt => exact Gateway.inv_crash h k m ⟨job, c, hjob, hpt⟩
        · next hpt =>
          have hpf : c.Panicked = false := by simpa using hpt
          split
          · next w1 hout =>
            split
            · next hwg =>
              exfalso
              have := (h.running hc k m p job c hp hl hjob hpf).1
              omega
            · exact Gateway.inv_loop_done h hc k m p job c w1 hp hl hjob hpf hout
          · next w1 hout =>
            exact Gateway.inv_loop_unwind h hc k m p job c w1 hp hl hjob hpf hout
    · next hno =>
      apply hother
      intro job hl
      exact hno job hl

/-- Every event keeps what `Gateway.Inv` says. -/
theorem Gateway.step_inv {n : Int} {g : Gateway} (h : g.Inv n) (e : Event) :
    (g.step e).Inv n := by
  unfold Gateway.step
  split
  · exact h
  · next hc =>
    have hc2 : g.pool.Crashed = false := by simpa using hc
    cases e with
    | enqueue handlerFunc w r => exact Gateway.inv_enqueue h hc2 handlerFunc w r
    | dispatch d => exact Gateway.inv_dispatch h hc2 d
    | loop k m => exact Gateway.inv_loop h hc2 k m
    | wake i =>
      simp only
      split
      · exact h
      · next c hi =>
        split
        · next hwg => exact Gateway.inv_wake h hc2 i c hi hwg
        · exact h

theorem Gateway.exec_empty (g : Gateway) : g.exec [] = g := rfl

theorem Gateway.exec_first (g : Gateway) (e : Event) (tr : List Event) :
    g.exec (e :: tr) = (g.step e).exec tr := rfl

theorem Gateway.exec_concat (g : Gateway) (tr1 tr2 : List Event) :
    g.exec (tr1 ++ tr2) = (g.exec tr1).exec tr2 := by
  simp [Gateway.exec, List.foldl_append]

theorem Gateway.exec_inv {n : Int} (tr : List Event) :
    ∀ g : Gateway, g.Inv n → (g.exec tr).Inv n := by
  induction tr with
  | nil => intro g h; exact h
  | cons e tr ih =>
    intro g h
    rw [Gateway.exec_first]
    exact ih (g.step e) (Gateway.step_inv h e)

/-! ## Every call of `enqueueJob` can return -/

theorem reach_run_to_completion (n : Int) (hn : 1 ≤ n) (acts : List Action)
    (hc : ((Pool.init (NewWorkerManager n)).exec acts).Crashed = false) :
    ∃ tr : List Action,
      (((Pool.init (NewWorkerManager n)).exec acts).exec tr).Crashed = false ∧
      (((Pool.init (NewWorkerManager n)).exec acts).exec tr).Submitted
        = ((Pool.init (NewWorkerManager n)).exec acts).Submitted ∧
      (((Pool.init (NewWorkerManager n)).exec acts).exec tr).pending = [] ∧
      (((Pool.init (NewWorkerManager n)).exec acts).exec tr).executing = [] := by
  have hstarted := newWorkerManager_started_once n
  have hsingle := Pool.exec_single acts _ (Pool.init_single _ hstarted)
  have hnp := Pool.exec_noPanic acts (Pool.init (NewWorkerManager n))
    (by
      intro _ p hp job hmem
      obtain ⟨pc, hl, _⟩ := Pool.init_single _ hstarted p hp
      simp only [Pool.init, List.mem_map] at hp
      obtain ⟨w, hw, rfl⟩ := hp
      simp [(hstarted w hw).1] at hmem) hc
  have hlen : ((Pool.init (NewWorkerManager n)).exec acts).Procs.length = n.toNat := by
    rw [Pool.exec_length]
    simp [Pool.init, newWorkerManager_workers_eq]
  have hvalid := Pool.exec_enterValid acts (Pool.init (NewWorkerManager n))
    (by intro disp hd; simp [Pool.init] at hd)
  exact run_to_completion _ hc hsingle hnp (by omega) hvalid

theorem Pool.step_of_crashed (s : Pool) (a : Action) (h : s.Crashed = true) : s.step a = s := by
  unfold Pool.step
  simp [h]

/-- When the handler of every call returns, no closure is unwinding a panic. -/
theorem Gateway.Inv.not_panicked {n : Int} {g : Gateway} (h : g.Inv n)
    (hret : ∀ o ∈ g.Calls.map Call.outcome, ∃ w : ResponseRecorder, o = Outcome.returns w)
    (i : Nat) (c : Call) (hi : g.Calls[i]? = some c) : c.Panicked = false := by
  obtain ⟨_, hZ, hN⟩ := h.2.2.2.2 i c hi
  by_cases hwg : c.wg = 0
  · by_contra hpt
    have hpt2 : c.Panicked = true := by simpa using hpt
    have hout := (hZ hwg).2.2 hpt2
    obtain ⟨w, hw⟩ := hret c.outcome (List.mem_map.2 ⟨c, List.getElem?_mem hi, rfl⟩)
    rw [hw] at hout
    cases hout
  · exact (hN hwg).2.2.1

/-- When the handler of every call returns, the process does not end. -/
theorem Gateway.Inv.not_crashed {n : Int} {g : Gateway} (h : g.Inv n)
    (hret : ∀ o ∈ g.Calls.map Call.outcome, ∃ w : ResponseRecorder, o = Outcome.returns w) :
    g.pool.Crashed = false := by
  by_contra hcr
  have hcr2 : g.pool.Crashed = true := by simpa using hcr
  obtain ⟨i, c, hi, hpt⟩ := h.2.2.2.1 hcr2
  rw [h.not_panicked hret i c hi] at hpt
  cases hpt

/-- A goroutine of a worker leaves the handlers and the arguments of the calls as they
are. -/
theorem Gateway.step_loop_outcomes (g : Gateway) (k m : Nat) :
    (g.step (Event.loop k m)).Calls.map Call.outcome = g.Calls.map Call.outcome := by
  unfold Gateway.step
  split
  · rfl
  · simp only [Gateway.loopStep]
    split
    · rfl
    · split
      · split
        · rfl
        · next c hjob =>
          split
          · rfl
          · split
            · split
              · exact map_set_of_eq Call.outcome g.Calls _ _ c hjob rfl
              · exact map_set_of_eq Call.outcome g.Calls _ _ c hjob rfl
            · exact map_set_of_eq Call.outcome g.Calls _ _ c hjob rfl
      · rfl

/-- When the handler of every call returns, a goroutine of a worker does to the pool
what it does in the pool alone. -/
theorem Gateway.step_loop_pool {n : Int} {g : Gateway} (h : g.Inv n)
    (hret : ∀ o ∈ g.Calls.map Call.outcome, ∃ w : ResponseRecorder, o = Outcome.returns w)
    (k m : Nat) :
    (g.step (Event.loop k m)).pool = g.pool.step (Action.loop k m) := by
  have hc2 := h.not_crashed hret
  unfold Gateway.step
  simp only [hc2, Bool.false_eq_true, if_false]
  unfold Gateway.loopStep
  rcases hp : g.pool.Procs[k]? with _ | p
  · simp only
    rw [Pool.step_loop_none _ _ _ hp]
  · simp only
    split
    · next job hl =>
      split
      · rfl
      · next c hjob =>
        have hpf := h.not_panicked hret job c hjob
        obtain ⟨hwg1, hw0, _, _⟩ := h.running hc2 k m p job c hp hl hjob hpf
        obtain ⟨w, hw⟩ := hret c.outcome (List.mem_map.2 ⟨c, List.getElem?_mem hjob, rfl⟩)
        have hout : c.handlerFunc c.w c.r = Outcome.returns w := by
          rw [hw0]
          exact hw
        simp only [hpf, Bool.false_eq_true, if_false, hout]
        split
        · next hwg => omega
        · rfl
    · rfl

/-- The arguments of a call stay as they were passed. -/
theorem Gateway.step_call_fixed (g : Gateway) (e : Event) (i : Nat) (c : Call)
    (hi : g.Calls[i]? = some c) :
    ∃ c2 : Call, (g.step e).Calls[i]? = some c2 ∧ c2.handlerFunc = c.handlerFunc ∧
      c2.w0 = c.w0 ∧ c2.r = c.r := by
  have hlt := (List.getElem?_eq_some_iff.1 hi).1
  have hset : ∀ (j : Nat) (cj cj2 : Call), g.Calls[j]? = some cj →
      cj2.handlerFunc = cj.handlerFunc → cj2.w0 = cj.w0 → cj2.r = cj.r →
      ∃ c2 : Call, (g.Calls.set j cj2)[i]? = some c2 ∧ c2.handlerFunc = c.handlerFunc ∧
        c2.w0 = c.w0 ∧ c2.r = c.r := by
    intro j cj cj2 hj h1 h2 h3
    by_cases hji : j = i
    · subst hji
      rw [hi] at hj
      cases hj
      exact ⟨cj2, List.getElem?_set_eq_of_lt _ hlt, h1, h2, h3⟩
    · exact ⟨c, by rw [List.getElem?_set_ne hji]; exact hi, rfl, rfl, rfl⟩
  unfold Gateway.step
  split
  · exact ⟨c, hi, rfl, rfl, rfl⟩
  · cases e with
    | enqueue handlerFunc w r =>
      exact ⟨c, by simp only; rw [List.getElem?_append_left hlt]; exact hi, rfl, rfl, rfl⟩
    | dispatch d => exact ⟨c, hi, rfl, rfl, rfl⟩
    | wake j =>
      simp only
      split
      · exact ⟨c, hi, rfl, rfl, rfl⟩
      · next cj hj =>
        split
        · exact hset j cj _ hj rfl rfl rfl
        · exact ⟨c, hi, rfl, rfl, rfl⟩
    | loop k m =>
      simp only [Gateway.loopStep]
      split
      · exact ⟨c, hi, rfl, rfl, rfl⟩
      · split
        · split
          · exact ⟨c, hi, rfl, rfl, rfl⟩
          · next cj hj =>
            split
            · exact ⟨c, hi, rfl, rfl, rfl⟩
            · split
              · split
                · exact hset _ cj _ hj rfl rfl rfl
                · exact hset _ cj _ hj rfl rfl rfl
              · exact hset _ cj _ hj rfl rfl rfl
        · exact ⟨c, hi, rfl, rfl, rfl⟩

theorem Gateway.exec_call_fixed (tr : List Event) :
    ∀ (g : Gateway) (i : Nat) (c : Call), g.Calls[i]? = some c →
      ∃ c2 : Call, (g.exec tr).Calls[i]? = some c2 ∧ c2.handlerFunc = c.handlerFunc ∧
        c2.w0 = c.w0 ∧ c2.r = c.r := by
  induction tr with
  | nil => intro g i c hi; exact ⟨c, hi, rfl, rfl, rfl⟩
  | cons e tr ih =>
    intro g i c hi
    obtain ⟨c1, h1, ha, hb, hd⟩ := Gateway.step_call_fixed g e i c hi
    obtain ⟨c2, h2, ha2, hb2, hd2⟩ := ih (g.step e) i c1 h1
    exact ⟨c2, h2, ha2.trans ha, hb2.trans hb, hd2.trans hd⟩

/-- When the handler of every call returns, the gateway can follow every execution of
its pool in which no job is submitted and no job panics. -/
theorem Gateway.follow {n : Int} (tr : List Action) :
    ∀ g : Gateway, g.Inv n →
      (∀ o ∈ g.Calls.map Call.outcome, ∃ w : ResponseRecorder, o = Outcome.returns w) →
      (g.pool.exec tr).Crashed = false →
      (g.pool.exec tr).Submitted = g.pool.Submitted →
      ∃ evs : List Event, (g.exec evs).pool = g.pool.exec tr ∧
        (g.exec evs).Calls.map Call.outcome = g.Calls.map Call.outcome := by
  induction tr with
  | nil => intro g _ _ _ _; exact ⟨[], rfl, rfl⟩
  | cons a tr ih =>
    intro g h hret hfin hsub
    rw [Pool.exec_cons] at hfin hsub
    have hc : g.pool.Crashed = false := h.not_crashed hret
    have hlen1 := Pool.step_submitted_length g.pool a
    have hlen2 := Pool.exec_submitted_length tr (g.pool.step a)
    rw [hsub] at hlen2
    have hvia : ∀ e : Event, (g.step e).pool = g.pool.step a →
        (g.step e).Calls.map Call.outcome = g.Calls.map Call.outcome →
        (g.pool.step a).Submitted = g.pool.Submitted →
        ∃ evs : List Event, (g.exec evs).pool = (g.pool.step a).exec tr ∧
          (g.exec evs).Calls.map Call.outcome = g.Calls.map Call.outcome := by
      intro e hpool hcalls hs
      obtain ⟨evs, hevs, hout⟩ := ih (g.step e) (Gateway.step_inv h e)
        (by rw [hcalls]; exact hret) (by rw [hpool]; exact hfin) (by rw [hpool, hsub, hs])
      exact ⟨e :: evs, by rw [Gateway.exec_first, hevs, hpool],
        by rw [Gateway.exec_first, hout, hcalls]⟩
    rw [Pool.exec_cons]
    cases a with
    | addJob job =>
      exfalso
      have : (g.pool.step (Action.addJob job)).Submitted = g.pool.Submitted ++ [job] := by
        unfold Pool.step
        simp [hc, Pool.AddJob]
      rw [this] at hlen2
      simp at hlen2
    | workerAddJob k job =>
      rcases hp : g.pool.Procs[k]? with _ | p
      · have hs : g.pool.step (Action.workerAddJob k job) = g.pool := by
          unfold Pool.step
          simp [hc, hp]
        rw [hs] at hfin hsub ⊢
        exact ih g h hret hfin hsub
      · exfalso
        have : (g.pool.step (Action.workerAddJob k job)).Submitted
            = g.pool.Submitted ++ [job] := by
          unfold Pool.step
          simp [hc, hp]
        rw [this] at hlen2
        simp at hlen2
    | dispatch d =>
      apply hvia (Event.dispatch d)
      · unfold Gateway.step
        simp [hc]
      · unfold Gateway.step
        simp [hc]
      · exact (Pool.step_dispatch_facts g.pool d).2.1
    | loop k m =>
      apply hvia (Event.loop k m) (Gateway.step_loop_pool h hret k m)
        (Gateway.step_loop_outcomes g k m)
      rcases hp : g.pool.Procs[k]? with _ | p
      · rw [Pool.step_loop_none _ _ _ hp]
      · exact (Pool.step_loop_counts g.pool k m p hc hp).2.1
    | panic k m =>
      rcases (Pool.step_panic_facts g.pool k m).2.2.2 with hs | hcr
      · rw [hs] at hfin hsub ⊢
        exact ih g h hret hfin hsub
      · exfalso
        rw [Pool.exec_crashed _ _ hcr] at hfin
        rw [hfin] at hcr
        cases hcr

/-- When the handler of every call returns, the goroutines can be run from every state
of the gateway until a given call has returned. -/
theorem Gateway.can_return {n : Int} (hn : 1 ≤ n) {g : Gateway} (h : g.Inv n)
    (hret : ∀ o ∈ g.Calls.map Call.outcome, ∃ w : ResponseRecorder, o = Outcome.returns w)
    (i : Nat) (c : Call) (hi : g.Calls[i]? = some c) :
    ∃ (evs : List Event) (c2 : Call), (g.exec evs).Calls[i]? = some c2 ∧
      c2.Returned = true ∧ c2.handlerFunc = c.handlerFunc ∧ c2.w0 = c.w0 ∧ c2.r = c.r := by
  have hc := h.not_crashed hret
  obtain ⟨acts, hacts⟩ := h.1
  have hc1 : ((Pool.init (NewWorkerManager n)).exec acts).Crashed = false := by
    rw [← hacts]; exact hc
  obtain ⟨tr, h1, h2, h3, h4⟩ := reach_run_to_completion n hn acts hc1
  rw [← hacts] at h1 h2 h3 h4
  obtain ⟨evs, hevs, _⟩ := Gateway.follow tr g h hret h1 h2
  have hinv := Gateway.exec_inv evs g h
  obtain ⟨c1, hi1, ha, hb, hd⟩ := Gateway.exec_call_fixed evs g i c hi
  have hlt := (List.getElem?_eq_some_iff.1 hi1).1
  have hcons := hinv.conserved i
  rw [hevs, h3] at hcons
  simp only [hlt, if_true, List.count_nil, Nat.zero_add] at hcons
  obtain ⟨_, hZ, hN⟩ := hinv.2.2.2.2 i c1 hi1
  have hwg : c1.wg = 0 := by
    by_contra hne
    obtain ⟨_, _, _, hor⟩ := hN hne
    rw [hevs] at hor
    rcases hor with hor | hor | hor
    · rw [h1] at hor
      cases hor
    · omega
    · rw [h4] at hor
      simp at hor
  have hcr : (g.exec evs).pool.Crashed = false := by rw [hevs]; exact h1
  refine ⟨evs ++ [Event.wake i], { c1 with Returned := true }, ?_, rfl, ha, hb, hd⟩
  rw [Gateway.exec_concat, Gateway.exec_first, Gateway.exec_empty]
  unfold Gateway.step
  simp only [hcr, Bool.false_eq_true, if_false, hi1, hwg, if_true]
  exact List.getElem?_set_eq_of_lt _ hlt

/-- C21, an execution on which the claim fails: on an idle pool of one worker
`enqueueJob(panicHandler)(w, r)` is called, the closure is dispatched and called, and
the handler panics. The deferred `wg.Done()` runs while the panic unwinds, and
`wg.Wait()` returns: the call of `enqueueJob` has returned although the handler has
not returned, the closure is still being executed and the process has not ended
yet. -/
theorem enqueueJob_returns_after_handler_panic :
    (((Gateway.init 1).step (Event.enqueue panicHandler NewRecorder plainGet)).exec
        oneCallRun).Calls.map (fun c => (c.Returned, c.Panicked, c.w))
      = [(true, true, NewRecorder)] ∧
      (((Gateway.init 1).step (Event.enqueue panicHandler NewRecorder plainGet)).exec
        oneCallRun).pool.executing = [0] ∧
      (((Gateway.init 1).step (Event.enqueue panicHandler NewRecorder plainGet)).exec
        oneCallRun).pool.Crashed = false ∧
      panicHandler NewRecorder plainGet = Outcome.panics NewRecorder := by
  decide

/-- C21, amended: in the gateway of a pool of at least one worker, take any call
`enqueueJob(handlerFunc)(w, r)`, made in any state reached by earlier calls, and any
execution after it. The handler of the call is called at most once. If
`handlerFunc(w, r)` returns and does not panic, then once the call of `enqueueJob` has
returned, the handler has been called exactly once and has returned, and `w` holds the
response that `handlerFunc(w, r)` leaves when it is called directly. And if the
handler of every call made so far returns, the process has not ended and the
goroutines can be run on until the call has returned, with that response in `w`. -/
theorem enqueueJob_runs_handler_once (n : Int) (hn : 1 ≤ n) (tr1 : List Event)
    (handlerFunc : HandlerFunc) (w : ResponseRecorder) (r : HttpRequest) (tr2 : List Event)
    (g : Gateway) (hg : g = (Gateway.init n).exec tr1) (hc : g.pool.Crashed = false)
    (g2 : Gateway) (hg2 : g2 = (g.step (Event.enqueue handlerFunc w r)).exec tr2) :
    ∃ c : Call, g2.Calls[g.Calls.length]? = some c ∧
      c.handlerFunc = handlerFunc ∧ c.w0 = w ∧ c.r = r ∧
      List.count g.Calls.length g2.pool.Began ≤ 1 ∧
      (∀ w1 : ResponseRecorder, handlerFunc w r = Outcome.returns w1 → c.Returned = true →
        List.count g.Calls.length g2.pool.Began = 1 ∧
        List.count g.Calls.length g2.pool.executing = 0 ∧
        c.w = w1) ∧
      ((∀ c2 ∈ g2.Calls, ∃ w2 : ResponseRecorder,
          c2.handlerFunc c2.w0 c2.r = Outcome.returns w2) →
        g2.pool.Crashed = false ∧
        ∃ (tr3 : List Event) (c3 : Call), (g2.exec tr3).Calls[g.Calls.length]? = some c3 ∧
          c3.Returned = true ∧ handlerFunc w r = Outcome.returns c3.w) := by
  have hinv : g.Inv n := by
    rw [hg]
    exact Gateway.exec_inv tr1 _ (Gateway.init_inv n)
  have hinv2 : g2.Inv n := by
    rw [hg2]
    exact Gateway.exec_inv tr2 _ (Gateway.step_inv hinv _)
  have hcall : (g.step (Event.enqueue handlerFunc w r)).Calls[g.Calls.length]?
      = some { handlerFunc := handlerFunc, r := r, w0 := w, w := w, wg := 1,
               Panicked := false, Returned := false } := by
    unfold Gateway.step
    simp [hc]
  obtain ⟨c, hi, ha, hb, hd⟩ := Gateway.exec_call_fixed tr2 _ _ _ hcall
  rw [← hg2] at hi
  simp only at ha hb hd
  have hoc : c.outcome = handlerFunc w r := by
    unfold Call.outcome
    rw [ha, hb, hd]
  obtain ⟨hR, hZ, _⟩ := hinv2.2.2.2.2 _ c hi
  refine ⟨c, hi, ha, hb, hd, reach_began_le_one n g2.pool _ hinv2.1 hinv2.2.1 _, ?_, ?_⟩
  · intro w1 hw1 hret
    obtain ⟨h1, h2, h3⟩ := hZ (hR hret)
    have hpf : c.Panicked = false := by
      by_contra hpt
      have hout := h3 (by simpa using hpt)
      rw [hoc, hw1] at hout
      cases hout
    obtain ⟨h4, h5⟩ := h2 hpf
    rw [hoc, hw1] at h5
    cases h5
    exact ⟨h1, h4, rfl⟩
  · intro hall
    have hret : ∀ o ∈ g2.Calls.map Call.outcome,
        ∃ w2 : ResponseRecorder, o = Outcome.returns w2 := by
      intro o ho
      obtain ⟨c2, hc2, rfl⟩ := List.mem_map.1 ho
      exact hall c2 hc2
    refine ⟨hinv2.not_crashed hret, ?_⟩
    obtain ⟨tr3, c3, hi3, hret3, ha3, hb3, hd3⟩ := Gateway.can_return hn hinv2 hret _ c hi
    have hinv3 := Gateway.exec_inv tr3 g2 hinv2
    obtain ⟨hR3, hZ3, _⟩ := hinv3.2.2.2.2 _ c3 hi3
    obtain ⟨_, h2, h3⟩ := hZ3 (hR3 hret3)
    have hoc3 : c3.outcome = handlerFunc w r := by
      unfold Call.outcome
      rw [ha3, hb3, hd3, ha, hb, hd]
    obtain ⟨w2, hw2⟩ := hall c (List.getElem?_mem hi)
    have hw2b : handlerFunc w r = Outcome.returns w2 := by
      rw [← hoc]
      exact hw2
    have hpf : c3.Panicked = false := by
      by_contra hpt
      have hout := h3 (by simpa using hpt)
      rw [hoc3, hw2b] at hout
      cases hout
    have h5 := (h2 hpf).2
    rw [hoc3] at h5
    exact ⟨tr3, c3, hi3, hret3, h5⟩

/-- One call on an idle pool of one worker, run until it has returned. -/
theorem enqueueJob_runs_handler_once_witness :
    (1 : Int) ≤ 1 ∧ (Gateway.init 1).pool.Crashed = false ∧
      (((Gateway.init 1).step (Event.enqueue okHandler NewRecorder plainGet)).exec
          oneCallRun).Calls.map (fun c => (c.Returned, c.Panicked, c.w))
        = [(true, false, { Code := 200, HeaderMap := [], Body := "ok" })] ∧
      okHandler NewRecorder plainGet
        = Outcome.returns { Code := 200, HeaderMap := [], Body := "ok" } ∧
      ∃ c : Call,
        (((Gateway.init 1).step (Event.enqueue okHandler NewRecorder plainGet)).exec
            oneCallRun).Calls[(Gateway.init 1).Calls.length]? = some c ∧
          c.handlerFunc = okHandler ∧ c.w0 = NewRecorder ∧ c.r = plainGet ∧
          List.count (Gateway.init 1).Calls.length
            (((Gateway.init 1).step (Event.enqueue okHandler NewRecorder plainGet)).exec
              oneCallRun).pool.Began ≤ 1 ∧
          (∀ w1 : ResponseRecorder, okHandler NewRecorder plainGet = Outcome.returns w1 →
            c.Returned = true →
            List.count (Gateway.init 1).Calls.length
              (((Gateway.init 1).step (Event.enqueue okHandler NewRecorder plainGet)).exec
                oneCallRun).pool.Began = 1 ∧
            List.count (Gateway.init 1).Calls.length
              (((Gateway.init 1).step (Event.enqueue okHandler NewRecorder plainGet)).exec
                oneCallRun).pool.executing = 0 ∧
            c.w = w1) ∧
          ((∀ c2 ∈ (((Gateway.init 1).step
                (Event.enqueue okHandler NewRecorder plainGet)).exec oneCallRun).Calls,
              ∃ w2 : ResponseRecorder, c2.handlerFunc c2.w0 c2.r = Outcome.returns w2) →
            (((Gateway.init 1).step (Event.enqueue okHandler NewRecorder plainGet)).exec
              oneCallRun).pool.Crashed = false ∧
            ∃ (tr3 : List Event) (c3 : Call),
              ((((Gateway.init 1).step (Event.enqueue okHandler NewRecorder plainGet)).exec
                oneCallRun).exec tr3).Calls[(Gateway.init 1).Calls.length]? = some c3 ∧
              c3.Returned = true ∧ okHandler NewRecorder plainGet = Outcome.returns c3.w) :=
  ⟨by decide, by decide, by decide, by decide,
   enqueueJob_runs_handler_once 1 (by decide) [] okHandler NewRecorder plainGet oneCallRun
     (Gateway.init 1) rfl (by decide) _ rfl⟩
end Konzek
